import Mathlib

/-!
# xerogolang: the API access layer

A shallow embedding of the request-rate tracker and the request executor of
`oauth2.go`, and of the time normalizer and the other helpers of
`helpers/helpers.go`.

Conventions of the embedding.

* An instant (`time.Time`) is an integer count of nanoseconds on one time line.
* A `time.Duration` is a signed 64-bit count of nanoseconds: it is an `Int`
  kept inside the int64 range by `wrap64` (Go integer arithmetic wraps) and
  by `saturate` (`Time.Sub` saturates).
* The package-level map `requestTimestamps` (`map[string]*[]time.Time`) is a
  function from tenant identifiers to an optional sequence; `none` is the nil
  pointer that an absent key yields.
* A run-time panic is the value `none` (or `Outcome.panic`).
-/

namespace Xero

/-! ## Time -/

/-- The constant `time.Millisecond`. -/
def Millisecond : Int := 1000000

/-- The constant `time.Second`. -/
def Second : Int := 1000000000

/-- The smallest duration, `-1 << 63`. -/
def minDuration : Int := -9223372036854775808

/-- The largest duration, `1<<63 - 1`. -/
def maxDuration : Int := 9223372036854775807

/-- Two's-complement wrap-around of int64 arithmetic. -/
def wrap64 (x : Int) : Int := (x + 9223372036854775808) % 18446744073709551616 - 9223372036854775808

/-- Clamp into the int64 range, as `Time.Sub` does on overflow. -/
def saturate (x : Int) : Int :=
  if x < minDuration then minDuration else if maxDuration < x then maxDuration else x

/-- The duration `t - u` of `Time.Sub`: exact when representable, otherwise the
nearest of `minDuration` and `maxDuration`. -/
def Sub (t u : Int) : Int := saturate (t - u)

/-- The result of `time.Since(t)` when the clock reads `now`. -/
def Since (now t : Int) : Int := Sub now t

/-- How long `time.Sleep(d)` lasts at least: a negative or zero duration makes
it return immediately. -/
def sleepLength (d : Int) : Int := if d ≤ 0 then 0 else d

/-! ## The rate window tracker -/

/-- The package-level map `requestTimestamps`: per tenant, a pointer to the
sequence of recorded instants (`none` is nil). -/
abbrev Tracker := String → Option (List Int)

/-- The fields of `Oauth2Provider` that the request path reads. -/
structure Oauth2Provider where
  UserAgentString : String
  TenantID : String
  debug : Bool
  deriving Repr, DecidableEq

/-- The nil check at the head of `sleepUntilRequestLimit`: an absent sequence
is replaced by a fresh empty one. -/
def ensureSequence (p : Oauth2Provider) (rt : Tracker) : Tracker :=
  if rt p.TenantID = none then Function.update rt p.TenantID (some []) else rt

/-- The argument that `sleepUntilRequestLimit` passes to `time.Sleep` for the
sequence `ts` when the clock reads `now`; `none` when it returns without
sleeping. The index `[0]` is read only when `ts` holds at least 60 entries. -/
def requestLimitSleep (now : Int) (ts : List Int) : Option Int :=
  let duration := 60 * Second
  let limit := 60
  if ts.length < limit then none
  else
    let diff := Since now (ts.headD 0)
    if diff ≥ 60 * Second then none
    else some (wrap64 (duration - diff + 1 * Millisecond))

/-- The method `sleepUntilRequestLimit`, run when the clock reads `now`: the
map afterwards and the argument of its `time.Sleep` call, if it makes one. -/
def sleepUntilRequestLimit (p : Oauth2Provider) (now : Int) (rt : Tracker) :
    Tracker × Option Int :=
  let rt1 := ensureSequence p rt
  (rt1, requestLimitSleep now ((rt1 p.TenantID).getD []))

/-- The time the gate makes its caller wait: nothing when it returns early,
otherwise what `time.Sleep` makes of the requested duration. -/
def gateWait (p : Oauth2Provider) (now : Int) (rt : Tracker) : Int :=
  match (sleepUntilRequestLimit p now rt).2 with
  | none => 0
  | some d => sleepLength d

/-- The slice expression `s[1:60]`. -/
def slice1to60 (ts : List Int) : List Int := (ts.take 60).drop 1

/-- The method `RegisterRequestTimestamp`; `none` is the nil-pointer panic of
`len(*requestTimestamps[p.TenantID])` on a tenant without a sequence. -/
def RegisterRequestTimestamp (p : Oauth2Provider) (t : Int) (rt : Tracker) :
    Option Tracker :=
  match rt p.TenantID with
  | none => none
  | some ts =>
    let ts1 := if ts.length ≥ 60 then slice1to60 ts else ts
    some (Function.update rt p.TenantID (some (ts1 ++ [t])))

/-- One call on the tracker, made by the provider `p`. -/
inductive TrackerOp where
  | gate (now : Int)
  | register (t : Int)
  deriving Repr, DecidableEq

/-- Run one tracker call. -/
def TrackerOp.run (p : Oauth2Provider) (op : TrackerOp) (rt : Tracker) : Option Tracker :=
  match op with
  | .gate now => some (sleepUntilRequestLimit p now rt).1
  | .register t => RegisterRequestTimestamp p t rt

/-- Run a finite sequence of tracker calls, in order. -/
def runOps (p : Oauth2Provider) : List TrackerOp → Tracker → Option Tracker
  | [], rt => some rt
  | op :: ops, rt =>
    match op.run p rt with
    | none => none
    | some rt1 => runOps p ops rt1

/-- Record the instants `ts` one after the other. -/
def registerAll (p : Oauth2Provider) (ts : List Int) (rt : Tracker) : Option Tracker :=
  runOps p (ts.map TrackerOp.register) rt

/-- The map in which no tenant has a sequence. -/
def emptyTracker : Tracker := fun _ => none

/-- The map in which only `tenant` has a sequence, `ts`. -/
def singleTracker (tenant : String) (ts : List Int) : Tracker :=
  Function.update emptyTracker tenant (some ts)

/-! ## The sequential world: a clock, the tracker and the logs -/

/-- A header set, as the list of the values added, in order. -/
abbrev Header := List (String × String)

/-- The parts of an `http.Request` that the request path touches. -/
structure Request where
  Method : String
  URL : String
  Header : Header
  Body : Option String
  deriving Repr, DecidableEq

/-- The state that a sequential run of the request path reads and writes: the
clock, the map `requestTimestamps`, the arguments of the `time.Sleep` calls made
so far, the requests handed to the transport so far, and what was printed on
standard output. -/
structure World where
  clock : Int
  requestTimestamps : Tracker
  slept : List Int
  sent : List Request
  stdout : List String

/-- The call `p.sleepUntilRequestLimit()` in a run: `idle` nanoseconds pass
before the gate reads the clock, and a sleep lasts as long as requested. -/
def World.gate (p : Oauth2Provider) (idle : Nat) (w : World) : World :=
  let now := w.clock + idle
  let r := sleepUntilRequestLimit p now w.requestTimestamps
  match r.2 with
  | none => { w with clock := now, requestTimestamps := r.1 }
  | some d =>
    { w with clock := now + sleepLength d, requestTimestamps := r.1, slept := w.slept ++ [d] }

/-- The call `p.RegisterRequestTimestamp(time.Now())` in a run: `latency`
nanoseconds have passed since the gate let the request go (the send, and any
excess of the sleep over the requested duration). -/
def World.record (p : Oauth2Provider) (latency : Nat) (w : World) : Option World :=
  let now := w.clock + latency
  match RegisterRequestTimestamp p now w.requestTimestamps with
  | none => none
  | some rt => some { w with clock := now, requestTimestamps := rt }

/-- A sequence of send attempts, each one gate, send, record, with the times
`(idle, latency)` that the environment takes; the result is the final world
and the instants recorded, in order. -/
def attempts (p : Oauth2Provider) : List (Nat × Nat) → World → Option (World × List Int)
  | [], w => some (w, [])
  | x :: xs, w =>
    match (w.gate p x.1).record p x.2 with
    | none => none
    | some w1 =>
      match attempts p xs w1 with
      | none => none
      | some r => some (r.1, w1.clock :: r.2)

/-- The world at clock reading `clock` in which no tenant has a sequence. -/
def World.fresh (clock : Int) : World :=
  { clock := clock, requestTimestamps := emptyTracker, slept := [], sent := [], stdout := [] }

/-- The number of instants of `ts` in the interval `[x, x + 60s)`. -/
def countInWindow (x : Int) (ts : List Int) : Nat :=
  ts.countP (fun t => decide (x ≤ t) && decide (t < x + 60 * Second))

/-! ## Standard-library behaviour that the request path relies on

The functions of this section are not part of the repository: they render the
documented behaviour of Go's `fmt`, `time`, `io` and `net/textproto` on the
inputs that the request path hands them. -/

/-- The helper `tooLarge` of package `fmt`. -/
def fmtTooLarge (num : Nat) : Bool := decide (num > 1000000)

/-- The helper `parsenum` of package `fmt` on the text from the current position
on: the number read, whether a digit was read, and the text that remains. A
number that grows too large gives up at the end of the text. -/
def fmtParsenum : List Char → Nat → Bool → Nat × Bool × List Char
  | [], num, isnum => (num, isnum, [])
  | c :: cs, num, isnum =>
    if c.isDigit then
      if fmtTooLarge num then (0, false, [])
      else fmtParsenum cs (num * 10 + (c.toNat - 48)) true
    else (num, isnum, c :: cs)

/-- The helper `parseArgNumber` of package `fmt` on a text that starts with `[`:
how many characters the index takes, and whether it is well formed. -/
def fmtParseArgNumber (s : List Char) : Nat × Bool :=
  if s.length < 3 then (1, false)
  else
    let inner := (s.drop 1).takeWhile (fun c => c != ']')
    if inner.length + 1 < s.length then
      let r := fmtParsenum inner 0 false
      if !r.2.1 || !r.2.2.isEmpty then (inner.length + 2, false)
      else (inner.length + 2, true)
    else (1, false)

/-- The method `argNumber` of package `fmt` when there are no operands: the text
that remains, whether an index was found, and whether a `[` was seen (which
without operands always marks the argument number as bad). -/
def fmtArgNumber (s : List Char) : List Char × Bool × Bool :=
  match s with
  | '[' :: _ =>
    let r := fmtParseArgNumber s
    (s.drop r.1, r.2, true)
  | _ => (s, false, false)

/-- One directive of a format, after its `%`, formatted with no operands: the
text written and the format that remains. -/
def fmtDirective (r1 : List Char) : List Char × List Char :=
  let r2 := r1.dropWhile (fun c => c == '#' || c == '0' || c == '+' || c == '-' || c == ' ')
  let a1 := fmtArgNumber r2
  let w : List Char × List Char × Bool × Bool :=
    match a1.1 with
    | '*' :: r => ("%!(BADWIDTH)".toList, r, false, !a1.2.2)
    | r =>
      let n := fmtParsenum r 0 false
      ([], n.2.2, a1.2.1, !a1.2.2 && !(a1.2.1 && n.2.1))
  let pr : List Char × List Char × Bool × Bool :=
    match w.2.1 with
    | '.' :: c :: r0 =>
      let r := c :: r0
      let good := w.2.2.2 && !w.2.2.1
      let a2 := fmtArgNumber r
      match a2.1 with
      | '*' :: r3 => (w.1 ++ "%!(BADPREC)".toList, r3, false, good && !a2.2.2)
      | r3 => (w.1, (fmtParsenum r3 0 false).2.2, a2.2.1, good && !a2.2.2)
    | r => (w.1, r, w.2.2.1, w.2.2.2)
  let a3 : List Char × Bool :=
    if pr.2.2.1 then (pr.2.1, pr.2.2.2)
    else
      let a := fmtArgNumber pr.2.1
      (a.1, pr.2.2.2 && !a.2.2)
  match a3.1 with
  | [] => (pr.1 ++ "%!(NOVERB)".toList, [])
  | verb :: rest =>
    if verb = '%' then (pr.1 ++ ['%'], rest)
    else if !a3.2 then (pr.1 ++ "%!".toList ++ [verb] ++ "(BADINDEX)".toList, rest)
    else (pr.1 ++ "%!".toList ++ [verb] ++ "(MISSING)".toList, rest)

/-- The loop of `doPrintf` of package `fmt` with no operands; `fuel` bounds the
number of directives. -/
def fmtDoPrintf : Nat → List Char → List Char
  | 0, _ => []
  | fuel + 1, format =>
    let lit := format.takeWhile (fun c => c != '%')
    match format.dropWhile (fun c => c != '%') with
    | [] => lit
    | _ :: r1 =>
      let d := fmtDirective r1
      lit ++ d.1 ++ fmtDoPrintf fuel d.2

/-- The result of `fmt.Sprintf(format)` called with a format and no operands. -/
def fmtSprintf (format : String) : String :=
  String.mk (fmtDoPrintf (format.length + 1) format.toList)

/-- The message of the error `fmt.Errorf(format)` built from a format and no
operands. -/
def fmtErrorf (format : String) : String := fmtSprintf format

/-- The helper `leadingInt` of package `time`: the number read, the text that
remains, and whether the number overflowed. -/
def leadingInt : List Char → Nat → Option (Nat × List Char)
  | [], x => some (x, [])
  | c :: cs, x =>
    if c.isDigit then
      if x > 9223372036854775808 / 10 then none
      else
        let x1 := x * 10 + (c.toNat - 48)
        if x1 > 9223372036854775808 then none else leadingInt cs x1
    else some (x, c :: cs)

/-- A non-negative value of type `float64`: a finite value as the fraction
`num / den`, or `none` for `+Inf`. -/
abbrev Float64 := Option (Nat × Nat)

/-- The `float64` nearest to the fraction `n / d` (with `d > 0`), ties going to
the even significand: 53 significant bits, exponents from -1074, and `+Inf`
from `2^1024` on. -/
def roundFloat64 (n d : Nat) : Float64 :=
  if n = 0 then some (0, 1)
  else
    let e0 : Int := (Nat.log2 n : Int) - (Nat.log2 d : Int)
    let ge : Bool :=
      if e0 ≥ 0 then decide (n ≥ d * 2 ^ e0.toNat) else decide (n * 2 ^ (-e0).toNat ≥ d)
    -- the binary exponent of n / d
    let e : Int := if ge then e0 else e0 - 1
    -- the exponent of the last bit of the significand
    let p : Int := max (e - 52) (-1074)
    let num := if p ≥ 0 then n else n * 2 ^ (-p).toNat
    let den := if p ≥ 0 then d * 2 ^ p.toNat else d
    let q := num / den
    let r := num % den
    let m :=
      if 2 * r < den then q else if 2 * r > den then q + 1 else if q % 2 = 0 then q else q + 1
    if e ≥ 1024 ∨ (p = 971 ∧ m ≥ 2 ^ 53) then none
    else if p ≥ 0 then some (m * 2 ^ p.toNat, 1) else some (m, 2 ^ (-p).toNat)

/-- The product of two `float64` values. -/
def Float64.mul (x y : Float64) : Float64 :=
  match x, y with
  | some (a, b), some (c, d) => roundFloat64 (a * c) (b * d)
  | _, _ => none

/-- The quotient of a finite `float64` by a positive `float64`. -/
def Float64.div (x y : Float64) : Float64 :=
  match x, y with
  | some (a, b), some (c, d) => roundFloat64 (a * d) (b * c)
  | some _, none => some (0, 1)
  | none, _ => none

/-- The conversion `uint64(x)` of a `float64`: the integer part of a finite
value below `2^64`; otherwise `2^63`, as on amd64. -/
def Float64.toUint64 (x : Float64) : Nat :=
  match x with
  | some (a, b) => if a / b < 18446744073709551616 then a / b else 9223372036854775808
  | none => 9223372036854775808

/-- The helper `leadingFraction` of package `time`: the digits read as a number,
the `float64` power of ten that scales them, and the text that remains. -/
def leadingFraction : List Char → Nat → Float64 → Bool → Nat × Float64 × List Char
  | [], x, scale, _ => (x, scale, [])
  | c :: cs, x, scale, overflow =>
    if c.isDigit then
      if overflow then leadingFraction cs x scale true
      else if x > 9223372036854775807 / 10 then leadingFraction cs x scale true
      else
        let y := x * 10 + (c.toNat - 48)
        if y > 9223372036854775808 then leadingFraction cs x scale true
        else leadingFraction cs y (Float64.mul scale (some (10, 1))) false
    else (x, scale, c :: cs)

/-- The table `unitMap` of package `time`, in nanoseconds. -/
def unitMap (u : String) : Option Nat :=
  if u = "ns" then some 1
  else if u = "us" then some 1000
  else if u = "µs" then some 1000
  else if u = "μs" then some 1000
  else if u = "ms" then some 1000000
  else if u = "s" then some 1000000000
  else if u = "m" then some 60000000000
  else if u = "h" then some 3600000000000
  else none

/-- The table `lowerhex` of package `time`. -/
def lowerhex (n : Nat) : Char := "0123456789abcdef".toList.getD n '0'

/-- The function `quote` of package `time`: the text between double quotes
(character 34), a double quote and a backslash (character 92) escaped by a
backslash, every byte of a character that is not printable ASCII written as a
backslash, `x` and two hexadecimal digits. -/
def quote (s : String) : String :=
  String.mk ([Char.ofNat 34] ++ s.toList.flatMap (fun c =>
    if c.toNat ≥ 128 ∨ c.toNat < 32 then
      (String.utf8EncodeChar c).flatMap
        (fun b => [Char.ofNat 92, 'x', lowerhex (b.toNat / 16), lowerhex (b.toNat % 16)])
    else if c = Char.ofNat 34 ∨ c = Char.ofNat 92 then [Char.ofNat 92, c]
    else [c]) ++ [Char.ofNat 34])

/-- The loop of `time.ParseDuration` over the groups of number and unit, `d`
being the sum so far and `orig` the text given to `ParseDuration`; the error is
the message of the error returned. -/
def parseDurationLoop (orig : String) : Nat → List Char → Nat → Except String Nat
  | 0, _, _ => .error ("time: invalid duration " ++ quote orig)
  | fuel + 1, s, d =>
    match s with
    | [] => .ok d
    | c :: _ =>
      -- The next character must be [0-9.]
      if !(c = '.' || c.isDigit) then .error ("time: invalid duration " ++ quote orig)
      else
        -- Consume [0-9]*
        match leadingInt s 0 with
        | none => .error ("time: invalid duration " ++ quote orig)
        | some (v, s1) =>
          let pre := s.length != s1.length
          -- Consume an optional dot and [0-9]*
          let fr : Nat × Float64 × List Char × Bool :=
            match s1 with
            | '.' :: s2 =>
              let r := leadingFraction s2 0 (some (1, 1)) false
              (r.1, r.2.1, r.2.2, s2.length != r.2.2.length)
            | _ => (0, some (1, 1), s1, false)
          if !pre && !fr.2.2.2 then .error ("time: invalid duration " ++ quote orig)
          else
            -- Consume unit.
            let u := fr.2.2.1.takeWhile (fun c => !(c = '.' || c.isDigit))
            let s3 := fr.2.2.1.dropWhile (fun c => !(c = '.' || c.isDigit))
            if u.isEmpty then .error ("time: missing unit in duration " ++ quote orig)
            else
              match unitMap (String.mk u) with
              | none =>
                .error ("time: unknown unit " ++ quote (String.mk u) ++ " in duration "
                  ++ quote orig)
              | some unit =>
                if v > 9223372036854775808 / unit then
                  .error ("time: invalid duration " ++ quote orig)
                else
                  let v0 := v * unit
                  let v1 :=
                    if fr.1 > 0 then
                      (v0 + (Float64.mul (roundFloat64 fr.1 1)
                        (Float64.div (roundFloat64 unit 1) fr.2.1)).toUint64)
                        % 18446744073709551616
                    else v0
                  if fr.1 > 0 && v1 > 9223372036854775808 then
                    .error ("time: invalid duration " ++ quote orig)
                  else
                    let d1 := (d + v1) % 18446744073709551616
                    if d1 > 9223372036854775808 then
                      .error ("time: invalid duration " ++ quote orig)
                    else parseDurationLoop orig fuel s3 d1

/-- The function `time.ParseDuration`: the duration in nanoseconds, or the
message of the error. -/
def ParseDuration (s : String) : Except String Int :=
  let neg := s.toList.head? = some '-'
  let body := match s.toList with
    | '-' :: r => r
    | '+' :: r => r
    | r => r
  if body = ['0'] then .ok 0
  else if body = [] then .error ("time: invalid duration " ++ quote s)
  else
    match parseDurationLoop s (body.length + 1) body 0 with
    | .error e => .error e
    | .ok d =>
      if neg then .ok (-(d : Int))
      else if d > 9223372036854775807 then .error ("time: invalid duration " ++ quote s)
      else .ok (d : Int)

/-- Whether a character may occur in a header field name (a token character). -/
def isTokenChar (c : Char) : Bool :=
  c.isAlphanum || "!#$%&*+-.^_|~".toList.contains c || c.toNat = 39 || c.toNat = 96

/-- Upper-case the first letter and every letter after a hyphen, lower-case
the others. -/
def canonicalLetters : Bool → List Char → List Char
  | _, [] => []
  | upper, c :: cs =>
    (if upper then c.toUpper else c.toLower) :: canonicalLetters (c == '-') cs

/-- The function `textproto.CanonicalMIMEHeaderKey`: a name with a character
that is not a token character is returned unchanged. -/
def CanonicalMIMEHeaderKey (key : String) : String :=
  if key.toList.all isTokenChar then String.mk (canonicalLetters true key.toList) else key

/-- The method `Header.Add`. -/
def Header.Add (h : Header) (key value : String) : Header :=
  h ++ [(CanonicalMIMEHeaderKey key, value)]

/-- The method `Header.Get`: the first value of the key, or the empty string. -/
def Header.Get (h : Header) (key : String) : String :=
  match h.find? (fun kv => kv.1 = CanonicalMIMEHeaderKey key) with
  | some kv => kv.2
  | none => ""

/-- A response body: what reading it to the end delivers, and the error, if
any, that the read ends with. -/
structure Body where
  content : String
  readErr : Option String
  deriving Repr, DecidableEq

/-- The function `io.ReadAll`: the bytes read, never a nil slice, and the
error of the read. -/
def ioReadAll (b : Body) : Option String × Option String := (some b.content, b.readErr)

/-! ## The request executor -/

/-- The parts of an `http.Response` that the request path reads. -/
structure Response where
  StatusCode : Int
  Header : Header
  Body : Body
  deriving Repr, DecidableEq

/-- What the environment does on one send attempt: the time that passes before
the gate reads the clock (`idle`) and between the gate and the reading of the
clock after the send (`latency`), the two results of `Client.Do`, and whether
a write to standard output fails. -/
structure Exchange where
  idle : Nat
  latency : Nat
  response : Option Response
  err : Option String
  stdoutFails : Bool
  deriving Repr, DecidableEq

/-- How a call of `processRequest` ends: with a run-time panic, with the two
results `([]byte, error)`, or, in a run whose script of exchanges is used up,
waiting for a send that the script does not describe. -/
inductive Outcome where
  | panic
  | starved
  | returned (bytes : Option String) (err : Option String)
  deriving Repr, DecidableEq

/-- The function `helpers.ReaderToString`: the string returned and the text
printed on standard output, if the print succeeds. -/
def ReaderToString (reader : Option Body) (stdoutFails : Bool) : String × Option String :=
  match reader with
  | none => ("", none)
  | some b =>
    match b.readErr with
    | some _ => ("", none)
    | none =>
      let newString := b.content
      if stdoutFails then ("", none)
      else (newString, some (fmtSprintf newString))

/-- The method `sleepUntilRetryAfter`: the argument of its `time.Sleep` call, if
it makes one, and the error it returns. -/
def sleepUntilRetryAfter (req : Response) : Option Int × Option String :=
  let retryAfter := req.Header.Get "Retry-After"
  if retryAfter = "" then (none, none)
  else
    match ParseDuration (retryAfter ++ "s") with
    | .error err => (none, some err)
    | .ok diff => (some diff, none)

/-- The call `p.sleepUntilRetryAfter(response)` in a run; its error is dropped
by the caller. -/
def World.backoff (response : Response) (w : World) : World :=
  match (sleepUntilRetryAfter response).1 with
  | none => w
  | some diff => { w with clock := w.clock + sleepLength diff, slept := w.slept ++ [diff] }

/-- The header lines that `processRequest` adds to the request on entry. The
map `additionalHeaders` is given as the list of its entries in the order in
which the runtime ranges over them. -/
def addRequestHeaders (p : Oauth2Provider) (additionalHeaders : List (String × String))
    (request : Request) : Request :=
  let h1 := (request.Header.Add "User-Agent" p.UserAgentString).Add "Xero-tenant-id" p.TenantID
  { request with Header := additionalHeaders.foldl (fun h kv => h.Add kv.1 kv.2) h1 }

/-- The method `processRequest`, run against a script of exchanges, one per send
attempt. With `p.debug` set, the dump of the request cannot fail (its body is
in memory) and the dump of a response fails exactly when reading its body
fails; the log lines are not part of the state. -/
def processRequest (p : Oauth2Provider) (additionalHeaders : List (String × String)) :
    List Exchange → Request → World → Outcome × World
  | [], _, w => (.starved, w)
  | x :: xs, request, w =>
    let request := addRequestHeaders p additionalHeaders request
    -- if we come up to the request limit, throttle the requests by sleeping
    let w := w.gate p x.idle
    let w := { w with sent := w.sent ++ [request] }
    -- register timestamp after request has a response
    match w.record p x.latency with
    | none => (.panic, w)
    | some w =>
      match (if p.debug then x.response.bind (fun r => r.Body.readErr) else none) with
      | some e => (.returned none (some e), w)
      | none =>
        match x.response with
        | none => (.panic, w)
        | some response =>
          -- Handle 429 - Too many requests
          if response.StatusCode = 429 then
            processRequest p additionalHeaders xs request (w.backoff response)
          else
            match x.err with
            | some e => (.returned none (some e), w)
            | none =>
              if response.StatusCode ≠ 200 then
                let r := ReaderToString (some response.Body) x.stdoutFails
                (.returned none (some (fmtErrorf r.1)),
                  { w with stdout := w.stdout ++ r.2.toList })
              else
                match ioReadAll response.Body with
                | (_, some e) => (.returned none (some ("Could not read response: " ++ e)), w)
                | (none, none) => (.panic, w)
                | (some responseBytes, none) => (.returned (some responseBytes) none, w)

/-- The world in which `processRequest` classifies the result of a send: the
gate has run, `request` has been handed to the transport, and the instant read
after the send has been recorded; `none` is a panic of the recording. -/
def World.afterSend (p : Oauth2Provider) (x : Exchange) (request : Request) (w : World) :
    Option World :=
  World.record p x.latency { w.gate p x.idle with sent := (w.gate p x.idle).sent ++ [request] }

/-- Whether `processRequest` answers the exchange by sending the request again:
the response has status 429 and, when `debug` is set, its dump succeeds. -/
def Exchange.throttled (debug : Bool) (x : Exchange) : Bool :=
  match x.response with
  | none => false
  | some r => decide (r.StatusCode = 429) && (!debug || r.Body.readErr.isNone)

/-- The number that a string of decimal digits denotes, read from the left with
`acc` the value so far. -/
def decimalValue (acc : Nat) (ds : List Char) : Nat :=
  ds.foldl (fun a c => a * 10 + (c.toNat - 48)) acc

/-! ## Standard-library behaviour that the time normalizer relies on

As above, these functions render Go's `strconv`, `regexp`, `strings` and `time`
on the inputs that `helpers.go` hands them. The calendar computation follows
`absDate` and `absClock` of package `time`. -/

/-- The error of `strconv.ParseInt`: `ErrSyntax` (`invalid`) or `ErrRange`
(`outOfRange`), with the input it was raised on. -/
inductive NumError where
  | invalid (input : String)
  | outOfRange (input : String)
  deriving Repr, DecidableEq

/-- The loop of `strconv.ParseUint(s, 10, 64)`, `n` being the value so far:
`none` for a character that is not a decimal digit, `some none` for a value
beyond 64 bits. -/
def parseUintLoop : List Char → Nat → Option (Option Nat)
  | [], n => some (some n)
  | c :: cs, n =>
    if c.isDigit then
      if n ≥ 1844674407370955162 then some none
      else
        let n1 := n * 10 + (c.toNat - 48)
        if n1 > 18446744073709551615 then some none else parseUintLoop cs n1
    else none

/-- The function `strconv.ParseInt(s, 10, 64)`. -/
def ParseInt (s : String) : Except NumError Int :=
  if s = "" then .error (.invalid s)
  else
    let neg := s.toList.head? = some '-'
    let digits := match s.toList with
      | '+' :: r => r
      | '-' :: r => r
      | r => r
    if digits = [] then .error (.invalid s)
    else
      match parseUintLoop digits 0 with
      | none => .error (.invalid s)
      | some none => .error (.outOfRange s)
      | some (some un) =>
        if !neg && un ≥ 9223372036854775808 then .error (.outOfRange s)
        else if neg && un > 9223372036854775808 then .error (.outOfRange s)
        else .ok (if neg then -(un : Int) else (un : Int))

/-- The call `FindAllString(s, -1)` of the pattern `[0-9+-]`, joined by
`strings.Join(_, "")`: the digits and signs of `s`, in order. -/
def digitsAndSigns (s : List Char) : List Char :=
  s.filter (fun c => c.isDigit || c == '+' || c == '-')

/-- The call `Split(s, 2)` of a pattern that matches the one character `sep`. -/
def regexpSplit2 (sep : Char) (s : List Char) : List (List Char) :=
  if s = [] then [[]]
  else if s.contains sep then
    [s.takeWhile (fun c => c != sep), (s.dropWhile (fun c => c != sep)).drop 1]
  else [s]

/-- The function `strings.TrimSuffix`. -/
def TrimSuffix (s suffix : List Char) : List Char :=
  if suffix.isSuffixOf s then s.take (s.length - suffix.length) else s

/-- The table `daysBefore` of package `time`. -/
def daysBefore : List Nat := [0, 31, 59, 90, 120, 151, 181, 212, 243, 273, 304, 334, 365]

/-- The function `isLeap` of package `time`. -/
def isLeap (year : Int) : Bool := year % 4 == 0 && (year % 100 != 0 || year % 400 == 0)

/-- The absolute second count (seconds since the start of the year
-292277022399, as an unsigned 64-bit number) of the instant `time.Unix(sec, 0)`. -/
def unixToAbs (sec : Int) : Nat := ((sec + 9223372028715321600) % 18446744073709551616).toNat

/-- The year and the day of the year (from 0) of `absDate`. -/
def absYearDay (abs : Nat) : Int × Nat :=
  let d := abs / 86400
  -- Account for 400 year cycles.
  let n := d / 146097
  let y := 400 * n
  let d := d - 146097 * n
  -- Cut off 100-year cycles.
  let n := d / 36524
  let n := n - n / 4
  let y := y + 100 * n
  let d := d - 36524 * n
  -- Cut off 4-year cycles.
  let n := d / 1461
  let y := y + 4 * n
  let d := d - 1461 * n
  -- Cut off years within a 4-year cycle.
  let n := d / 365
  let n := n - n / 4
  let y := y + n
  let d := d - 365 * n
  ((y : Int) + (-292277022399), d)

/-- The month (1 to 12) and the day of the month of `absDate`, from the year
and the day of the year. -/
def monthDay (year : Int) (yday : Nat) : Nat × Nat :=
  if isLeap year && yday == 31 + 29 - 1 then (2, 29)
  else
    let day := if isLeap year && yday > 31 + 29 - 1 then yday - 1 else yday
    let month := day / 31
    let mEnd := daysBefore.getD (month + 1) 0
    if day ≥ mEnd then (month + 1 + 1, day - mEnd + 1)
    else (month + 1, day - daysBefore.getD month 0 + 1)

/-- The function `absClock` of package `time`: hour, minute, second. -/
def absClock (abs : Nat) : Nat × Nat × Nat :=
  let sec := abs % 86400
  let hour := sec / 3600
  let sec := sec - hour * 3600
  let min := sec / 60
  let sec := sec - min * 60
  (hour, min, sec)

/-- The function `appendInt` of package `time`: the decimal digits of `x`, with a
sign when negative, padded with zeros to `width` digits. -/
def appendInt (x : Int) (width : Nat) : List Char :=
  let u := x.natAbs
  let sign : List Char := if x < 0 then ['-'] else []
  if width = 2 ∧ u < 100 then sign ++ [Nat.digitChar (u / 10), Nat.digitChar (u % 10)]
  else if width = 4 ∧ u < 10000 then
    sign ++ [Nat.digitChar (u / 100 / 10), Nat.digitChar (u / 100 % 10),
      Nat.digitChar (u % 100 / 10), Nat.digitChar (u % 100 % 10)]
  else
    sign ++ List.replicate (width - (Nat.toDigits 10 u).length) '0' ++ Nat.toDigits 10 u

/-- The text of `time.Unix(sec, 0).UTC().Format(time.RFC3339)`. -/
def formatRFC3339UTC (sec : Int) : List Char :=
  let abs := unixToAbs sec
  let yd := absYearDay abs
  let md := monthDay yd.1 yd.2
  let clock := absClock abs
  appendInt yd.1 4 ++ ['-'] ++ appendInt md.1 2 ++ ['-'] ++ appendInt md.2 2 ++ ['T']
    ++ appendInt clock.1 2 ++ [':'] ++ appendInt clock.2.1 2 ++ [':'] ++ appendInt clock.2.2 2
    ++ ['Z']

/-! ## The time normalizer -/

/-- The function `getTimestampAndOffset`, on the pattern that matches `sep`;
`none` is the panic of an index out of range. -/
def getTimestampAndOffset (sep : Char) (timeString : List Char) :
    Option (Except NumError (Int × Int)) :=
  let separatedValues := regexpSplit2 sep timeString
  match separatedValues[0]? with
  | none => none
  | some v0 =>
    match ParseInt (String.mk v0) with
    | .error e => some (.error e)
    | .ok timestamp =>
      match separatedValues[1]? with
      | none => none
      | some v1 =>
        match ParseInt (String.mk v1) with
        | .error e => some (.error e)
        | .ok offset => some (.ok (timestamp, offset))

/-- The seconds since the Unix epoch that `DotNetJSONTimeToRFC3339` passes to
`time.Unix` for the extracted digits and signs; int64 division truncates and
int64 addition wraps. -/
def legacySeconds (jsonTimeString : List Char) : Option (Except NumError Int) :=
  if jsonTimeString.contains '+' then
    match getTimestampAndOffset '+' jsonTimeString with
    | none => none
    | some (.error e) => some (.error e)
    | some (.ok r) => some (.ok (wrap64 (Int.tdiv r.1 1000 + r.2)))
  else if jsonTimeString.contains '-' then
    match getTimestampAndOffset '-' jsonTimeString with
    | none => none
    | some (.error e) => some (.error e)
    | some (.ok r) => some (.ok (wrap64 (Int.tdiv r.1 1000 - r.2)))
  else
    match ParseInt (String.mk jsonTimeString) with
    | .error e => some (.error e)
    | .ok timestamp => some (.ok (Int.tdiv timestamp 1000))

/-- The function `DotNetJSONTimeToRFC3339`: the two results `(string, error)`,
or `none` for a panic. `nowText` is what `time.Now().Format(time.RFC3339)` gives
at the time of the call. -/
def DotNetJSONTimeToRFC3339 (nowText : String) (jsonTime : String) (isUTC : Bool) :
    Option (String × Option NumError) :=
  if jsonTime = "" then some ("", none)
  else
    match legacySeconds (digitsAndSigns jsonTime.toList) with
    | none => none
    | some (.error e) => some (nowText, some e)
    | some (.ok sec) =>
      let formattedTime := formatRFC3339UTC sec
      if isUTC then some (String.mk formattedTime, none)
      else some (String.mk (TrimSuffix formattedTime ['Z']), none)

/-- The text has the layout `YYYY-MM-DDTHH:MM:SSZ`, every letter of the layout
but `T` and `Z` standing for a decimal digit. -/
def IsRFC3339UTCLayout (s : List Char) : Prop :=
  ∃ y1 y2 y3 y4 m1 m2 d1 d2 h1 h2 n1 n2 s1 s2 : Char,
    s = [y1, y2, y3, y4, '-', m1, m2, '-', d1, d2, 'T', h1, h2, ':', n1, n2, ':', s1, s2, 'Z'] ∧
    ∀ c ∈ [y1, y2, y3, y4, m1, m2, d1, d2, h1, h2, n1, n2, s1, s2], c.isDigit = true

/-- The last 60 entries of a history of recorded instants. -/
def lastSixty (hist : List Int) : List Int := hist.drop (hist.length - 60)

/-- Every instant of the list lies at least 60 seconds after the one 60
places before it. -/
def Spaced (ts : List Int) : Prop :=
  ∀ k a b, ts[k]? = some a → ts[k + 60]? = some b → a + 60 * Second ≤ b

/-- The invariant of a sequential run: the tenant's sequence is the last 60
instants of the history, the history is in time order and not ahead of the
clock, and it is spaced. -/
structure RunInv (p : Oauth2Provider) (w : World) (hist : List Int) : Prop where
  window : (w.requestTimestamps p.TenantID).getD [] = lastSixty hist
  sorted : hist.Pairwise (fun a b => a ≤ b)
  bound : ∀ t ∈ hist, t ≤ w.clock
  spaced : Spaced hist

/-! ## Notions that the claims on the time normalizer refer to -/

/-- The characters of `s` that are a decimal digit, `+` or `-`, in order: the
subsequence that a claim on wrapper characters speaks of. -/
def signedDigitSubsequence (s : List Char) : List Char :=
  s.filter (fun c => ['0', '1', '2', '3', '4', '5', '6', '7', '8', '9', '+', '-'].contains c)

/-- The pieces of an extracted digit and sign string that are parsed as
integers: the whole string when it has no sign, otherwise the parts before and
after its first `+`, or, when it has no `+`, its first `-`. -/
def legacyPieces (s : List Char) : List (List Char) :=
  if s.contains '+' then
    [s.takeWhile (fun c => c != '+'), (s.dropWhile (fun c => c != '+')).drop 1]
  else if s.contains '-' then
    [s.takeWhile (fun c => c != '-'), (s.dropWhile (fun c => c != '-')).drop 1]
  else [s]

/-- The method `Header.Values`: the values added under the key, in order. -/
def Header.Values (h : Header) (key : String) : List String :=
  (h.filter (fun kv => kv.1 = CanonicalMIMEHeaderKey key)).map Prod.snd

/-- A sequence of calls of `processRequest`, one after the other, each with its
own script of exchanges and its own request; a panic ends the run. -/
def runCalls (p : Oauth2Provider) (additionalHeaders : List (String × String)) :
    List (List Exchange × Request) → World → List Outcome × World
  | [], w => ([], w)
  | c :: cs, w =>
    match processRequest p additionalHeaders c.1 c.2 w with
    | (.panic, w1) => ([.panic], w1)
    | (o, w1) => (o :: (runCalls p additionalHeaders cs w1).1, (runCalls p additionalHeaders cs w1).2)

/-- The instant recorded by call `k` (from 1) of a burst that starts at clock
reading `c0`, every send taking `d` nanoseconds. -/
def burstInstant (c0 : Int) (d : Nat) (k : Nat) : Int :=
  if k ≤ 60 then c0 + (k : Int) * d else c0 + ((k - 59 : Nat) : Int) * d + 60 * Second + Millisecond

/-- The instants recorded by the first `k` calls of a burst. -/
def burstHistory (c0 : Int) (d : Nat) (k : Nat) : List Int :=
  (List.range k).map (fun i => burstInstant c0 d (i + 1))

/-- The state of the world after `k` calls of a burst that started in `w0`. -/
structure BurstState (p : Oauth2Provider) (w0 : World) (d : Nat) (k : Nat) (w : World) : Prop where
  clock : w.clock = burstInstant w0.clock d k
  window : (w.requestTimestamps p.TenantID).getD [] = lastSixty (burstHistory w0.clock d k)
  slept : w.slept = if k ≤ 60 then w0.slept
    else w0.slept ++ [60 * Second - 59 * (d : Int) + Millisecond]

/-! ## The four operations of the provider

The constant `endpointProfile` is declared in a file of the package that is not
under `src/`; it is a parameter. So is `urlError`, the error, if any, with which
the URL parser of `http.NewRequestWithContext` rejects a URL. -/

/-- The table `upperhex` of package `net/url`. -/
def upperhex (n : Nat) : Char := "0123456789ABCDEF".toList.getD n '0'

/-- The function `shouldEscape` of package `net/url` in the mode
`encodeQueryComponent`, on ASCII characters: only letters, digits and `-_.~`
are left as they are. -/
def shouldEscape (c : Char) : Bool :=
  !(c.isAlphanum || c == '-' || c == '_' || c == '.' || c == '~')

/-- The function `url.QueryEscape`: a space becomes `+`, every other escaped
character becomes `%XX` for each byte of its UTF-8 encoding. -/
def QueryEscape (s : String) : String :=
  String.mk (s.toList.flatMap (fun c =>
    if !shouldEscape c then [c]
    else if c = ' ' then ['+']
    else (String.utf8EncodeChar c).flatMap
      (fun b => ['%', upperhex (b.toNat / 16), upperhex (b.toNat % 16)])))

/-- The function `strings.TrimPrefix`. -/
def TrimPrefix (s pre : List Char) : List Char :=
  if pre.isPrefixOf s then s.drop pre.length else s

/-- The function `http.NewRequestWithContext` for one of the methods GET, PUT,
POST and DELETE: it fails only on a URL that does not parse. -/
def NewRequestWithContext (urlError : String → Option String) (method url : String)
    (body : Option String) : Except String Request :=
  match urlError url with
  | some e => .error e
  | none => .ok ⟨method, url, [], body⟩

/-- The query string that `Find` appends to the URL. The map
`querystringParameters` is `none` when nil, and otherwise the list of its
entries in the order in which the runtime ranges over them. -/
def findQuerystring (querystringParameters : Option (List (String × String))) : String :=
  match querystringParameters with
  | none => ""
  | some entries =>
    let querystring := entries.foldl
      (fun querystring kv => querystring ++ "&" ++ kv.1 ++ "=" ++ QueryEscape kv.2) ""
    let querystring := String.mk (TrimPrefix querystring.toList "&".toList)
    "?" ++ querystring

/-- The method `Oauth2Provider.Find`. -/
def Oauth2Provider.Find (p : Oauth2Provider) (endpointProfile : String)
    (urlError : String → Option String) (script : List Exchange) (w : World)
    (endpoint : String) (additionalHeaders : List (String × String))
    (querystringParameters : Option (List (String × String))) : Outcome × World :=
  match NewRequestWithContext urlError "GET"
      (endpointProfile ++ endpoint ++ findQuerystring querystringParameters) none with
  | .error e => (.returned none (some e), w)
  | .ok request => processRequest p additionalHeaders script request w

/-- The method `Oauth2Provider.Create`. -/
def Oauth2Provider.Create (p : Oauth2Provider) (endpointProfile : String)
    (urlError : String → Option String) (script : List Exchange) (w : World)
    (endpoint : String) (additionalHeaders : List (String × String)) (body : String) :
    Outcome × World :=
  match NewRequestWithContext urlError "PUT" (endpointProfile ++ endpoint) (some body) with
  | .error e => (.returned none (some e), w)
  | .ok request => processRequest p additionalHeaders script request w

/-- The method `Oauth2Provider.Update`. -/
def Oauth2Provider.Update (p : Oauth2Provider) (endpointProfile : String)
    (urlError : String → Option String) (script : List Exchange) (w : World)
    (endpoint : String) (additionalHeaders : List (String × String)) (body : String) :
    Outcome × World :=
  match NewRequestWithContext urlError "POST" (endpointProfile ++ endpoint) (some body) with
  | .error e => (.returned none (some e), w)
  | .ok request => processRequest p additionalHeaders script request w

/-- The method `Oauth2Provider.Remove`. -/
def Oauth2Provider.Remove (p : Oauth2Provider) (endpointProfile : String)
    (urlError : String → Option String) (script : List Exchange) (w : World)
    (endpoint : String) (additionalHeaders : List (String × String)) : Outcome × World :=
  match NewRequestWithContext urlError "DELETE" (endpointProfile ++ endpoint) none with
  | .error e => (.returned none (some e), w)
  | .ok request => processRequest p additionalHeaders script request w

/-! ## Bank transactions and reports (package accounting) -/

/-- The message of a `strconv.NumError`. -/
def NumError.Error : NumError → String
  | .invalid input => "strconv.ParseInt: parsing \"" ++ input ++ "\": invalid syntax"
  | .outOfRange input => "strconv.ParseInt: parsing \"" ++ input ++ "\": value out of range"

/-- The struct `BankTransaction`. The fields whose types are declared outside
`src/` (`Contact`, `LineItems`, `CurrencyRate`, `SubTotal`, `TotalTax`, `Total`,
`BankAccount`) are gathered in `other`; the field `Type` is `Type_`. -/
structure BankTransaction (α : Type) where
  Type_ : String
  IsReconciled : Bool
  Date : String
  Reference : String
  CurrencyCode : String
  URL : String
  Status : String
  LineAmountTypes : String
  BankTransactionID : String
  PrepaymentID : String
  OverpaymentID : String
  UpdatedDateUTC : String
  HasAttachments : Bool
  other : α

/-- The struct `BankTransactions`. -/
structure BankTransactions (α : Type) where
  BankTransactions : List (BankTransaction α)

/-- The struct `Report`; `ReportTitles`, `Attributes` and `Rows` are in `other`. -/
structure Report (α : Type) where
  ReportID : String
  ReportName : String
  ReportType : String
  ReportDate : String
  UpdatedDateUTC : String
  other : α

/-- The struct `Reports`. -/
structure Reports (α : Type) where
  Reports : List (Report α)

/-- The loop of `BankTransactions.convertDates`, which runs from the last
element to the first: `todo` holds the elements not yet visited, last one
first, `done` the elements behind them. The result is the slice as the loop
leaves it and the error returned; `none` is a panic. -/
def bankTransactionsLoop {α : Type} (nowText : String) :
    List (BankTransaction α) → List (BankTransaction α) →
      Option (List (BankTransaction α) × Option NumError)
  | [], done => some (done, none)
  | x :: todo, done =>
    match DotNetJSONTimeToRFC3339 nowText x.UpdatedDateUTC true with
    | none => none
    | some (text, some err) => some (todo.reverse ++ { x with UpdatedDateUTC := text } :: done, some err)
    | some (text, none) => bankTransactionsLoop nowText todo ({ x with UpdatedDateUTC := text } :: done)

/-- The method `BankTransactions.convertDates`: the collection afterwards and
the error returned. -/
def BankTransactions.convertDates {α : Type} (nowText : String) (b : Xero.BankTransactions α) :
    Option (Xero.BankTransactions α × Option NumError) :=
  (bankTransactionsLoop nowText b.BankTransactions.reverse []).map (fun r => (⟨r.1⟩, r.2))

/-- The loop of `Reports.convertDates`, as `bankTransactionsLoop`; an empty
`UpdatedDateUTC` is not decoded. -/
def reportsLoop {α : Type} (nowText : String) :
    List (Report α) → List (Report α) → Option (List (Report α) × Option NumError)
  | [], done => some (done, none)
  | x :: todo, done =>
    if x.UpdatedDateUTC ≠ "" then
      match DotNetJSONTimeToRFC3339 nowText x.UpdatedDateUTC true with
      | none => none
      | some (text, some err) =>
        some (todo.reverse ++ { x with UpdatedDateUTC := text } :: done, some err)
      | some (text, none) => reportsLoop nowText todo ({ x with UpdatedDateUTC := text } :: done)
    else reportsLoop nowText todo (x :: done)

/-- The method `Reports.convertDates`. -/
def Reports.convertDates {α : Type} (nowText : String) (r : Xero.Reports α) :
    Option (Xero.Reports α × Option NumError) :=
  (reportsLoop nowText r.Reports.reverse []).map (fun x => (⟨x.1⟩, x.2))

/-- The text that `DotNetJSONTimeToRFC3339(s, true)` returns. -/
def decodedText (nowText s : String) : String :=
  match DotNetJSONTimeToRFC3339 nowText s true with
  | some r => r.1
  | none => s

/-- How a call that returns `(value, error)` ends. -/
inductive CallResult (β : Type) where
  | panic
  | starved
  | returned (value : Option β) (err : Option String)

/-- The function `unmarshalBankTransaction`. The decoder `json.Unmarshal` into a
`*BankTransactions` is a parameter: it fails, or gives a nil pointer (for the
JSON text `null`), or a collection. -/
def unmarshalBankTransaction {α : Type} (nowText : String)
    (unmarshal : String → Except String (Option (BankTransactions α)))
    (bankTransactionResponseBytes : String) : CallResult (BankTransactions α) :=
  match unmarshal bankTransactionResponseBytes with
  | .error e => .returned none (some e)
  | .ok none => .panic
  | .ok (some bankTransactionResponse) =>
    match bankTransactionResponse.convertDates nowText with
    | none => .panic
    | some (_, some err) => .returned none (some err.Error)
    | some (converted, none) => .returned (some converted) none

/-- The method `BankTransactions.Update`, on a provider of type `Oauth2Provider`.
The encoder `xml.MarshalIndent` is a parameter; the two entries of the header
map are ranged over in the order written in the source. -/
def BankTransactions.Update {α : Type} (b : Xero.BankTransactions α) (p : Oauth2Provider)
    (endpointProfile : String) (urlError : String → Option String) (nowText : String)
    (marshal : Xero.BankTransactions α → Except String String)
    (unmarshal : String → Except String (Option (Xero.BankTransactions α)))
    (script : List Exchange) (w : World) : CallResult (Xero.BankTransactions α) × World :=
  let additionalHeaders := [("Accept", "application/json"), ("Content-Type", "application/xml")]
  match marshal b with
  | .error e => (.returned none (some e), w)
  | .ok body =>
    match b.BankTransactions with
    | [] => (.panic, w)
    | first :: _ =>
      match p.Update endpointProfile urlError script w
          ("BankTransactions/" ++ first.BankTransactionID) additionalHeaders body with
      | (.panic, w1) => (.panic, w1)
      | (.starved, w1) => (.starved, w1)
      | (.returned _ (some e), w1) => (.returned none (some e), w1)
      | (.returned bytes none, w1) =>
        (unmarshalBankTransaction nowText unmarshal (bytes.getD ""), w1)

/-! ## Calendar dates (package time) and `FormatDate` -/

/-- The function `norm` of package `time`: `lo` brought into `[0, base)`, the
excess carried into `hi`. -/
def norm (hi lo base : Int) : Int × Int :=
  let (hi, lo) := if lo < 0 then
      let n := Int.tdiv (-lo - 1) base + 1
      (hi - n, lo + n * base)
    else (hi, lo)
  if lo ≥ base then
    let n := Int.tdiv lo base
    (hi + n, lo - n * base)
  else (hi, lo)

/-- The function `daysSinceEpoch` of package `time`: the days from the start of
the absolute year zero to the start of `year`, in unsigned 64-bit arithmetic. -/
def daysSinceEpoch (year : Int) : Nat :=
  let y := ((year - (-292277022399)) % 18446744073709551616).toNat
  -- Add in days from 400-year cycles.
  let n := y / 400
  let y := y - 400 * n
  let d := 146097 * n
  -- Add in 100-year cycles.
  let n := y / 100
  let y := y - 100 * n
  let d := d + 36524 * n
  -- Add in 4-year cycles.
  let n := y / 4
  let y := y - 4 * n
  let d := d + 1461 * n
  -- Add in non-leap years.
  let n := y
  let d := d + 365 * n
  d

/-- The Unix seconds of `time.Date(year, month, day, hour, min, sec, 0, time.UTC)`;
the day count and the second count are unsigned 64-bit numbers, the result is
an int64. -/
def Date (year month day hour min sec : Int) : Int :=
  -- Normalize month, overflowing into year.
  let (year, m) := norm year (month - 1) 12
  let month := m + 1
  -- Normalize sec, min, hour, overflowing into day.
  let (min, sec) := norm min sec 60
  let (hour, min) := norm hour min 60
  let (day, hour) := norm day hour 24
  -- Compute days since the absolute epoch.
  let d : Int := daysSinceEpoch year
  -- Add in days before this month.
  let d := d + (daysBefore.getD (month - 1).toNat 0 : Nat)
  let d := if isLeap year && decide (month ≥ 3) then d + 1 else d
  -- Add in days before today.
  let d := d + (day - 1)
  -- Add in time elapsed today.
  let abs := (d * 86400 + (hour * 3600 + min * 60 + sec)) % 18446744073709551616
  wrap64 (wrap64 abs + (-9223372028715321600))

/-- A value of type `time.Time`: the seconds since the Unix epoch, the
nanoseconds within the second, and the offset in seconds east of UTC that the
location of the value has at that instant. -/
structure Time where
  unix : Int
  nsec : Nat
  offset : Int

/-- The method `Time.abs`: the absolute second count of the wall clock. -/
def Time.abs (t : Time) : Nat := unixToAbs (t.unix + t.offset)

/-- The method `Time.Year`. -/
def Time.Year (t : Time) : Int := (absYearDay t.abs).1

/-- The method `Time.Month`. -/
def Time.Month (t : Time) : Nat := (monthDay (absYearDay t.abs).1 (absYearDay t.abs).2).1

/-- The method `Time.Day`. -/
def Time.Day (t : Time) : Nat := (monthDay (absYearDay t.abs).1 (absYearDay t.abs).2).2

/-- The function `FormatDate` of package `helpers`. -/
def FormatDate (date : Time) : List Char :=
  let d := Date date.Year date.Month date.Day 0 0 0
  TrimSuffix (formatRFC3339UTC d) ['Z']

/-! ## Reading an RFC 3339 date-time

The round trip of the time normalizer is stated against a reader of the form
`YYYY-MM-DDTHH:MM:SSZ` of RFC 3339: it checks the layout and the ranges of the
fields and gives the instant that `Date` assigns to them. -/

/-- The number of days of `month` in `year`. -/
def daysIn (month : Nat) (year : Int) : Nat :=
  if month = 2 ∧ isLeap year then 29
  else daysBefore.getD month 0 - daysBefore.getD (month - 1) 0

/-- The value of a run of decimal digits, `none` when a character is not a digit. -/
def readDigits (ds : List Char) : Option Nat :=
  if ds.all Char.isDigit then some (decimalValue 0 ds) else none

/-- The instant, in Unix seconds, that a text of the form `YYYY-MM-DDTHH:MM:SSZ`
denotes; `none` when the text is not of that form or a field is out of range. -/
def readRFC3339UTC (s : List Char) : Option Int :=
  match s with
  | [y1, y2, y3, y4, c1, m1, m2, c2, d1, d2, c3, h1, h2, c4, n1, n2, c5, s1, s2, c6] =>
    if [c1, c2, c3, c4, c5, c6] = ['-', '-', 'T', ':', ':', 'Z'] then
      match readDigits [y1, y2, y3, y4], readDigits [m1, m2], readDigits [d1, d2],
          readDigits [h1, h2], readDigits [n1, n2], readDigits [s1, s2] with
      | some year, some month, some day, some hour, some min, some sec =>
        if 1 ≤ month ∧ month ≤ 12 ∧ 1 ≤ day ∧ day ≤ daysIn month year ∧ hour < 24 ∧ min < 60
            ∧ sec < 60 then
          some (Date year month day hour min sec)
        else none
      | _, _, _, _, _, _ => none
    else none
  | _ => none

/-- The body of `monthDay` for a year known to be a leap year or not. -/
def monthDayOf (leap : Bool) (yday : Nat) : Nat × Nat :=
  if leap && yday == 31 + 29 - 1 then (2, 29)
  else
    let day := if leap && yday > 31 + 29 - 1 then yday - 1 else yday
    let month := day / 31
    let mEnd := daysBefore.getD (month + 1) 0
    if day ≥ mEnd then (month + 1 + 1, day - mEnd + 1)
    else (month + 1, day - daysBefore.getD month 0 + 1)

/-- The calendar date `monthDayOf leap yday` is a day of its month and lies
`yday` days after the first of January. -/
def monthDayOfInverts (leap : Bool) (yday : Nat) : Bool :=
  let md := monthDayOf leap yday
  decide (1 ≤ md.1) && decide (md.1 ≤ 12) && decide (1 ≤ md.2) &&
    decide (md.2 ≤ (if md.1 = 2 ∧ leap = true then 29
      else daysBefore.getD md.1 0 - daysBefore.getD (md.1 - 1) 0)) &&
    decide (daysBefore.getD (md.1 - 1) 0 + (if leap && decide (md.1 ≥ 3) then 1 else 0)
      + (md.2 - 1) = yday)

/-- The two decimal digits of a number below 100. -/
def twoDigits (u : Nat) : List Char := [Nat.digitChar (u / 10), Nat.digitChar (u % 10)]

/-- The four decimal digits of a number below 10000. -/
def fourDigits (u : Nat) : List Char :=
  [Nat.digitChar (u / 1000), Nat.digitChar (u / 100 % 10), Nat.digitChar (u / 10 % 10),
    Nat.digitChar (u % 10)]

/-! ## Callers in parallel

`RegisterRequestTimestamp` reads and writes the package-level map
`requestTimestamps` with no lock around it. Here its three statements are the
steps of a caller, each step taken as a whole, and callers that run in parallel
take their steps in any order. -/

/-- Where a caller of `RegisterRequestTimestamp(t)` stands: before the `if`
statement, before the statement `ts := append(*requestTimestamps[p.TenantID], t)`,
before the statement `requestTimestamps[p.TenantID] = &ts` with the slice `ts`
it has built, or after the call. -/
inductive RegisterState where
  | start (t : Int)
  | checked (t : Int)
  | appended (ts : List Int)
  | done
  deriving Repr, DecidableEq

/-- One statement of `RegisterRequestTimestamp`, run by the provider `p` on the
shared map; `none` is the nil-pointer panic on a tenant without a sequence. -/
def RegisterState.step (p : Oauth2Provider) (s : RegisterState) (rt : Tracker) :
    Option (RegisterState × Tracker) :=
  match s with
  | .start t =>
    match rt p.TenantID with
    | none => none
    | some ts =>
      if ts.length ≥ 60 then
        some (.checked t, Function.update rt p.TenantID (some (slice1to60 ts)))
      else some (.checked t, rt)
  | .checked t =>
    match rt p.TenantID with
    | none => none
    | some ts => some (.appended (ts ++ [t]), rt)
  | .appended ts => some (.done, Function.update rt p.TenantID (some ts))
  | .done => some (.done, rt)

/-- Two callers of `RegisterRequestTimestamp` on the provider `p`, run in
parallel: each entry of the schedule lets the first (`false`) or the second
(`true`) caller run its next statement. -/
def runParallel (p : Oauth2Provider) :
    List Bool → RegisterState × RegisterState → Tracker →
      Option ((RegisterState × RegisterState) × Tracker)
  | [], s, rt => some (s, rt)
  | false :: rest, s, rt =>
    match s.1.step p rt with
    | none => none
    | some (s1, rt1) => runParallel p rest (s1, s.2) rt1
  | true :: rest, s, rt =>
    match s.2.step p rt with
    | none => none
    | some (s2, rt2) => runParallel p rest (s.1, s2) rt2

end Xero

/-! # Theorems -/

namespace Xero

/-! ## Arithmetic of durations -/

theorem saturate_of_mem {x : Int} (h1 : minDuration ≤ x) (h2 : x ≤ maxDuration) :
    saturate x = x := by
  unfold saturate
  rw [if_neg (by omega), if_neg (by omega)]

theorem saturate_ge {x c : Int} (hc : c ≤ maxDuration) (h : c ≤ x) : c ≤ saturate x := by
  unfold saturate
  unfold maxDuration at hc
  unfold minDuration maxDuration
  split_ifs <;> omega

theorem saturate_le (x : Int) (h : 0 ≤ x) : saturate x ≤ x := by
  unfold saturate minDuration maxDuration
  split_ifs <;> omega

theorem wrap64_of_mem {x : Int} (h1 : minDuration ≤ x) (h2 : x ≤ maxDuration) :
    wrap64 x = x := by
  unfold wrap64
  simp only [minDuration, maxDuration] at h1 h2
  omega

/-! ## The tracker -/

theorem ensureSequence_self (p : Oauth2Provider) (rt : Tracker) :
    (ensureSequence p rt) p.TenantID = some ((rt p.TenantID).getD []) := by
  unfold ensureSequence
  cases h : rt p.TenantID with
  | none => simp
  | some w => simp [h]

theorem ensureSequence_of_some (p : Oauth2Provider) (rt : Tracker) (w : List Int)
    (h : rt p.TenantID = some w) : ensureSequence p rt = rt := by
  unfold ensureSequence
  simp [h]

theorem ensureSequence_other (p : Oauth2Provider) (rt : Tracker) (b : String)
    (h : p.TenantID ≠ b) : (ensureSequence p rt) b = rt b := by
  unfold ensureSequence
  split_ifs
  · exact Function.update_noteq (Ne.symm h) _ _
  · rfl

theorem gate_sequence (p : Oauth2Provider) (now : Int) (rt : Tracker) :
    (sleepUntilRequestLimit p now rt).1 p.TenantID = some ((rt p.TenantID).getD []) := by
  simp [sleepUntilRequestLimit, ensureSequence_self]

theorem gate_request (p : Oauth2Provider) (now : Int) (rt : Tracker) :
    (sleepUntilRequestLimit p now rt).2 = requestLimitSleep now ((rt p.TenantID).getD []) := by
  simp [sleepUntilRequestLimit, ensureSequence_self]

theorem requestLimitSleep_short (now : Int) (ts : List Int) (h : ts.length < 60) :
    requestLimitSleep now ts = none := by
  simp [requestLimitSleep, h]

theorem slice1to60_length (ts : List Int) (h : 60 ≤ ts.length) :
    (slice1to60 ts).length = 59 := by
  simp [slice1to60]
  omega

theorem slice1to60_eq_drop (ts : List Int) : slice1to60 ts = (ts.drop 1).take 59 := by
  simp [slice1to60, List.drop_take]

theorem slice1to60_of_length_eq (ts : List Int) (h : ts.length = 60) :
    slice1to60 ts = ts.tail := by
  unfold slice1to60
  rw [List.take_of_length_le (by omega)]
  simp

theorem register_of_some (p : Oauth2Provider) (t : Int) (rt : Tracker) (w : List Int)
    (h : rt p.TenantID = some w) :
    RegisterRequestTimestamp p t rt =
      some (Function.update rt p.TenantID
        (some ((if w.length ≥ 60 then slice1to60 w else w) ++ [t]))) := by
  simp [RegisterRequestTimestamp, h]

theorem gateWait_eq (p : Oauth2Provider) (now : Int) (rt : Tracker) :
    gateWait p now rt =
      match requestLimitSleep now ((rt p.TenantID).getD []) with
      | none => 0
      | some d => sleepLength d := by
  unfold gateWait
  rw [gate_request]

theorem requestLimitSleep_full (now t0 : Int) (rest : List Int) (h : rest.length = 59) :
    requestLimitSleep now (t0 :: rest) =
      if Since now t0 ≥ 60 * Second then none
      else some (wrap64 (60 * Second - Since now t0 + 1 * Millisecond)) := by
  simp [requestLimitSleep, h]

theorem registerAll_nil (p : Oauth2Provider) (rt : Tracker) : registerAll p [] rt = some rt := rfl

theorem registerAll_cons (p : Oauth2Provider) (t : Int) (ts : List Int) (rt : Tracker) :
    registerAll p (t :: ts) rt =
      match RegisterRequestTimestamp p t rt with
      | none => none
      | some rt1 => registerAll p ts rt1 := rfl

theorem registerAll_short (p : Oauth2Provider) (ts : List Int) :
    ∀ (rt : Tracker) (w : List Int), rt p.TenantID = some w → w.length + ts.length ≤ 60 →
      ∃ rt1, registerAll p ts rt = some rt1 ∧ rt1 p.TenantID = some (w ++ ts) := by
  induction ts with
  | nil =>
    intro rt w h _
    exact ⟨rt, rfl, by simpa using h⟩
  | cons t ts ih =>
    intro rt w h hlen
    simp only [List.length_cons] at hlen
    rw [registerAll_cons, register_of_some p t rt w h, if_neg (by omega)]
    obtain ⟨rt1, h1, h2⟩ := ih (Function.update rt p.TenantID (some (w ++ [t]))) (w ++ [t])
      (by simp) (by simp; omega)
    exact ⟨rt1, h1, by simpa using h2⟩

theorem runOps_capped (p : Oauth2Provider) (ops : List TrackerOp) :
    ∀ (rt : Tracker) (w : List Int), rt p.TenantID = some w → w.length ≤ 60 →
      ∃ rt1 w1, runOps p ops rt = some rt1 ∧ rt1 p.TenantID = some w1 ∧ w1.length ≤ 60 := by
  induction ops with
  | nil =>
    intro rt w h hlen
    exact ⟨rt, w, rfl, h, hlen⟩
  | cons op ops ih =>
    intro rt w h hlen
    cases op with
    | gate now =>
      have hg : (sleepUntilRequestLimit p now rt).1 = rt := by
        simp [sleepUntilRequestLimit, ensureSequence_of_some p rt w h]
      simpa [runOps, TrackerOp.run, hg] using ih rt w h hlen
    | register t =>
      simp only [runOps, TrackerOp.run, register_of_some p t rt w h]
      apply ih _ ((if w.length ≥ 60 then slice1to60 w else w) ++ [t]) (by simp)
      split_ifs with h60
      · simp [slice1to60_length w h60]
      · simp
        omega

theorem gate_skips_of_short (p : Oauth2Provider) (now : Int) (rt : Tracker)
    (h : ((rt p.TenantID).getD []).length < 60) :
    (sleepUntilRequestLimit p now rt).2 = none ∧ gateWait p now rt = 0 := by
  have h1 : (sleepUntilRequestLimit p now rt).2 = none := by
    rw [gate_request, requestLimitSleep_short now _ h]
  exact ⟨h1, by simp [gateWait, h1]⟩

theorem gateWait_full (p : Oauth2Provider) (now t0 : Int) (rest : List Int) (rt : Tracker)
    (h : (rt p.TenantID).getD [] = t0 :: rest) (hlen : rest.length = 59) :
    gateWait p now rt =
      match (if Since now t0 ≥ 60 * Second then none
        else some (wrap64 (60 * Second - Since now t0 + 1 * Millisecond))) with
      | none => 0
      | some d => sleepLength d := by
  rw [gateWait_eq, h, requestLimitSleep_full now t0 rest hlen]

theorem gateWait_full_old (p : Oauth2Provider) (now t0 : Int) (rest : List Int) (rt : Tracker)
    (h : (rt p.TenantID).getD [] = t0 :: rest) (hlen : rest.length = 59)
    (hge : 60 * Second ≤ now - t0) : gateWait p now rt = 0 := by
  have h1 : Since now t0 ≥ 60 * Second :=
    saturate_ge (by unfold Second maxDuration; omega) hge
  rw [gateWait_full p now t0 rest rt h hlen, if_pos h1]

theorem gateWait_full_recent (p : Oauth2Provider) (now t0 : Int) (rest : List Int)
    (rt : Tracker) (h : (rt p.TenantID).getD [] = t0 :: rest) (hlen : rest.length = 59)
    (hlt : now - t0 < 60 * Second) (hlo : 60 * Second + Millisecond - maxDuration ≤ now - t0) :
    gateWait p now rt = 60 * Second - (now - t0) + Millisecond := by
  unfold Second Millisecond maxDuration at hlo
  unfold Second at hlt
  have h1 : Since now t0 = now - t0 :=
    saturate_of_mem (by unfold minDuration; omega) (by unfold maxDuration; omega)
  have h2 : ¬ (Since now t0 ≥ 60 * Second) := by
    rw [h1]
    unfold Second
    omega
  rw [gateWait_full p now t0 rest rt h hlen, if_neg h2, h1]
  have h3 : wrap64 (60 * Second - (now - t0) + 1 * Millisecond)
      = 60 * Second - (now - t0) + 1 * Millisecond :=
    wrap64_of_mem (by unfold minDuration Second Millisecond; omega)
      (by unfold maxDuration Second Millisecond; omega)
  simp only [h3, sleepLength]
  unfold Second Millisecond
  rw [if_neg (by omega)]
  omega

theorem gateWait_nonneg (p : Oauth2Provider) (now : Int) (rt : Tracker) :
    0 ≤ gateWait p now rt := by
  rw [gateWait_eq]
  split
  · exact le_refl 0
  · unfold sleepLength
    split_ifs <;> omega

/-! ## Claims on the rate window tracker -/

/-- C2 (as amended): on a full window of 60 instants with oldest `t0`, the gate
waits zero when `now - t0 ≥ 60s`; otherwise it waits exactly
`60s - (now - t0) + 1ms`, provided that duration fits a signed 64-bit count of
nanoseconds (`now - t0 ≥ 60s + 1ms - maxDuration`). At `now = t0 + 30s` the wait
is `30s + 1ms`, at `now = t0 + 61s` it is zero. -/
theorem gate_delay_on_full_window (p : Oauth2Provider) (now t0 : Int) (rest : List Int)
    (rt : Tracker) (h : rt p.TenantID = some (t0 :: rest)) (hlen : rest.length = 59) :
    (60 * Second ≤ now - t0 → gateWait p now rt = 0) ∧
    (now - t0 < 60 * Second → 60 * Second + Millisecond - maxDuration ≤ now - t0 →
      gateWait p now rt = 60 * Second - (now - t0) + Millisecond) ∧
    (now = t0 + 30 * Second → gateWait p now rt = 30 * Second + Millisecond) ∧
    (now = t0 + 61 * Second → gateWait p now rt = 0) := by
  have h1 : (rt p.TenantID).getD [] = t0 :: rest := by rw [h, Option.getD_some]
  have big := gateWait_full_old p now t0 rest rt h1 hlen
  have small := gateWait_full_recent p now t0 rest rt h1 hlen
  refine ⟨big, small, ?_, ?_⟩
  · intro hnow
    rw [small (by rw [hnow]; unfold Second; omega)
      (by rw [hnow]; unfold Second Millisecond maxDuration; omega), hnow]
    unfold Second Millisecond
    omega
  · intro hnow
    exact big (by rw [hnow]; unfold Second; omega)

/-- Witness of C2: a full window recorded at instant 0, checked 30s later. -/
theorem gate_delay_on_full_window_witness :
    gateWait ⟨"xerogolang", "T", false⟩ (30 * Second)
      (singleTracker "T" (0 :: List.replicate 59 0)) = 30 * Second + Millisecond :=
  (gate_delay_on_full_window ⟨"xerogolang", "T", false⟩ (30 * Second) 0 (List.replicate 59 0)
    (singleTracker "T" (0 :: List.replicate 59 0)) (by simp [singleTracker])
    (by simp)).2.2.1 (by simp)

/-- Counterexample to C2 as stated: with the oldest of 60 instants `2^63` ns
after the clock reading, `now - t0 < 60s`, but the gate waits zero, not
`60s - (now - t0) + 1ms`: the int64 duration wraps to a negative value. -/
theorem gate_delay_wraps_around :
    (0 : Int) - 9223372036854775808 < 60 * Second ∧
    gateWait ⟨"xerogolang", "T", false⟩ 0
      (singleTracker "T" (List.replicate 60 9223372036854775808)) = 0 ∧
    gateWait ⟨"xerogolang", "T", false⟩ 0
      (singleTracker "T" (List.replicate 60 9223372036854775808))
      ≠ 60 * Second - (0 - 9223372036854775808) + Millisecond := by
  have h : gateWait ⟨"xerogolang", "T", false⟩ 0
      (singleTracker "T" (List.replicate 60 9223372036854775808)) = 0 := by
    rw [gateWait_eq]
    simp [singleTracker, requestLimitSleep, Since, Sub, saturate, wrap64, sleepLength,
      minDuration, maxDuration, Second, Millisecond, List.replicate]
  refine ⟨by unfold Second; omega, h, ?_⟩
  rw [h]
  unfold Second Millisecond
  omega

/-- C3: when the tenant of the provider has fewer than 60 recorded instants (or
no sequence at all), the gate does not sleep and waits zero, whatever the
clock reading and the recorded instants. -/
theorem gate_free_below_limit (p : Oauth2Provider) (now : Int) (rt : Tracker)
    (h : ((rt p.TenantID).getD []).length < 60) :
    (sleepUntilRequestLimit p now rt).2 = none ∧ gateWait p now rt = 0 := by
  exact gate_skips_of_short p now rt h

/-- Witness of C3: a tenant with three recorded instants. -/
theorem gate_free_below_limit_witness :
    (((singleTracker "T" [1, 2, 3]) "T").getD []).length < 60 ∧
    gateWait ⟨"xerogolang", "T", false⟩ 5 (singleTracker "T" [1, 2, 3]) = 0 :=
  ⟨by simp [singleTracker],
    (gate_free_below_limit ⟨"xerogolang", "T", false⟩ 5 (singleTracker "T" [1, 2, 3])
      (by simp [singleTracker])).2⟩

/-- C4 (as amended): after exactly `N < 60` requests have been recorded for a
tenant, starting from an empty sequence, the recording succeeds, the sequence
holds the `N` instants in order, and the gate waits zero at every clock
reading. -/
theorem gate_free_after_fewer_than_limit (p : Oauth2Provider) (rt0 : Tracker)
    (ts : List Int) (h0 : rt0 p.TenantID = some []) (hN : ts.length < 60) :
    ∃ rt, registerAll p ts rt0 = some rt ∧ rt p.TenantID = some ts ∧
      ∀ now, gateWait p now rt = 0 := by
  obtain ⟨rt, h1, h2⟩ := registerAll_short p ts rt0 [] h0 (by simp; omega)
  rw [List.nil_append] at h2
  refine ⟨rt, h1, h2, fun now => ?_⟩
  exact (gate_skips_of_short p now rt (by rw [h2]; simpa using hN)).2

/-- Witness of C4: two requests recorded for a fresh tenant. -/
theorem gate_free_after_fewer_than_limit_witness :
    ∃ rt, registerAll ⟨"xerogolang", "T", false⟩ [10, 20] (singleTracker "T" []) = some rt ∧
      rt "T" = some [10, 20] ∧ ∀ now, gateWait ⟨"xerogolang", "T", false⟩ now rt = 0 :=
  gate_free_after_fewer_than_limit ⟨"xerogolang", "T", false⟩ (singleTracker "T" []) [10, 20]
    (by simp [singleTracker]) (by decide)

/-- Counterexample to C4 as stated (`N = 60`): after 60 requests recorded at
instant 0 the gate, asked at instant 0, waits `60s + 1ms`, not zero. -/
theorem gate_delays_after_sixty :
    (registerAll ⟨"xerogolang", "T", false⟩ (List.replicate 60 0) (singleTracker "T" [])).map
        (fun rt => gateWait ⟨"xerogolang", "T", false⟩ 0 rt) = some (60 * Second + Millisecond) ∧
    60 * Second + Millisecond ≠ 0 := by
  obtain ⟨rt, h1, h2⟩ := registerAll_short ⟨"xerogolang", "T", false⟩ (List.replicate 60 0)
    (singleTracker "T" []) [] (by simp [singleTracker]) (by simp)
  have h3 : gateWait ⟨"xerogolang", "T", false⟩ 0 rt = 60 * Second + Millisecond := by
    rw [gateWait_eq]
    simp only [List.nil_append] at h2
    simp [h2, requestLimitSleep, Since, Sub, saturate, wrap64, sleepLength,
      minDuration, maxDuration, Second, Millisecond, List.replicate]
  refine ⟨by rw [h1, Option.map_some', h3], ?_⟩
  unfold Second Millisecond
  omega

/-- C5: starting from an empty sequence, every finite sequence of gate checks
and `RegisterRequestTimestamp` calls runs without a panic and leaves the
tenant with at most 60 instants; and `RegisterRequestTimestamp` applied to a
sequence of any length `n ≥ 60` leaves exactly 60 entries. -/
theorem tracked_sequence_capped (p : Oauth2Provider) :
    (∀ (ops : List TrackerOp) (rt0 : Tracker), rt0 p.TenantID = some [] →
      ∃ rt w, runOps p ops rt0 = some rt ∧ rt p.TenantID = some w ∧ w.length ≤ 60) ∧
    (∀ (rt : Tracker) (w : List Int) (t : Int), rt p.TenantID = some w → 60 ≤ w.length →
      ∃ rt1 w1, RegisterRequestTimestamp p t rt = some rt1 ∧ rt1 p.TenantID = some w1 ∧
        w1.length = 60) := by
  constructor
  · intro ops rt0 h0
    exact runOps_capped p ops rt0 [] h0 (by simp)
  · intro rt w t h h60
    refine ⟨_, slice1to60 w ++ [t], register_of_some p t rt w h, ?_, ?_⟩
    · rw [if_pos h60]
      simp
    · simp [slice1to60_length w h60]

/-- Witness of C5: a gate check and two recordings on an empty sequence. -/
theorem tracked_sequence_capped_witness :
    ∃ rt w, runOps ⟨"xerogolang", "T", false⟩ [.gate 1, .register 2, .register 3]
        (singleTracker "T" []) = some rt ∧ rt "T" = some w ∧ w.length ≤ 60 :=
  (tracked_sequence_capped ⟨"xerogolang", "T", false⟩).1 [.gate 1, .register 2, .register 3]
    (singleTracker "T" []) (by simp [singleTracker])

/-- C6: `RegisterRequestTimestamp(t)` turns a sequence `w` of fewer than 60
entries into `w ++ [t]`, and a sequence of exactly 60 entries into its entries
1 to 59, in order, followed by `t`. The gate check leaves an existing sequence
as it is at every clock reading, so entries leave only by this eviction. -/
theorem register_slides_window (p : Oauth2Provider) (t : Int) (rt : Tracker) (w : List Int)
    (h : rt p.TenantID = some w) :
    (w.length < 60 →
      RegisterRequestTimestamp p t rt = some (Function.update rt p.TenantID (some (w ++ [t])))) ∧
    (w.length = 60 →
      RegisterRequestTimestamp p t rt
        = some (Function.update rt p.TenantID (some (w.tail ++ [t]))) ∧
      (w.tail ++ [t]).length = 60 ∧
      (∀ i, i < 59 → (w.tail ++ [t])[i]? = w[i + 1]?) ∧ (w.tail ++ [t])[59]? = some t) ∧
    (∀ now, (sleepUntilRequestLimit p now rt).1 = rt) := by
  refine ⟨?_, ?_, ?_⟩
  · intro hlt
    rw [register_of_some p t rt w h, if_neg (by omega)]
  · intro heq
    have htl : w.tail.length = 59 := by simp [heq]
    refine ⟨?_, by simp [htl], ?_, ?_⟩
    · rw [register_of_some p t rt w h, if_pos (by omega), slice1to60_of_length_eq w heq]
    · intro i hi
      rw [List.getElem?_append_left (by omega)]
      cases w with
      | nil => simp at heq
      | cons a w1 => simp
    · rw [List.getElem?_append_right (by omega)]
      simp [htl]
  · intro now
    simp [sleepUntilRequestLimit, ensureSequence_of_some p rt w h]

/-- Witness of C6: a third instant appended to a sequence of two. -/
theorem register_slides_window_witness :
    RegisterRequestTimestamp ⟨"xerogolang", "T", false⟩ 30 (singleTracker "T" [10, 20])
      = some (Function.update (singleTracker "T" [10, 20]) "T" (some ([10, 20] ++ [30]))) :=
  (register_slides_window ⟨"xerogolang", "T", false⟩ 30 (singleTracker "T" [10, 20]) [10, 20]
    (by simp [singleTracker])).1 (by decide)

/-- C7: a gate check or a `RegisterRequestTimestamp` made by a provider whose
tenant is not `b` leaves the sequence of `b` unchanged, and the wait computed
for `b` is the same for any two maps that agree on the sequence of `b`. -/
theorem tenants_independent (p : Oauth2Provider) (b : String) (hab : p.TenantID ≠ b)
    (rt : Tracker) :
    (∀ now, (sleepUntilRequestLimit p now rt).1 b = rt b) ∧
    (∀ t rt1, RegisterRequestTimestamp p t rt = some rt1 → rt1 b = rt b) ∧
    (∀ (q1 q2 : Oauth2Provider) (rt2 : Tracker) (now : Int),
      q1.TenantID = b → q2.TenantID = b → rt2 b = rt b →
        (sleepUntilRequestLimit q1 now rt2).2 = (sleepUntilRequestLimit q2 now rt).2 ∧
        gateWait q1 now rt2 = gateWait q2 now rt) := by
  refine ⟨?_, ?_, ?_⟩
  · intro now
    simp [sleepUntilRequestLimit, ensureSequence_other p rt b hab]
  · intro t rt1 hreg
    cases hw : rt p.TenantID with
    | none => simp [RegisterRequestTimestamp, hw] at hreg
    | some w =>
      rw [register_of_some p t rt w hw] at hreg
      cases hreg
      exact Function.update_noteq (Ne.symm hab) _ _
  · intro q1 q2 rt2 now h1 h2 hrt
    constructor
    · rw [gate_request, gate_request, h1, h2, hrt]
    · rw [gateWait_eq, gateWait_eq, h1, h2, hrt]

/-- Witness of C7: tenant A records a request, the sequence of tenant B stays. -/
theorem tenants_independent_witness :
    "A" ≠ "B" ∧
    (sleepUntilRequestLimit ⟨"xerogolang", "A", false⟩ 7 (singleTracker "B" [1, 2])).1 "B"
      = singleTracker "B" [1, 2] "B" :=
  ⟨by decide,
    (tenants_independent ⟨"xerogolang", "A", false⟩ "B" (by decide)
      (singleTracker "B" [1, 2])).1 7⟩

/-- C8: on a tenant that has no sequence yet, `RegisterRequestTimestamp` does
not create one: it dereferences the nil pointer and panics. -/
theorem register_before_gate_panics (p : Oauth2Provider) (t : Int) (rt : Tracker)
    (h : rt p.TenantID = none) : RegisterRequestTimestamp p t rt = none := by
  simp [RegisterRequestTimestamp, h]

/-- Witness of C8: the first recording of tenant T on the empty map. -/
theorem register_before_gate_panics_witness :
    emptyTracker "T" = none ∧
    RegisterRequestTimestamp ⟨"xerogolang", "T", false⟩ 1700000000000000000 emptyTracker = none :=
  ⟨rfl, register_before_gate_panics ⟨"xerogolang", "T", false⟩ 1700000000000000000
    emptyTracker rfl⟩

/-! ## Sequential runs -/

theorem lastSixty_of_short (hist : List Int) (h : hist.length < 60) : lastSixty hist = hist := by
  unfold lastSixty
  rw [show hist.length - 60 = 0 by omega, List.drop_zero]

theorem lastSixty_length (hist : List Int) : (lastSixty hist).length = min hist.length 60 := by
  unfold lastSixty
  rw [List.length_drop]
  omega

theorem lastSixty_snoc (hist : List Int) (t : Int) :
    (if (lastSixty hist).length ≥ 60 then slice1to60 (lastSixty hist) else lastSixty hist) ++ [t]
      = lastSixty (hist ++ [t]) := by
  by_cases h : hist.length < 60
  · rw [if_neg (by rw [lastSixty_length]; omega), lastSixty_of_short hist h]
    unfold lastSixty
    rw [List.length_append, List.length_singleton, show hist.length + 1 - 60 = 0 by omega,
      List.drop_zero]
  · have hlen : (lastSixty hist).length = 60 := by rw [lastSixty_length]; omega
    rw [if_pos (by omega), slice1to60_of_length_eq _ hlen]
    unfold lastSixty
    rw [List.tail_drop, List.length_append, List.length_singleton,
      show hist.length + 1 - 60 = hist.length - 60 + 1 by omega,
      List.drop_append_of_le_length (by omega)]

theorem lastSixty_full (hist : List Int) (h : 60 ≤ hist.length) :
    ∃ t0 rest, lastSixty hist = t0 :: rest ∧ rest.length = 59 ∧
      hist[hist.length - 60]? = some t0 := by
  have hlen : (lastSixty hist).length = 60 := by rw [lastSixty_length]; omega
  cases hw : lastSixty hist with
  | nil => rw [hw] at hlen; simp at hlen
  | cons t0 rest =>
    refine ⟨t0, rest, rfl, ?_, ?_⟩
    · rw [hw] at hlen
      simpa using hlen
    · have h0 : (lastSixty hist)[0]? = some t0 := by rw [hw]; simp
      unfold lastSixty at h0
      rw [List.getElem?_drop] at h0
      simpa using h0

theorem World.gate_tracker (p : Oauth2Provider) (idle : Nat) (w : World) :
    (w.gate p idle).requestTimestamps
      = (sleepUntilRequestLimit p (w.clock + idle) w.requestTimestamps).1 := by
  unfold World.gate
  simp only []
  split <;> rfl

theorem World.gate_clock (p : Oauth2Provider) (idle : Nat) (w : World) :
    (w.gate p idle).clock
      = w.clock + idle + gateWait p (w.clock + idle) w.requestTimestamps := by
  unfold World.gate gateWait
  simp only []
  split <;> rename_i h <;> simp [h]

theorem World.record_of_some (p : Oauth2Provider) (latency : Nat) (w : World) (ts : List Int)
    (h : w.requestTimestamps p.TenantID = some ts) :
    ∃ w1, w.record p latency = some w1 ∧ w1.clock = w.clock + latency ∧
      w1.requestTimestamps p.TenantID
        = some ((if ts.length ≥ 60 then slice1to60 ts else ts) ++ [w.clock + latency]) := by
  unfold World.record
  simp only [register_of_some p _ _ ts h]
  exact ⟨_, rfl, rfl, by simp⟩

theorem Spaced.snoc (hist : List Int) (t : Int) (hs : Spaced hist)
    (hnew : 60 ≤ hist.length → ∀ o, hist[hist.length - 60]? = some o → o + 60 * Second ≤ t) :
    Spaced (hist ++ [t]) := by
  intro k a b ha hb
  have hk : k + 60 < (hist ++ [t]).length := by
    by_contra hcon
    rw [List.getElem?_eq_none (by omega)] at hb
    cases hb
  rw [List.length_append, List.length_singleton] at hk
  rw [List.getElem?_append_left (by omega)] at ha
  by_cases hlast : k + 60 < hist.length
  · rw [List.getElem?_append_left hlast] at hb
    exact hs k a b ha hb
  · have hk2 : k + 60 = hist.length := by omega
    rw [List.getElem?_append_right (by omega), show k + 60 - hist.length = 0 by omega] at hb
    simp at hb
    rw [← hb]
    exact hnew (by omega) a (by rw [show hist.length - 60 = k by omega]; exact ha)

theorem RunInv.step (p : Oauth2Provider) (w : World) (hist : List Int) (x : Nat × Nat)
    (inv : RunInv p w hist) :
    ∃ w1, (w.gate p x.1).record p x.2 = some w1 ∧ RunInv p w1 (hist ++ [w1.clock]) := by
  have hseq : (w.gate p x.1).requestTimestamps p.TenantID = some (lastSixty hist) := by
    rw [World.gate_tracker, gate_sequence, inv.window]
  have hclock := World.gate_clock p x.1 w
  have hwait := gateWait_nonneg p (w.clock + x.1) w.requestTimestamps
  have hold : 60 ≤ hist.length → ∀ o, hist[hist.length - 60]? = some o →
      o + 60 * Second ≤ (w.gate p x.1).clock := by
    intro h60 o ho
    obtain ⟨t0, rest, hw, hrest, ht0⟩ := lastSixty_full hist h60
    rw [ho] at ht0
    cases ht0
    have hle : o ≤ w.clock := inv.bound o (List.getElem?_mem ho)
    have hfull : (w.requestTimestamps p.TenantID).getD [] = o :: rest := by
      rw [inv.window, hw]
    by_cases hcase : 60 * Second ≤ w.clock + x.1 - o
    · omega
    · rw [hclock, gateWait_full_recent p _ o rest _ hfull hrest (by omega)
        (by unfold Second Millisecond maxDuration; omega)]
      unfold Millisecond
      omega
  obtain ⟨w1, hrec, hc1, hrt1⟩ := World.record_of_some p x.2 (w.gate p x.1) _ hseq
  refine ⟨w1, hrec, ?_, ?_, ?_, ?_⟩
  · rw [hrt1, Option.getD_some, lastSixty_snoc, hc1]
  · rw [List.pairwise_append]
    refine ⟨inv.sorted, List.pairwise_singleton _ _, ?_⟩
    intro a ha b hb
    rw [List.mem_singleton] at hb
    have := inv.bound a ha
    omega
  · intro t ht
    rw [List.mem_append, List.mem_singleton] at ht
    rcases ht with ht | ht
    · have := inv.bound t ht
      omega
    · omega
  · apply Spaced.snoc hist _ inv.spaced
    intro h60 o ho
    have := hold h60 o ho
    omega

theorem attempts_inv (p : Oauth2Provider) (xs : List (Nat × Nat)) :
    ∀ (w : World) (hist : List Int), RunInv p w hist →
      ∃ w1 ts, attempts p xs w = some (w1, ts) ∧ ts.length = xs.length ∧
        RunInv p w1 (hist ++ ts) := by
  induction xs with
  | nil =>
    intro w hist inv
    exact ⟨w, [], rfl, rfl, by simpa using inv⟩
  | cons x xs ih =>
    intro w hist inv
    obtain ⟨w1, hstep, inv1⟩ := RunInv.step p w hist x inv
    obtain ⟨w2, ts, hrun, hlen, inv2⟩ := ih w1 _ inv1
    refine ⟨w2, w1.clock :: ts, ?_, by simp [hlen], by simpa using inv2⟩
    simp [attempts, hstep, hrun]

theorem Spaced.tail (a : Int) (ts : List Int) (h : Spaced (a :: ts)) : Spaced ts := by
  intro k x y hx hy
  exact h (k + 1) x y (by simpa using hx)
    (by rw [show k + 1 + 60 = (k + 60) + 1 by omega]; simpa using hy)

theorem countInWindow_le (x : Int) (ts : List Int) :
    ts.Pairwise (fun a b => a ≤ b) → Spaced ts → countInWindow x ts ≤ 60 := by
  induction ts with
  | nil =>
    intro _ _
    simp [countInWindow]
  | cons a ts ih =>
    intro hsorted hspaced
    have ih1 := ih (List.Pairwise.of_cons hsorted) (Spaced.tail a ts hspaced)
    by_cases hin : x ≤ a
    · -- from place 59 of the tail on, every instant is at least `a + 60s`
      have hfar : ∀ b ∈ ts.drop 59, ¬ ((decide (x ≤ b) && decide (b < x + 60 * Second)) = true) := by
        intro b hb
        cases hd : ts.drop 59 with
        | nil => rw [hd] at hb; cases hb
        | cons c rest =>
          have hc : ts[59]? = some c := by
            have h0 : (ts.drop 59)[0]? = some c := by rw [hd]; simp
            rw [List.getElem?_drop] at h0
            simpa using h0
          have hac : a + 60 * Second ≤ c :=
            hspaced 0 a c (by simp) (by simpa using hc)
          have hcb : c ≤ b := by
            have hp : (c :: rest).Pairwise (fun a b => a ≤ b) := by
              rw [← hd]
              exact List.Pairwise.drop (List.Pairwise.of_cons hsorted)
            rw [hd, List.mem_cons] at hb
            rcases hb with hb | hb
            · omega
            · exact List.rel_of_pairwise_cons hp hb
          simp only [Bool.and_eq_true, decide_eq_true_eq, not_and, not_lt]
          intro _
          omega
      have hsplit : countInWindow x ts
          = countInWindow x (ts.take 59) + countInWindow x (ts.drop 59) := by
        unfold countInWindow
        rw [← List.countP_append, List.take_append_drop]
      have hzero : countInWindow x (ts.drop 59) = 0 := by
        unfold countInWindow
        rw [List.countP_eq_zero]
        exact hfar
      have hhead : countInWindow x (ts.take 59) ≤ 59 := by
        unfold countInWindow
        refine le_trans (List.countP_le_length _) ?_
        rw [List.length_take]
        omega
      have hcons : countInWindow x (a :: ts) ≤ countInWindow x ts + 1 := by
        unfold countInWindow
        rw [List.countP_cons]
        split_ifs <;> omega
      omega
    · have hcons : countInWindow x (a :: ts) = countInWindow x ts := by
        unfold countInWindow
        rw [List.countP_cons, if_neg (by simp [hin])]
        rfl
      omega

theorem RunInv.start (p : Oauth2Provider) (w : World)
    (h : (w.requestTimestamps p.TenantID).getD [] = []) : RunInv p w [] :=
  ⟨by rw [h]; rfl, List.Pairwise.nil, by simp, by intro k a b ha; simp at ha⟩

/-! ## The rate-limit guarantee -/

/-- C1: starting from an empty sequence for the tenant, any number of send
attempts, each one gate, send, record on a monotone clock, runs to the end, and
the recorded instants `t_1, t_2, ...` satisfy `t_(k+60) - t_k ≥ 60s` for every
`k`; hence no interval `[x, x + 60s)` contains more than 60 of them. -/
theorem rate_limit_guarantee (p : Oauth2Provider) (xs : List (Nat × Nat)) (w0 : World)
    (h0 : (w0.requestTimestamps p.TenantID).getD [] = []) :
    ∃ w ts, attempts p xs w0 = some (w, ts) ∧ ts.length = xs.length ∧
      (∀ k a b, ts[k]? = some a → ts[k + 60]? = some b → b - a ≥ 60 * Second) ∧
      (∀ x, countInWindow x ts ≤ 60) := by
  obtain ⟨w, ts, hrun, hlen, inv⟩ := attempts_inv p xs w0 [] (RunInv.start p w0 h0)
  rw [List.nil_append] at inv
  refine ⟨w, ts, hrun, hlen, ?_, ?_⟩
  · intro k a b ha hb
    have := inv.spaced k a b ha hb
    omega
  · intro x
    exact countInWindow_le x ts inv.sorted inv.spaced

/-- Witness of C1: 61 back-to-back attempts of a fresh tenant, one nanosecond
apart. -/
theorem rate_limit_guarantee_witness :
    (((World.fresh 0).requestTimestamps "T").getD [] = []) ∧
    ∃ w ts, attempts ⟨"xerogolang", "T", false⟩ (List.replicate 61 (0, 1)) (World.fresh 0)
        = some (w, ts) ∧ ts.length = (List.replicate 61 ((0 : Nat), (1 : Nat))).length ∧
      (∀ k a b, ts[k]? = some a → ts[k + 60]? = some b → b - a ≥ 60 * Second) ∧
      (∀ x, countInWindow x ts ≤ 60) :=
  ⟨rfl, rate_limit_guarantee ⟨"xerogolang", "T", false⟩ (List.replicate 61 (0, 1))
    (World.fresh 0) rfl⟩

/-! ## The request executor -/

theorem World.record_after_gate (p : Oauth2Provider) (idle latency : Nat) (w : World)
    (request : Request) :
    ∃ w1, World.record p latency
      { w.gate p idle with sent := (w.gate p idle).sent ++ [request] } = some w1 := by
  have hseq : (w.gate p idle).requestTimestamps p.TenantID
      = some ((w.requestTimestamps p.TenantID).getD []) := by
    rw [World.gate_tracker, gate_sequence]
  obtain ⟨w1, h1, _⟩ := World.record_of_some p latency
    { w.gate p idle with sent := (w.gate p idle).sent ++ [request] } _ hseq
  exact ⟨w1, h1⟩

theorem fmtSprintf_of_no_percent (b : String) (h : ∀ c ∈ b.toList, c ≠ '%') :
    fmtSprintf b = b := by
  have h1 : b.toList.takeWhile (fun c => c != '%') = b.toList := by
    rw [List.takeWhile_eq_self_iff]
    intro c hc
    simpa using h c hc
  have h2 : b.toList.dropWhile (fun c => c != '%') = [] := by
    rw [List.dropWhile_eq_nil_iff]
    intro c hc
    simpa using h c hc
  unfold fmtSprintf fmtDoPrintf
  simp only [h1, h2]
  rfl

theorem api_error_message (p : Oauth2Provider) (additionalHeaders : List (String × String))
    (idle latency : Nat) (status : Int) (header : Header) (b : String) (xs : List Exchange)
    (request : Request) (w : World) (h200 : status ≠ 200) (h429 : status ≠ 429) :
    (processRequest p additionalHeaders
      (⟨idle, latency, some ⟨status, header, ⟨b, none⟩⟩, none, false⟩ :: xs) request w).1
      = Outcome.returned none (some (fmtSprintf b)) := by
  obtain ⟨w1, h1⟩ := World.record_after_gate p idle latency w
    (addRequestHeaders p additionalHeaders request)
  simp [processRequest, h1, h200, h429, ReaderToString, fmtErrorf]

/-- C9: when the send returns an error and no response, `processRequest` does
not return the transport error: it reads `response.StatusCode` on the nil
response and panics, whatever the provider, the request and the state. -/
theorem transport_failure_panics (p : Oauth2Provider) (additionalHeaders : List (String × String))
    (idle latency : Nat) (e : String) (stdoutFails : Bool) (xs : List Exchange)
    (request : Request) (w : World) :
    (processRequest p additionalHeaders
      (⟨idle, latency, none, some e, stdoutFails⟩ :: xs) request w).1 = Outcome.panic := by
  obtain ⟨w1, h1⟩ := World.record_after_gate p idle latency w
    (addRequestHeaders p additionalHeaders request)
  simp [processRequest, h1]

/-- C10: on a response with status 500 and body `100%`, `processRequest` returns
no bytes and an error whose message is `100%!(NOVERB)`, not the body: the body
is used as the format of `fmt.Errorf`. -/
theorem api_error_text_is_formatted :
    (processRequest ⟨"xerogolang", "T", false⟩ []
      [⟨0, 0, some ⟨500, [], ⟨"100%", none⟩⟩, none, false⟩]
      ⟨"GET", "https://api.xero.com/api.xro/2.0/Invoices", [], none⟩ (World.fresh 0)).1
      = Outcome.returned none (some "100%!(NOVERB)") ∧
    "100%!(NOVERB)" ≠ "100%" := by
  constructor
  · rfl
  · decide

theorem World.gate_sent (p : Oauth2Provider) (idle : Nat) (w : World) :
    (w.gate p idle).sent = w.sent := by
  unfold World.gate
  simp only []
  split <;> rfl

theorem World.gate_stdout (p : Oauth2Provider) (idle : Nat) (w : World) :
    (w.gate p idle).stdout = w.stdout := by
  unfold World.gate
  simp only []
  split <;> rfl

theorem World.gate_clock_ge (p : Oauth2Provider) (idle : Nat) (w : World) :
    w.clock ≤ (w.gate p idle).clock := by
  have h1 := World.gate_clock p idle w
  have h2 := gateWait_nonneg p (w.clock + idle) w.requestTimestamps
  omega

theorem World.backoff_sent (r : Response) (w : World) : (w.backoff r).sent = w.sent := by
  unfold World.backoff
  split <;> rfl

theorem World.backoff_tracker (r : Response) (w : World) :
    (w.backoff r).requestTimestamps = w.requestTimestamps := by
  unfold World.backoff
  split <;> rfl

theorem World.backoff_clock_ge (r : Response) (w : World) : w.clock ≤ (w.backoff r).clock := by
  unfold World.backoff
  split
  · exact le_refl _
  · simp only [sleepLength]
    split_ifs <;> omega

theorem World.afterSend_spec (p : Oauth2Provider) (x : Exchange) (request : Request)
    (w : World) :
    ∃ w1, w.afterSend p x request = some w1 ∧
      w1.clock = (w.gate p x.idle).clock + x.latency ∧
      w1.sent = w.sent ++ [request] ∧
      w1.stdout = w.stdout ∧
      w1.slept = (w.gate p x.idle).slept ∧
      RegisterRequestTimestamp p ((w.gate p x.idle).clock + x.latency)
        (w.gate p x.idle).requestTimestamps = some w1.requestTimestamps ∧
      w1.requestTimestamps p.TenantID
        = some ((if ((w.requestTimestamps p.TenantID).getD []).length ≥ 60
            then slice1to60 ((w.requestTimestamps p.TenantID).getD [])
            else (w.requestTimestamps p.TenantID).getD [])
          ++ [(w.gate p x.idle).clock + x.latency]) := by
  have hseq : (w.gate p x.idle).requestTimestamps p.TenantID
      = some ((w.requestTimestamps p.TenantID).getD []) := by
    rw [World.gate_tracker, gate_sequence]
  have hreg := register_of_some p ((w.gate p x.idle).clock + x.latency) _ _ hseq
  unfold World.afterSend World.record
  simp only [hreg]
  refine ⟨_, rfl, rfl, ?_, ?_, rfl, rfl, ?_⟩
  · simp [World.gate_sent]
  · simp [World.gate_stdout]
  · simp

theorem processRequest_cons (p : Oauth2Provider) (additionalHeaders : List (String × String))
    (x : Exchange) (xs : List Exchange) (request : Request) (w w1 : World)
    (h : w.afterSend p x (addRequestHeaders p additionalHeaders request) = some w1) :
    processRequest p additionalHeaders (x :: xs) request w =
      match (if p.debug then x.response.bind (fun r => r.Body.readErr) else none) with
      | some e => (.returned none (some e), w1)
      | none =>
        match x.response with
        | none => (.panic, w1)
        | some response =>
          if response.StatusCode = 429 then
            processRequest p additionalHeaders xs (addRequestHeaders p additionalHeaders request)
              (w1.backoff response)
          else
            match x.err with
            | some e => (.returned none (some e), w1)
            | none =>
              if response.StatusCode ≠ 200 then
                (.returned none
                    (some (fmtErrorf (ReaderToString (some response.Body) x.stdoutFails).1)),
                  { w1 with stdout := w1.stdout
                      ++ (ReaderToString (some response.Body) x.stdoutFails).2.toList })
              else
                match ioReadAll response.Body with
                | (_, some e) => (.returned none (some ("Could not read response: " ++ e)), w1)
                | (none, none) => (.panic, w1)
                | (some responseBytes, none) => (.returned (some responseBytes) none, w1) := by
  unfold World.afterSend at h
  rw [processRequest]
  simp only [h]

theorem processRequest_throttled (p : Oauth2Provider)
    (additionalHeaders : List (String × String)) (x : Exchange) (xs : List Exchange)
    (request : Request) (w w1 : World)
    (h : w.afterSend p x (addRequestHeaders p additionalHeaders request) = some w1)
    (r : Response) (hr : x.response = some r) (h429 : r.StatusCode = 429)
    (hdump : p.debug = true → r.Body.readErr = none) :
    processRequest p additionalHeaders (x :: xs) request w =
      processRequest p additionalHeaders xs (addRequestHeaders p additionalHeaders request)
        (w1.backoff r) := by
  rw [processRequest_cons p additionalHeaders x xs request w w1 h]
  have hd : (if p.debug then x.response.bind (fun r => r.Body.readErr) else none) = none := by
    split_ifs with hdbg
    · simp [hr, hdump hdbg]
    · rfl
  rw [hd]
  simp [hr, h429]

theorem Exchange.throttled_spec (debug : Bool) (x : Exchange) (h : x.throttled debug = true) :
    ∃ r, x.response = some r ∧ r.StatusCode = 429 ∧ (debug = true → r.Body.readErr = none) := by
  unfold Exchange.throttled at h
  cases hr : x.response with
  | none => simp [hr] at h
  | some r =>
    simp only [hr, Bool.and_eq_true, decide_eq_true_eq, Bool.or_eq_true,
      Bool.not_eq_true', Option.isNone_iff_eq_none] at h
    refine ⟨r, rfl, h.1, fun hd => ?_⟩
    rcases h.2 with h2 | h2
    · rw [hd] at h2
      cases h2
    · exact h2

theorem processRequest_retries (p : Oauth2Provider) (additionalHeaders : List (String × String))
    (pre : List Exchange) :
    ∀ (request : Request) (w : World), (∀ x ∈ pre, x.throttled p.debug = true) →
      ∃ request1 w1, (∀ rest, processRequest p additionalHeaders (pre ++ rest) request w
          = processRequest p additionalHeaders rest request1 w1) ∧
        w1.sent.length = w.sent.length + pre.length ∧ w.clock ≤ w1.clock := by
  induction pre with
  | nil =>
    intro request w _
    exact ⟨request, w, fun _ => rfl, rfl, le_refl _⟩
  | cons x pre ih =>
    intro request w hpre
    obtain ⟨r, hr, h429, hdump⟩ :=
      Exchange.throttled_spec p.debug x (hpre x (List.mem_cons_self _ _))
    obtain ⟨w1, hw1, hclock, hsent, _⟩ :=
      World.afterSend_spec p x (addRequestHeaders p additionalHeaders request) w
    obtain ⟨request2, w2, hrun, hsent2, hclock2⟩ :=
      ih (addRequestHeaders p additionalHeaders request) (w1.backoff r)
        (fun y hy => hpre y (List.mem_cons_of_mem _ hy))
    refine ⟨request2, w2, fun rest => ?_, ?_, ?_⟩
    · rw [List.cons_append,
        processRequest_throttled p additionalHeaders x (pre ++ rest) request w w1 hw1 r hr h429
          hdump]
      exact hrun rest
    · rw [hsent2, World.backoff_sent, hsent]
      simp
      omega
    · have h1 := World.gate_clock_ge p x.idle w
      have h2 := World.backoff_clock_ge r w1
      omega

theorem processRequest_final (p : Oauth2Provider) (additionalHeaders : List (String × String))
    (x : Exchange) (xs : List Exchange) (request : Request) (w : World) (r : Response)
    (hr : x.response = some r) (h429 : r.StatusCode ≠ 429) :
    ∃ bytes err, (processRequest p additionalHeaders (x :: xs) request w).1
        = Outcome.returned bytes err ∧
      (processRequest p additionalHeaders (x :: xs) request w).2.sent.length
        = w.sent.length + 1 := by
  obtain ⟨w1, hw1, _, hsent, _⟩ :=
    World.afterSend_spec p x (addRequestHeaders p additionalHeaders request) w
  have hlen : w1.sent.length = w.sent.length + 1 := by rw [hsent]; simp
  rw [processRequest_cons p additionalHeaders x xs request w w1 hw1]
  split
  · exact ⟨_, _, rfl, hlen⟩
  · simp only [hr, if_neg h429]
    split
    · exact ⟨_, _, rfl, hlen⟩
    · split_ifs
      · exact ⟨_, _, rfl, hlen⟩
      · simp only [ioReadAll]
        split
        · exact ⟨_, _, rfl, hlen⟩
        · rename_i heq
          cases heq
        · exact ⟨_, _, rfl, hlen⟩

theorem processRequest_ok (p : Oauth2Provider) (additionalHeaders : List (String × String))
    (idle latency : Nat) (header : Header) (b : String) (stdoutFails : Bool)
    (xs : List Exchange) (request : Request) (w : World) :
    (processRequest p additionalHeaders
        (⟨idle, latency, some ⟨200, header, ⟨b, none⟩⟩, none, stdoutFails⟩ :: xs) request w).1
      = Outcome.returned (some b) none ∧
    (processRequest p additionalHeaders
        (⟨idle, latency, some ⟨200, header, ⟨b, none⟩⟩, none, stdoutFails⟩ :: xs)
        request w).2.sent.length = w.sent.length + 1 := by
  obtain ⟨w1, hw1, _, hsent, _⟩ := World.afterSend_spec p
    ⟨idle, latency, some ⟨200, header, ⟨b, none⟩⟩, none, stdoutFails⟩
    (addRequestHeaders p additionalHeaders request) w
  rw [processRequest_cons p additionalHeaders _ xs request w w1 hw1]
  simp [ioReadAll, hsent]

/-! ## Claims on the request executor -/

/-- C11: a response with status 200 and an empty body does not make
`processRequest` fail: it returns the empty byte sequence and no error, since
`io.ReadAll` never returns a nil slice. -/
theorem empty_body_is_returned (p : Oauth2Provider) (additionalHeaders : List (String × String))
    (idle latency : Nat) (header : Header) (stdoutFails : Bool) (xs : List Exchange)
    (request : Request) (w : World) :
    (processRequest p additionalHeaders
        (⟨idle, latency, some ⟨200, header, ⟨"", none⟩⟩, none, stdoutFails⟩ :: xs) request w).1
      = Outcome.returned (some "") none :=
  (processRequest_ok p additionalHeaders idle latency header "" stdoutFails xs request w).1

/-- C12: when the first `n` send attempts are answered with status 429 and the
next one with status 200 and body `b`, `processRequest` returns exactly `b`
with no error after exactly `n + 1` sends, for every `n`; and a response with
any status other than 429 makes the call return after that one send. -/
theorem retries_until_success (p : Oauth2Provider) (additionalHeaders : List (String × String))
    (request : Request) (w : World) :
    (∀ (pre : List Exchange) (idle latency : Nat) (header : Header) (b : String)
        (stdoutFails : Bool) (rest : List Exchange),
      (∀ x ∈ pre, x.throttled p.debug = true) →
      (processRequest p additionalHeaders
          (pre ++ ⟨idle, latency, some ⟨200, header, ⟨b, none⟩⟩, none, stdoutFails⟩ :: rest)
          request w).1 = Outcome.returned (some b) none ∧
      (processRequest p additionalHeaders
          (pre ++ ⟨idle, latency, some ⟨200, header, ⟨b, none⟩⟩, none, stdoutFails⟩ :: rest)
          request w).2.sent.length = w.sent.length + (pre.length + 1)) ∧
    (∀ (x : Exchange) (xs : List Exchange) (r : Response),
      x.response = some r → r.StatusCode ≠ 429 →
      ∃ bytes err, (processRequest p additionalHeaders (x :: xs) request w).1
          = Outcome.returned bytes err ∧
        (processRequest p additionalHeaders (x :: xs) request w).2.sent.length
          = w.sent.length + 1) := by
  constructor
  · intro pre idle latency header b stdoutFails rest hpre
    obtain ⟨request1, w1, hrun, hsent, _⟩ :=
      processRequest_retries p additionalHeaders pre request w hpre
    rw [hrun]
    have h := processRequest_ok p additionalHeaders idle latency header b stdoutFails rest
      request1 w1
    exact ⟨h.1, by rw [h.2, hsent]; omega⟩
  · intro x xs r hr h429
    exact processRequest_final p additionalHeaders x xs request w r hr h429

/-- Witness of C12: two throttled attempts, then a success. -/
theorem retries_until_success_witness :
    (∀ x ∈ [(⟨0, 1, some ⟨429, [], ⟨"", none⟩⟩, none, false⟩ : Exchange),
        ⟨0, 1, some ⟨429, [("Retry-After", "1")], ⟨"", none⟩⟩, none, false⟩],
      x.throttled false = true) ∧
    (processRequest ⟨"xerogolang", "T", false⟩ []
        ([(⟨0, 1, some ⟨429, [], ⟨"", none⟩⟩, none, false⟩ : Exchange),
            ⟨0, 1, some ⟨429, [("Retry-After", "1")], ⟨"", none⟩⟩, none, false⟩]
          ++ ⟨0, 1, some ⟨200, [], ⟨"ok", none⟩⟩, none, false⟩ :: [])
        ⟨"GET", "https://api.xero.com/api.xro/2.0/Invoices", [], none⟩ (World.fresh 0)).1
      = Outcome.returned (some "ok") none :=
  ⟨by decide,
    ((retries_until_success ⟨"xerogolang", "T", false⟩ []
      ⟨"GET", "https://api.xero.com/api.xro/2.0/Invoices", [], none⟩ (World.fresh 0)).1
      [⟨0, 1, some ⟨429, [], ⟨"", none⟩⟩, none, false⟩,
        ⟨0, 1, some ⟨429, [("Retry-After", "1")], ⟨"", none⟩⟩, none, false⟩]
      0 1 [] "ok" false [] (by decide)).1⟩

/-! ## The backoff handler -/

theorem decimalValue_ge (ds : List Char) : ∀ acc, acc ≤ decimalValue acc ds := by
  induction ds with
  | nil => intro acc; exact le_refl _
  | cons c ds ih =>
    intro acc
    have := ih (acc * 10 + (c.toNat - 48))
    simp only [decimalValue, List.foldl_cons] at this ⊢
    omega

theorem leadingInt_digits (ds : List Char) :
    ∀ acc, (∀ c ∈ ds, c.isDigit = true) → decimalValue acc ds ≤ 9223372036 →
      leadingInt (ds ++ ['s']) acc = some (decimalValue acc ds, ['s']) := by
  induction ds with
  | nil =>
    intro acc _ _
    simp [leadingInt, decimalValue]
  | cons c ds ih =>
    intro acc hd hv
    have hc : c.isDigit = true := hd c (List.mem_cons_self _ _)
    have hv1 : decimalValue (acc * 10 + (c.toNat - 48)) ds ≤ 9223372036 := hv
    have hge := decimalValue_ge ds (acc * 10 + (c.toNat - 48))
    rw [List.cons_append, leadingInt, if_pos hc, if_neg (by omega)]
    simp only []
    rw [if_neg (by omega)]
    rw [ih _ (fun d hdm => hd d (List.mem_cons_of_mem _ hdm)) hv1]
    rfl

theorem ParseDuration_seconds (ds : List Char) (hne : ds ≠ []) (hd : ∀ c ∈ ds, c.isDigit = true)
    (hv : decimalValue 0 ds ≤ 9223372036) :
    ParseDuration (String.mk ds ++ "s") = .ok ((decimalValue 0 ds : Int) * Second) := by
  cases ds with
  | nil => exact absurd rfl hne
  | cons c ds =>
    have hc : c.isDigit = true := hd c (List.mem_cons_self _ _)
    have hminus : c ≠ '-' := by rintro rfl; revert hc; decide
    have hplus : c ≠ '+' := by rintro rfl; revert hc; decide
    have hdot : c ≠ '.' := by rintro rfl; revert hc; decide
    have hlist : (String.mk (c :: ds) ++ "s").toList = c :: (ds ++ ['s']) := by
      simp [String.toList]
    have hli := leadingInt_digits (c :: ds) 0 hd hv
    rw [List.cons_append] at hli
    unfold ParseDuration
    simp only [hlist]
    have hbody : (match c :: (ds ++ ['s']) with
        | '-' :: r => r
        | '+' :: r => r
        | r => r) = c :: (ds ++ ['s']) := by
      split
      · rename_i heq
        exact absurd (List.cons.inj heq).1 hminus
      · rename_i heq
        exact absurd (List.cons.inj heq).1 hplus
      · rfl
    have hnil : ∀ (orig : String) (fuel d : Nat),
        parseDurationLoop orig (fuel + 1) [] d = .ok d := by
      intro orig fuel d
      rfl
    have hloop : ∀ orig : String,
        parseDurationLoop orig ((c :: (ds ++ ['s'])).length + 1) (c :: (ds ++ ['s'])) 0
          = .ok (decimalValue 0 (c :: ds) * 1000000000) := by
      intro orig
      rw [parseDurationLoop]
      simp only [hli, hc]
      simp [unitMap]
      have hmod : decimalValue 0 (c :: ds) * 1000000000 % 18446744073709551616
          = decimalValue 0 (c :: ds) * 1000000000 := Nat.mod_eq_of_lt (by omega)
      rw [hmod, hnil, if_neg (by omega), if_neg (by omega)]
    rw [hbody, if_neg (by
      intro h
      have := congrArg List.length h
      simp at this), if_neg (by simp), hloop]
    have hhead : (c :: (ds ++ ['s'])).head? ≠ some '-' := by
      simp only [List.head?_cons, ne_eq, Option.some.injEq]
      exact hminus
    simp only [if_neg hhead]
    rw [if_neg (by omega)]
    simp [Second]


theorem sleepUntilRetryAfter_seconds (r : Response) (ds : List Char) (hne : ds ≠ [])
    (hd : ∀ c ∈ ds, c.isDigit = true) (hv : decimalValue 0 ds ≤ 9223372036)
    (hh : r.Header.Get "Retry-After" = String.mk ds) :
    sleepUntilRetryAfter r = (some ((decimalValue 0 ds : Int) * Second), none) := by
  have hempty : String.mk ds ≠ "" := by
    intro h
    exact hne (congrArg String.data h)
  unfold sleepUntilRetryAfter
  simp only [hh, if_neg hempty, ParseDuration_seconds ds hne hd hv]

theorem sleepUntilRetryAfter_absent (r : Response) (hh : r.Header.Get "Retry-After" = "") :
    sleepUntilRetryAfter r = (none, none) := by
  unfold sleepUntilRetryAfter
  simp [hh]

/-- C13: a 429 response whose `Retry-After` header is a string of decimal digits
of value `n`, with `n` seconds within the int64 range of nanoseconds, makes
`sleepUntilRetryAfter` sleep exactly `n` seconds and return no error; the
request is then sent again and the call returns what the rest of the run
returns. With `Retry-After: 2` the sleep is 2 seconds. -/
theorem backoff_sleeps_retry_after (p : Oauth2Provider)
    (additionalHeaders : List (String × String)) (x : Exchange) (xs : List Exchange)
    (request : Request) (w : World) (r : Response) (ds : List Char)
    (hr : x.response = some r) (h429 : r.StatusCode = 429)
    (hdump : p.debug = true → r.Body.readErr = none)
    (hne : ds ≠ []) (hd : ∀ c ∈ ds, c.isDigit = true)
    (hv : (decimalValue 0 ds : Int) * Second ≤ maxDuration)
    (hh : r.Header.Get "Retry-After" = String.mk ds) :
    sleepUntilRetryAfter r = (some ((decimalValue 0 ds : Int) * Second), none) ∧
    (∃ w1, w.afterSend p x (addRequestHeaders p additionalHeaders request) = some w1 ∧
      processRequest p additionalHeaders (x :: xs) request w =
        processRequest p additionalHeaders xs (addRequestHeaders p additionalHeaders request)
          { w1 with clock := w1.clock + (decimalValue 0 ds : Int) * Second,
                    slept := w1.slept ++ [(decimalValue 0 ds : Int) * Second] }) ∧
    (∀ (status : Int) (body : Body),
      sleepUntilRetryAfter ⟨status, [("Retry-After", "2")], body⟩ = (some (2 * Second), none)) := by
  have hv1 : decimalValue 0 ds ≤ 9223372036 := by
    unfold Second maxDuration at hv
    omega
  have hsleep := sleepUntilRetryAfter_seconds r ds hne hd hv1 hh
  refine ⟨hsleep, ?_, ?_⟩
  · obtain ⟨w1, hw1, _⟩ :=
      World.afterSend_spec p x (addRequestHeaders p additionalHeaders request) w
    refine ⟨w1, hw1, ?_⟩
    rw [processRequest_throttled p additionalHeaders x xs request w w1 hw1 r hr h429 hdump]
    have hback : w1.backoff r
        = { w1 with clock := w1.clock + (decimalValue 0 ds : Int) * Second,
                    slept := w1.slept ++ [(decimalValue 0 ds : Int) * Second] } := by
      unfold World.backoff
      simp only [hsleep, sleepLength]
      have hnn : (0 : Int) ≤ (decimalValue 0 ds : Int) * Second := by
        unfold Second
        omega
      split_ifs with h0
      · have : (decimalValue 0 ds : Int) * Second = 0 := le_antisymm h0 hnn
        rw [this]
      · rfl
    rw [hback]
  · intro status body
    rfl

/-- Witness of C13: a 429 response with `Retry-After: 120`. -/
theorem backoff_sleeps_retry_after_witness :
    sleepUntilRetryAfter ⟨429, [("Retry-After", "120")], ⟨"", none⟩⟩
      = (some ((decimalValue 0 ['1', '2', '0'] : Int) * Second), none) :=
  (backoff_sleeps_retry_after ⟨"xerogolang", "T", false⟩ []
    ⟨0, 1, some ⟨429, [("Retry-After", "120")], ⟨"", none⟩⟩, none, false⟩ []
    ⟨"GET", "https://api.xero.com/api.xro/2.0/Invoices", [], none⟩ (World.fresh 0)
    ⟨429, [("Retry-After", "120")], ⟨"", none⟩⟩ ['1', '2', '0'] rfl rfl (by intro h; cases h)
    (by simp) (by decide) (by decide) rfl).1

/-- C14 (as amended): on a 429 response without a `Retry-After` value the
backoff handler does not sleep and returns no error, and `processRequest`
sends the request again at once: the call returns what the rest of the run
returns, from the world as it is after the recording of the first send. -/
theorem throttled_without_delay_retries (p : Oauth2Provider)
    (additionalHeaders : List (String × String)) (x : Exchange) (xs : List Exchange)
    (request : Request) (w : World) (r : Response)
    (hr : x.response = some r) (h429 : r.StatusCode = 429)
    (hdump : p.debug = true → r.Body.readErr = none)
    (hh : r.Header.Get "Retry-After" = "") :
    sleepUntilRetryAfter r = (none, none) ∧
    ∃ w1, w.afterSend p x (addRequestHeaders p additionalHeaders request) = some w1 ∧
      processRequest p additionalHeaders (x :: xs) request w =
        processRequest p additionalHeaders xs (addRequestHeaders p additionalHeaders request)
          w1 := by
  have hsleep := sleepUntilRetryAfter_absent r hh
  refine ⟨hsleep, ?_⟩
  obtain ⟨w1, hw1, _⟩ :=
    World.afterSend_spec p x (addRequestHeaders p additionalHeaders request) w
  refine ⟨w1, hw1, ?_⟩
  rw [processRequest_throttled p additionalHeaders x xs request w w1 hw1 r hr h429 hdump]
  have hback : w1.backoff r = w1 := by
    unfold World.backoff
    simp only [hsleep]
  rw [hback]

/-- Witness of C14: a 429 response with an empty header set. -/
theorem throttled_without_delay_retries_witness :
    sleepUntilRetryAfter ⟨429, [], ⟨"", none⟩⟩ = (none, none) :=
  (throttled_without_delay_retries ⟨"xerogolang", "T", false⟩ []
    ⟨0, 1, some ⟨429, [], ⟨"", none⟩⟩, none, false⟩ []
    ⟨"GET", "https://api.xero.com/api.xro/2.0/Invoices", [], none⟩ (World.fresh 0)
    ⟨429, [], ⟨"", none⟩⟩ rfl rfl (by intro h; cases h) rfl).1

/-- Counterexample to C14 as stated: a 429 response without `Retry-After`,
followed by a 200 response with body `ok`: the call does not fail with an API
error, it sends the request twice, never sleeps, and returns `ok`. -/
theorem throttled_without_delay_is_resent :
    (processRequest ⟨"xerogolang", "T", false⟩ []
        [⟨0, 1, some ⟨429, [], ⟨"too many requests", none⟩⟩, none, false⟩,
          ⟨0, 1, some ⟨200, [], ⟨"ok", none⟩⟩, none, false⟩]
        ⟨"GET", "https://api.xero.com/api.xro/2.0/Invoices", [], none⟩ (World.fresh 0)).1
      = Outcome.returned (some "ok") none ∧
    (processRequest ⟨"xerogolang", "T", false⟩ []
        [⟨0, 1, some ⟨429, [], ⟨"too many requests", none⟩⟩, none, false⟩,
          ⟨0, 1, some ⟨200, [], ⟨"ok", none⟩⟩, none, false⟩]
        ⟨"GET", "https://api.xero.com/api.xro/2.0/Invoices", [], none⟩
        (World.fresh 0)).2.sent.length = 2 ∧
    (processRequest ⟨"xerogolang", "T", false⟩ []
        [⟨0, 1, some ⟨429, [], ⟨"too many requests", none⟩⟩, none, false⟩,
          ⟨0, 1, some ⟨200, [], ⟨"ok", none⟩⟩, none, false⟩]
        ⟨"GET", "https://api.xero.com/api.xro/2.0/Invoices", [], none⟩
        (World.fresh 0)).2.slept = [] := by
  refine ⟨rfl, rfl, rfl⟩

/-! ## One record per send attempt -/

theorem lastSixty_of_le (hist : List Int) (h : hist.length ≤ 60) : lastSixty hist = hist := by
  unfold lastSixty
  rw [show hist.length - 60 = 0 by omega, List.drop_zero]

theorem lastSixty_append_lastSixty (a b : List Int) :
    lastSixty (lastSixty a ++ b) = lastSixty (a ++ b) := by
  by_cases h : a.length ≤ 60
  · rw [lastSixty_of_le a h]
  · unfold lastSixty
    rw [← List.drop_append_of_le_length (by omega), List.drop_drop]
    congr 1
    simp only [List.length_append, List.length_drop]
    omega

theorem processRequest_cons_cases (p : Oauth2Provider)
    (additionalHeaders : List (String × String)) (x : Exchange) (xs : List Exchange)
    (request : Request) (w w1 : World)
    (h : w.afterSend p x (addRequestHeaders p additionalHeaders request) = some w1) :
    (∃ r, x.response = some r ∧ r.StatusCode = 429 ∧
      processRequest p additionalHeaders (x :: xs) request w =
        processRequest p additionalHeaders xs (addRequestHeaders p additionalHeaders request)
          (w1.backoff r)) ∨
    ((processRequest p additionalHeaders (x :: xs) request w).2.clock = w1.clock ∧
      (processRequest p additionalHeaders (x :: xs) request w).2.sent = w1.sent ∧
      (processRequest p additionalHeaders (x :: xs) request w).2.requestTimestamps
        = w1.requestTimestamps) := by
  rw [processRequest_cons p additionalHeaders x xs request w w1 h]
  split
  · exact Or.inr ⟨rfl, rfl, rfl⟩
  · split
    · exact Or.inr ⟨rfl, rfl, rfl⟩
    · rename_i response hresp
      by_cases h429 : response.StatusCode = 429
      · rw [if_pos h429]
        exact Or.inl ⟨response, hresp, h429, rfl⟩
      · rw [if_neg h429]
        split
        · exact Or.inr ⟨rfl, rfl, rfl⟩
        · split_ifs
          · exact Or.inr ⟨rfl, rfl, rfl⟩
          · split <;> exact Or.inr ⟨rfl, rfl, rfl⟩

theorem processRequest_records (p : Oauth2Provider) (additionalHeaders : List (String × String))
    (script : List Exchange) :
    ∀ (request : Request) (w : World), ((w.requestTimestamps p.TenantID).getD []).length ≤ 60 →
      ∃ ts : List Int,
        (processRequest p additionalHeaders script request w).2.sent.length
          = w.sent.length + ts.length ∧
        ((processRequest p additionalHeaders script request w).2.requestTimestamps
            p.TenantID).getD [] = lastSixty ((w.requestTimestamps p.TenantID).getD [] ++ ts) ∧
        ts.Pairwise (fun a b => a ≤ b) ∧
        (∀ t ∈ ts, w.clock ≤ t ∧
          t ≤ (processRequest p additionalHeaders script request w).2.clock) ∧
        w.clock ≤ (processRequest p additionalHeaders script request w).2.clock ∧
        (∀ x xs, script = x :: xs → ts.head? = some ((w.gate p x.idle).clock + x.latency)) := by
  induction script with
  | nil =>
    intro request w hlen
    refine ⟨[], rfl, ?_, List.Pairwise.nil, by simp, le_refl _, by simp⟩
    rw [List.append_nil, lastSixty_of_le _ hlen]
    rfl
  | cons x xs ih =>
    intro request w hlen
    obtain ⟨w1, hw1, hclock, hsent, _, _, _, hseq⟩ :=
      World.afterSend_spec p x (addRequestHeaders p additionalHeaders request) w
    have hseq1 : (w1.requestTimestamps p.TenantID).getD []
        = lastSixty ((w.requestTimestamps p.TenantID).getD []
            ++ [(w.gate p x.idle).clock + x.latency]) := by
      rw [hseq, Option.getD_some, ← lastSixty_snoc, lastSixty_of_le _ hlen]
    have hgate := World.gate_clock_ge p x.idle w
    have hlen1 : w1.sent.length = w.sent.length + 1 := by rw [hsent]; simp
    rcases processRequest_cons_cases p additionalHeaders x xs request w w1 hw1 with
      ⟨r, _, _, hrun⟩ | ⟨hc, hs, ht⟩
    · have hback : ((w1.backoff r).requestTimestamps p.TenantID).getD []
          = (w1.requestTimestamps p.TenantID).getD [] := by rw [World.backoff_tracker]
      obtain ⟨ts, h1, h2, h3, h4, h5, _⟩ :=
        ih (addRequestHeaders p additionalHeaders request) (w1.backoff r)
          (by rw [hback, hseq1, lastSixty_length]; omega)
      have hb := World.backoff_clock_ge r w1
      rw [hrun]
      refine ⟨((w.gate p x.idle).clock + x.latency) :: ts, ?_, ?_, ?_, ?_, ?_, ?_⟩
      · rw [h1, World.backoff_sent, hlen1, List.length_cons]
        omega
      · rw [h2, hback, hseq1, lastSixty_append_lastSixty, List.append_assoc,
          List.singleton_append]
      · rw [List.pairwise_cons]
        refine ⟨fun t ht => ?_, h3⟩
        have := (h4 t ht).1
        omega
      · intro t ht
        rw [List.mem_cons] at ht
        rcases ht with ht | ht
        · rw [ht]
          omega
        · have := h4 t ht
          omega
      · omega
      · intro y ys hy
        cases hy
        rfl
    · refine ⟨[(w.gate p x.idle).clock + x.latency], ?_, ?_, List.pairwise_singleton _ _,
        ?_, ?_, ?_⟩
      · rw [hs, hlen1]
        rfl
      · rw [ht, hseq1]
      · intro t ht
        rw [List.mem_singleton] at ht
        rw [ht, hc]
        omega
      · rw [hc]
        omega
      · intro y ys hy
        cases hy
        rfl

theorem processRequest_sent_one (p : Oauth2Provider) (additionalHeaders : List (String × String))
    (x : Exchange) (request : Request) (w : World) :
    (processRequest p additionalHeaders [x] request w).2.sent.length = w.sent.length + 1 := by
  obtain ⟨w1, hw1, _, hsent, _⟩ :=
    World.afterSend_spec p x (addRequestHeaders p additionalHeaders request) w
  have hlen1 : w1.sent.length = w.sent.length + 1 := by rw [hsent]; simp
  rcases processRequest_cons_cases p additionalHeaders x [] request w w1 hw1 with
    ⟨r, _, _, hrun⟩ | ⟨_, hs, _⟩
  · rw [hrun, processRequest, World.backoff_sent, hlen1]
  · rw [hs, hlen1]

/-- C15: every send attempt of `processRequest`, whatever its outcome, records
exactly one instant, read after the send: the instants `ts` recorded by a call
are as many as the requests it sends, they are in time order, the first one is
the clock reading `latency` after the gate let the request go, and the
tenant's sequence afterwards is the last 60 of the earlier entries followed by
`ts`. A call whose first `n` attempts are retried sends `n + 1` times on a
script of `n + 1` exchanges, so it records `n + 1` instants. -/
theorem one_record_per_attempt (p : Oauth2Provider) (additionalHeaders : List (String × String))
    (request : Request) (w : World)
    (hlen : ((w.requestTimestamps p.TenantID).getD []).length ≤ 60) :
    (∀ script : List Exchange, ∃ ts : List Int,
      (processRequest p additionalHeaders script request w).2.sent.length
        = w.sent.length + ts.length ∧
      ((processRequest p additionalHeaders script request w).2.requestTimestamps
          p.TenantID).getD [] = lastSixty ((w.requestTimestamps p.TenantID).getD [] ++ ts) ∧
      ts.Pairwise (fun a b => a ≤ b) ∧
      (∀ t ∈ ts, w.clock ≤ t ∧
        t ≤ (processRequest p additionalHeaders script request w).2.clock) ∧
      (∀ x xs, script = x :: xs → ts.head? = some ((w.gate p x.idle).clock + x.latency))) ∧
    (∀ (pre : List Exchange) (last : Exchange), (∀ x ∈ pre, x.throttled p.debug = true) →
      (processRequest p additionalHeaders (pre ++ [last]) request w).2.sent.length
        = w.sent.length + (pre.length + 1)) := by
  constructor
  · intro script
    obtain ⟨ts, h1, h2, h3, h4, _, h6⟩ :=
      processRequest_records p additionalHeaders script request w hlen
    exact ⟨ts, h1, h2, h3, h4, h6⟩
  · intro pre last hpre
    obtain ⟨request1, w1, hrun, hsent, _⟩ :=
      processRequest_retries p additionalHeaders pre request w hpre
    rw [hrun, processRequest_sent_one, hsent]
    omega

/-- Witness of C15: a fresh tenant, any script. -/
theorem one_record_per_attempt_witness :
    (((World.fresh 0).requestTimestamps "T").getD []).length ≤ 60 ∧
    (processRequest ⟨"xerogolang", "T", false⟩ []
        ([⟨0, 1, some ⟨429, [], ⟨"", none⟩⟩, none, false⟩]
          ++ [⟨0, 1, none, some "EOF", false⟩])
        ⟨"GET", "https://api.xero.com/api.xro/2.0/Invoices", [], none⟩
        (World.fresh 0)).2.sent.length
      = (World.fresh 0).sent.length
        + (([⟨0, 1, some ⟨429, [], ⟨"", none⟩⟩, none, false⟩] : List Exchange).length + 1) :=
  ⟨by decide,
    (one_record_per_attempt ⟨"xerogolang", "T", false⟩ []
      ⟨"GET", "https://api.xero.com/api.xro/2.0/Invoices", [], none⟩ (World.fresh 0)
      (by decide)).2 [⟨0, 1, some ⟨429, [], ⟨"", none⟩⟩, none, false⟩]
      ⟨0, 1, none, some "EOF", false⟩ (by decide)⟩

/-! ## Decimal digits -/

theorem digitChar_spec (k : Nat) (h : k < 10) :
    (Nat.digitChar k).isDigit = true ∧ (Nat.digitChar k).toNat - 48 = k ∧
      Nat.digitChar k ≠ 'Z' := by
  interval_cases k <;> decide

theorem isDigit_ne_sign (c : Char) (h : c.isDigit = true) : c ≠ '+' ∧ c ≠ '-' := by
  constructor <;> (rintro rfl; revert h; decide)

theorem decimalValue_append (acc : Nat) (l : List Char) (d : Char) :
    decimalValue acc (l ++ [d]) = decimalValue acc l * 10 + (d.toNat - 48) := by
  simp [decimalValue, List.foldl_append]

theorem toDigitsCore_spec (fuel : Nat) :
    ∀ (n : Nat) (ds : List Char), n < fuel →
      ∃ l, Nat.toDigitsCore 10 fuel n ds = l ++ ds ∧ l ≠ [] ∧
        (∀ c ∈ l, c.isDigit = true) ∧ decimalValue 0 l = n := by
  induction fuel with
  | zero => intro n ds h; omega
  | succ fuel ih =>
    intro n ds hn
    have hd := digitChar_spec (n % 10) (Nat.mod_lt _ (by omega))
    rw [Nat.toDigitsCore]
    by_cases h0 : n / 10 = 0
    · rw [if_pos h0]
      refine ⟨[Nat.digitChar (n % 10)], rfl, by simp, ?_, ?_⟩
      · intro c hc
        rw [List.mem_singleton] at hc
        rw [hc]
        exact hd.1
      · simp only [decimalValue, List.foldl_cons, List.foldl_nil]
        omega
    · rw [if_neg h0]
      obtain ⟨l, h1, _, h3, h4⟩ := ih (n / 10) (Nat.digitChar (n % 10) :: ds) (by omega)
      refine ⟨l ++ [Nat.digitChar (n % 10)], by rw [h1]; simp, by simp, ?_, ?_⟩
      · intro c hc
        rw [List.mem_append, List.mem_singleton] at hc
        rcases hc with hc | hc
        · exact h3 c hc
        · rw [hc]
          exact hd.1
      · rw [decimalValue_append, h4]
        omega

theorem toDigits_spec (n : Nat) :
    Nat.toDigits 10 n ≠ [] ∧ (∀ c ∈ Nat.toDigits 10 n, c.isDigit = true) ∧
      decimalValue 0 (Nat.toDigits 10 n) = n := by
  obtain ⟨l, h1, h2, h3, h4⟩ := toDigitsCore_spec (n + 1) n [] (by omega)
  unfold Nat.toDigits
  rw [h1, List.append_nil]
  exact ⟨h2, h3, h4⟩

theorem parseUintLoop_digits (ds : List Char) :
    ∀ acc, (∀ c ∈ ds, c.isDigit = true) → decimalValue acc ds < 9223372036854775808 →
      parseUintLoop ds acc = some (some (decimalValue acc ds)) := by
  induction ds with
  | nil =>
    intro acc _ _
    rfl
  | cons c ds ih =>
    intro acc hd hv
    have hc : c.isDigit = true := hd c (List.mem_cons_self _ _)
    have hv1 : decimalValue (acc * 10 + (c.toNat - 48)) ds < 9223372036854775808 := hv
    have hge := decimalValue_ge ds (acc * 10 + (c.toNat - 48))
    rw [parseUintLoop, if_pos hc, if_neg (by omega)]
    simp only []
    rw [if_neg (by omega)]
    exact ih _ (fun d hdm => hd d (List.mem_cons_of_mem _ hdm)) hv1

theorem ParseInt_digits (ds : List Char) (hne : ds ≠ []) (hd : ∀ c ∈ ds, c.isDigit = true)
    (hv : decimalValue 0 ds < 9223372036854775808) :
    ParseInt (String.mk ds) = .ok (decimalValue 0 ds : Int) := by
  cases ds with
  | nil => exact absurd rfl hne
  | cons c ds =>
    have hc : c.isDigit = true := hd c (List.mem_cons_self _ _)
    have hsign := isDigit_ne_sign c hc
    have hempty : String.mk (c :: ds) ≠ "" := by
      intro h
      exact hne (congrArg String.data h)
    have hbody : (match (String.mk (c :: ds)).toList with
        | '+' :: r => r
        | '-' :: r => r
        | r => r) = c :: ds := by
      show (match c :: ds with
        | '+' :: r => r
        | '-' :: r => r
        | r => r) = c :: ds
      split
      · rename_i heq
        exact absurd (List.cons.inj heq).1 hsign.1
      · rename_i heq
        exact absurd (List.cons.inj heq).1 hsign.2
      · rfl
    have hhead : ¬ ((String.mk (c :: ds)).toList.head? = some '-') := by
      show ¬ ((c :: ds).head? = some '-')
      simp only [List.head?_cons, Option.some.injEq]
      exact hsign.2
    unfold ParseInt
    rw [if_neg hempty]
    simp only [hbody, hhead, parseUintLoop_digits (c :: ds) 0 hd hv]
    rw [if_neg hne, if_neg (by simp; omega), if_neg (by simp)]
    simp

/-! ## The time normalizer -/

theorem digitsAndSigns_digits (ds : List Char) (hd : ∀ c ∈ ds, c.isDigit = true) :
    digitsAndSigns ds = ds := by
  unfold digitsAndSigns
  rw [List.filter_eq_self]
  intro c hc
  simp [hd c hc]

theorem digitsAndSigns_append (a b : List Char) :
    digitsAndSigns (a ++ b) = digitsAndSigns a ++ digitsAndSigns b := by
  simp [digitsAndSigns]

theorem digitsAndSigns_legacy (ms rest : List Char) (hd : ∀ c ∈ ms, c.isDigit = true) :
    digitsAndSigns ("/Date(".toList ++ ms ++ rest) = ms ++ digitsAndSigns rest := by
  rw [digitsAndSigns_append, digitsAndSigns_append, digitsAndSigns_digits ms hd]
  rfl

theorem contains_digits (ds : List Char) (sep : Char) (hsep : sep.isDigit = false)
    (hd : ∀ c ∈ ds, c.isDigit = true) : ds.contains sep = false := by
  rw [Bool.eq_false_iff]
  intro h
  have hmem : sep ∈ ds := by simpa using h
  rw [hd sep hmem] at hsep
  cases hsep

theorem regexpSplit2_digits (sep : Char) (hsep : sep.isDigit = false) (ms o : List Char)
    (hd : ∀ c ∈ ms, c.isDigit = true) :
    regexpSplit2 sep (ms ++ sep :: o) = [ms, o] := by
  have hne : ∀ c ∈ ms, (c != sep) = true := by
    intro c hc
    simp only [bne_iff_ne, ne_eq]
    rintro rfl
    rw [hd c hc] at hsep
    cases hsep
  unfold regexpSplit2
  rw [if_neg (by simp), if_pos (by simp)]
  rw [List.takeWhile_append_of_pos hne, List.dropWhile_append_of_pos hne]
  simp

theorem getTimestampAndOffset_digits (sep : Char) (hsep : sep.isDigit = false)
    (ms o : List Char) (hms : ms ≠ []) (ho : o ≠ [])
    (hdm : ∀ c ∈ ms, c.isDigit = true) (hdo : ∀ c ∈ o, c.isDigit = true)
    (hvm : decimalValue 0 ms < 9223372036854775808)
    (hvo : decimalValue 0 o < 9223372036854775808) :
    getTimestampAndOffset sep (ms ++ sep :: o)
      = some (.ok ((decimalValue 0 ms : Int), (decimalValue 0 o : Int))) := by
  unfold getTimestampAndOffset
  simp [regexpSplit2_digits sep hsep ms o hdm, ParseInt_digits ms hms hdm hvm,
    ParseInt_digits o ho hdo hvo]

theorem legacySeconds_plus (ms o : List Char) (hms : ms ≠ []) (ho : o ≠ [])
    (hdm : ∀ c ∈ ms, c.isDigit = true) (hdo : ∀ c ∈ o, c.isDigit = true)
    (hvm : decimalValue 0 ms < 9223372036854775808)
    (hvo : decimalValue 0 o < 9223372036854775808) :
    legacySeconds (ms ++ '+' :: o)
      = some (.ok (wrap64 (((decimalValue 0 ms / 1000 : Nat) : Int) + (decimalValue 0 o : Int)))) := by
  unfold legacySeconds
  rw [if_pos (by simp),
    getTimestampAndOffset_digits '+' (by decide) ms o hms ho hdm hdo hvm hvo]
  simp only [Int.ofNat_tdiv]
  rfl

theorem legacySeconds_minus (ms o : List Char) (hms : ms ≠ []) (ho : o ≠ [])
    (hdm : ∀ c ∈ ms, c.isDigit = true) (hdo : ∀ c ∈ o, c.isDigit = true)
    (hvm : decimalValue 0 ms < 9223372036854775808)
    (hvo : decimalValue 0 o < 9223372036854775808) :
    legacySeconds (ms ++ '-' :: o)
      = some (.ok (wrap64 (((decimalValue 0 ms / 1000 : Nat) : Int) - (decimalValue 0 o : Int)))) := by
  have hplus : (ms ++ '-' :: o).contains '+' = false := by
    rw [Bool.eq_false_iff]
    intro h
    have hmem : '+' ∈ ms ++ '-' :: o := by simpa using h
    rw [List.mem_append, List.mem_cons] at hmem
    rcases hmem with hm | hm | hm
    · exact absurd (hdm _ hm) (by decide)
    · exact absurd hm (by decide)
    · exact absurd (hdo _ hm) (by decide)
  unfold legacySeconds
  rw [if_neg (by rw [hplus]; simp), if_pos (by simp),
    getTimestampAndOffset_digits '-' (by decide) ms o hms ho hdm hdo hvm hvo]
  simp only [Int.ofNat_tdiv]
  rfl

theorem legacySeconds_plain (ms : List Char) (hms : ms ≠ [])
    (hdm : ∀ c ∈ ms, c.isDigit = true) (hvm : decimalValue 0 ms < 9223372036854775808) :
    legacySeconds ms = some (.ok ((decimalValue 0 ms / 1000 : Nat) : Int)) := by
  unfold legacySeconds
  rw [if_neg (by rw [contains_digits ms '+' (by decide) hdm]; simp),
    if_neg (by rw [contains_digits ms '-' (by decide) hdm]; simp),
    ParseInt_digits ms hms hdm hvm]
  simp only [Int.ofNat_tdiv]
  rfl

theorem wrap64_of_small {x : Int} (h1 : -9223372036854775808 ≤ x)
    (h2 : x ≤ 9223372036854775807) : wrap64 x = x := by
  unfold wrap64
  omega

theorem toString_toList (n : Nat) : (toString n).toList = Nat.toDigits 10 n := rfl

theorem getTimestampAndOffset_ne_none (sep : Char) (s : List Char)
    (h : s.contains sep = true) : getTimestampAndOffset sep s ≠ none := by
  have hne : s ≠ [] := by
    rintro rfl
    simp at h
  unfold getTimestampAndOffset regexpSplit2
  rw [if_neg hne, if_pos h]
  simp only [List.getElem?_cons_zero, List.getElem?_cons_succ]
  split
  · simp
  · split <;> simp

theorem legacySeconds_ne_none (s : List Char) : legacySeconds s ≠ none := by
  unfold legacySeconds
  split_ifs with h1 h2
  · have := getTimestampAndOffset_ne_none '+' s h1
    split <;> simp_all
  · have := getTimestampAndOffset_ne_none '-' s h2
    split <;> simp_all
  · split <;> simp

theorem absClock_second_lt (abs : Nat) : (absClock abs).2.2 < 60 := by
  unfold absClock
  simp only []
  omega

theorem appendInt_two (u : Nat) (h : u < 100) :
    appendInt (u : Int) 2 = [Nat.digitChar (u / 10), Nat.digitChar (u % 10)] := by
  unfold appendInt
  simp [h]

theorem formatRFC3339UTC_shape (sec : Int) :
    ∃ body d, formatRFC3339UTC sec = body ++ [d] ++ ['Z'] ∧ d.isDigit = true ∧ d ≠ 'Z' := by
  have hs := absClock_second_lt (unixToAbs sec)
  have hd := digitChar_spec ((absClock (unixToAbs sec)).2.2 % 10) (Nat.mod_lt _ (by omega))
  refine ⟨appendInt (absYearDay (unixToAbs sec)).1 4 ++ ['-']
      ++ appendInt (monthDay (absYearDay (unixToAbs sec)).1 (absYearDay (unixToAbs sec)).2).1 2
      ++ ['-']
      ++ appendInt (monthDay (absYearDay (unixToAbs sec)).1 (absYearDay (unixToAbs sec)).2).2 2
      ++ ['T'] ++ appendInt (absClock (unixToAbs sec)).1 2 ++ [':']
      ++ appendInt (absClock (unixToAbs sec)).2.1 2 ++ [':']
      ++ [Nat.digitChar ((absClock (unixToAbs sec)).2.2 / 10)],
    Nat.digitChar ((absClock (unixToAbs sec)).2.2 % 10), ?_, hd.1, hd.2.2⟩
  unfold formatRFC3339UTC
  simp only [appendInt_two _ (show (absClock (unixToAbs sec)).2.2 < 100 by omega)]
  simp only [List.append_assoc, List.cons_append, List.nil_append, List.singleton_append]

theorem TrimSuffix_Z (body : List Char) : TrimSuffix (body ++ ['Z']) ['Z'] = body := by
  unfold TrimSuffix
  rw [if_pos (by simp)]
  simp

theorem decode_of_seconds (nowText jsonTime : String) (isUTC : Bool) (sec : Int)
    (hne : jsonTime ≠ "")
    (h : legacySeconds (digitsAndSigns jsonTime.toList) = some (.ok sec)) :
    DotNetJSONTimeToRFC3339 nowText jsonTime isUTC =
      some (String.mk (if isUTC then formatRFC3339UTC sec
        else TrimSuffix (formatRFC3339UTC sec) ['Z']), none) := by
  unfold DotNetJSONTimeToRFC3339
  rw [if_neg hne, h]
  cases isUTC <;> simp

theorem legacy_ne_empty (a : String) (rest : String) : "/Date(" ++ a ++ rest ≠ "" := by
  intro h
  have := congrArg (fun s => s.toList.length) h
  simp at this

theorem decode_plain (nowText : String) (ms : Nat) (isUTC : Bool)
    (h : ms < 9223372036854775808) :
    DotNetJSONTimeToRFC3339 nowText ("/Date(" ++ toString ms ++ ")/") isUTC =
      some (String.mk (if isUTC then formatRFC3339UTC ((ms / 1000 : Nat) : Int)
        else TrimSuffix (formatRFC3339UTC ((ms / 1000 : Nat) : Int)) ['Z']), none) := by
  obtain ⟨h1, h2, h3⟩ := toDigits_spec ms
  apply decode_of_seconds nowText _ isUTC _ (legacy_ne_empty _ _)
  have hl : ("/Date(" ++ toString ms ++ ")/").toList
      = "/Date(".toList ++ Nat.toDigits 10 ms ++ ")/".toList := by
    simp only [String.toList, String.data_append]
    rfl
  rw [hl, digitsAndSigns_legacy _ _ h2]
  have hrest : digitsAndSigns ")/".toList = [] := by decide
  rw [hrest, List.append_nil, legacySeconds_plain _ h1 h2 (by rw [h3]; exact h), h3]

theorem decode_plus (nowText : String) (ms o : List Char) (isUTC : Bool)
    (hms : ms ≠ []) (ho : o ≠ [])
    (hdm : ∀ c ∈ ms, c.isDigit = true) (hdo : ∀ c ∈ o, c.isDigit = true)
    (hvm : decimalValue 0 ms < 9223372036854775808)
    (hvo : decimalValue 0 o < 9223372036854775808) :
    DotNetJSONTimeToRFC3339 nowText ("/Date(" ++ String.mk ms ++ "+" ++ String.mk o ++ ")/") isUTC
      = some (String.mk (if isUTC
          then formatRFC3339UTC
            (wrap64 (((decimalValue 0 ms / 1000 : Nat) : Int) + (decimalValue 0 o : Int)))
          else TrimSuffix (formatRFC3339UTC
            (wrap64 (((decimalValue 0 ms / 1000 : Nat) : Int) + (decimalValue 0 o : Int))))
            ['Z']), none) := by
  have hne : "/Date(" ++ String.mk ms ++ "+" ++ String.mk o ++ ")/" ≠ "" := by
    intro h
    have := congrArg (fun s => s.toList.length) h
    simp at this
  apply decode_of_seconds nowText _ isUTC _ hne
  have hl : ("/Date(" ++ String.mk ms ++ "+" ++ String.mk o ++ ")/").toList
      = "/Date(".toList ++ ms ++ ('+' :: o ++ ")/".toList) := by
    simp [String.toList, String.data_append]
  have hrest : digitsAndSigns ('+' :: o ++ ")/".toList) = '+' :: o := by
    have e1 : digitsAndSigns ['+'] = ['+'] := by decide
    have e2 : digitsAndSigns ")/".toList = [] := by decide
    rw [show '+' :: o ++ ")/".toList = ['+'] ++ o ++ ")/".toList by simp,
      digitsAndSigns_append, digitsAndSigns_append, digitsAndSigns_digits o hdo, e1, e2]
    simp
  rw [hl, digitsAndSigns_legacy _ _ hdm, hrest,
    legacySeconds_plus ms o hms ho hdm hdo hvm hvo]

theorem decode_minus (nowText : String) (ms o : List Char) (isUTC : Bool)
    (hms : ms ≠ []) (ho : o ≠ [])
    (hdm : ∀ c ∈ ms, c.isDigit = true) (hdo : ∀ c ∈ o, c.isDigit = true)
    (hvm : decimalValue 0 ms < 9223372036854775808)
    (hvo : decimalValue 0 o < 9223372036854775808) :
    DotNetJSONTimeToRFC3339 nowText ("/Date(" ++ String.mk ms ++ "-" ++ String.mk o ++ ")/") isUTC
      = some (String.mk (if isUTC
          then formatRFC3339UTC
            (wrap64 (((decimalValue 0 ms / 1000 : Nat) : Int) - (decimalValue 0 o : Int)))
          else TrimSuffix (formatRFC3339UTC
            (wrap64 (((decimalValue 0 ms / 1000 : Nat) : Int) - (decimalValue 0 o : Int))))
            ['Z']), none) := by
  have hne : "/Date(" ++ String.mk ms ++ "-" ++ String.mk o ++ ")/" ≠ "" := by
    intro h
    have := congrArg (fun s => s.toList.length) h
    simp at this
  apply decode_of_seconds nowText _ isUTC _ hne
  have hl : ("/Date(" ++ String.mk ms ++ "-" ++ String.mk o ++ ")/").toList
      = "/Date(".toList ++ ms ++ ('-' :: o ++ ")/".toList) := by
    simp [String.toList, String.data_append]
  have hrest : digitsAndSigns ('-' :: o ++ ")/".toList) = '-' :: o := by
    have e1 : digitsAndSigns ['-'] = ['-'] := by decide
    have e2 : digitsAndSigns ")/".toList = [] := by decide
    rw [show '-' :: o ++ ")/".toList = ['-'] ++ o ++ ")/".toList by simp,
      digitsAndSigns_append, digitsAndSigns_append, digitsAndSigns_digits o hdo, e1, e2]
    simp
  rw [hl, digitsAndSigns_legacy _ _ hdm, hrest,
    legacySeconds_minus ms o hms ho hdm hdo hvm hvo]

theorem unixToAbs_of_small (sec : Int) (h1 : -9223372028715321600 ≤ sec)
    (h2 : sec ≤ 9223372036854775807) :
    unixToAbs sec = (sec + 9223372028715321600).toNat := by
  unfold unixToAbs
  congr 1
  omega

theorem absYearDay_day_le (abs : Nat) : (absYearDay abs).2 ≤ 365 := by
  unfold absYearDay
  simp only []
  omega

theorem absYearDay_year_range (abs : Nat) (h1 : 9223372028715321600 ≤ abs)
    (h2 : abs ≤ 9223372028715321600 + 253402300799) :
    1970 ≤ (absYearDay abs).1 ∧ (absYearDay abs).1 ≤ 9999 := by
  have hq1 : 106751991073094 ≤ abs / 86400 := by omega
  have hq2 : abs / 86400 ≤ 106751994005990 := by omega
  unfold absYearDay
  simp only []
  generalize abs / 86400 = q at hq1 hq2 ⊢
  have hb1 : 730692560 ≤ q / 146097 := by omega
  have hb2 : q / 146097 ≤ 730692580 := by omega
  have hqb : q = 146097 * (q / 146097) + q % 146097 := (Nat.div_add_mod q 146097).symm
  have hi : q % 146097 < 146097 := Nat.mod_lt _ (by omega)
  have hsub : q - 146097 * (q / 146097) = q % 146097 := by omega
  rw [hsub]
  generalize q / 146097 = b at hb1 hb2 hqb ⊢
  generalize q % 146097 = i at hqb hi ⊢
  subst hqb
  have hj : i / 36524 ≤ 4 := by omega
  have hji : 36524 * (i / 36524) ≤ i ∧ i < 36524 * (i / 36524) + 36524 := by omega
  generalize i / 36524 = j at hj hji ⊢
  interval_cases b <;> first
    | omega
    | (interval_cases j <;> omega)

theorem monthOfDay_lt (day : Nat) (h : day ≤ 365) :
    (if day ≥ daysBefore.getD (day / 31 + 1) 0
      then (day / 31 + 1 + 1, day - daysBefore.getD (day / 31 + 1) 0 + 1)
      else (day / 31 + 1, day - daysBefore.getD (day / 31) 0 + 1)).1 < 100 ∧
    (if day ≥ daysBefore.getD (day / 31 + 1) 0
      then (day / 31 + 1 + 1, day - daysBefore.getD (day / 31 + 1) 0 + 1)
      else (day / 31 + 1, day - daysBefore.getD (day / 31) 0 + 1)).2 < 100 := by
  have hm : day / 31 ≤ 11 := by omega
  have hdm : 31 * (day / 31) ≤ day ∧ day < 31 * (day / 31) + 31 := by omega
  generalize day / 31 = m at *
  interval_cases m <;> simp [daysBefore] <;> split_ifs <;> simp <;> omega

theorem monthDay_lt (year : Int) (yday : Nat) (h : yday ≤ 365) :
    (monthDay year yday).1 < 100 ∧ (monthDay year yday).2 < 100 := by
  unfold monthDay
  split
  · exact ⟨by omega, by omega⟩
  · exact monthOfDay_lt _ (by split_ifs <;> omega)

theorem absClock_lt (abs : Nat) : (absClock abs).1 < 100 ∧ (absClock abs).2.1 < 100 := by
  unfold absClock
  simp only []
  omega

theorem appendInt_four (x : Int) (h1 : 0 ≤ x) (h2 : x < 10000) :
    appendInt x 4 = [Nat.digitChar (x.natAbs / 100 / 10), Nat.digitChar (x.natAbs / 100 % 10),
      Nat.digitChar (x.natAbs % 100 / 10), Nat.digitChar (x.natAbs % 100 % 10)] := by
  unfold appendInt
  have hlt : x.natAbs < 10000 := by omega
  have hneg : ¬ x < 0 := by omega
  simp [hlt, hneg]

theorem formatRFC3339UTC_layout (sec : Int) (h1 : 0 ≤ sec) (h2 : sec ≤ 253402300799) :
    IsRFC3339UTCLayout (formatRFC3339UTC sec) := by
  have habs := unixToAbs_of_small sec (by omega) (by omega)
  have hyear := absYearDay_year_range (unixToAbs sec) (by rw [habs]; omega) (by rw [habs]; omega)
  have hmd := monthDay_lt (absYearDay (unixToAbs sec)).1 (absYearDay (unixToAbs sec)).2
    (absYearDay_day_le _)
  have hclock := absClock_lt (unixToAbs sec)
  have hsec := absClock_second_lt (unixToAbs sec)
  have hy4 := appendInt_four (absYearDay (unixToAbs sec)).1 (by omega) (by omega)
  have hnat : (absYearDay (unixToAbs sec)).1.natAbs < 10000 := by omega
  unfold formatRFC3339UTC
  simp only [hy4, appendInt_two _ hmd.1, appendInt_two _ hmd.2, appendInt_two _ hclock.1,
    appendInt_two _ hclock.2, appendInt_two _ (show (absClock (unixToAbs sec)).2.2 < 100 by omega)]
  refine ⟨_, _, _, _, _, _, _, _, _, _, _, _, _, _, rfl, ?_⟩
  intro c hc
  simp only [List.mem_cons, List.mem_singleton, List.not_mem_nil, or_false] at hc
  rcases hc with hc | hc | hc | hc | hc | hc | hc | hc | hc | hc | hc | hc | hc | hc <;>
    (rw [hc]; exact (digitChar_spec _ (by omega)).1)
/-! ## Claims on the time normalizer -/

/-- C16: for every millisecond count `ms` with `0 ≤ ms < 253402300800000`,
`DotNetJSONTimeToRFC3339("/Date(<ms>+0000)/", true)` returns, with no error, the
RFC3339 UTC text of the instant `ms / 1000` seconds after the Unix epoch, which
has the layout `YYYY-MM-DDTHH:MM:SSZ`; and `/Date(1494201600000+0000)/` gives
`2017-05-08T00:00:00Z`, or `2017-05-08T00:00:00` when `isUTC` is false. -/
theorem decode_zero_offset (nowText : String) :
    (∀ ms : Nat, ms < 253402300800000 →
      DotNetJSONTimeToRFC3339 nowText ("/Date(" ++ toString ms ++ "+0000)/") true
        = some (String.mk (formatRFC3339UTC ((ms / 1000 : Nat) : Int)), none) ∧
      IsRFC3339UTCLayout (formatRFC3339UTC ((ms / 1000 : Nat) : Int))) ∧
    DotNetJSONTimeToRFC3339 nowText "/Date(1494201600000+0000)/" true
      = some ("2017-05-08T00:00:00Z", none) ∧
    DotNetJSONTimeToRFC3339 nowText "/Date(1494201600000+0000)/" false
      = some ("2017-05-08T00:00:00", none) := by
  refine ⟨?_, rfl, rfl⟩
  intro ms hms
  refine ⟨?_, formatRFC3339UTC_layout _ (by omega) (by omega)⟩
  obtain ⟨h1, h2, h3⟩ := toDigits_spec ms
  have h := decode_plus nowText (Nat.toDigits 10 ms) ['0', '0', '0', '0'] true h1 (by simp) h2
    (by decide) (by rw [h3]; omega) (by decide)
  rw [h3] at h
  have hw : wrap64 (((ms / 1000 : Nat) : Int) + (decimalValue 0 ['0', '0', '0', '0'] : Int))
      = ((ms / 1000 : Nat) : Int) := by
    rw [show (decimalValue 0 ['0', '0', '0', '0'] : Int) = 0 by decide, add_zero]
    exact wrap64_of_small (by omega) (by omega)
  rw [hw] at h
  have hstr : "/Date(" ++ toString ms ++ "+0000)/"
      = "/Date(" ++ String.mk (Nat.toDigits 10 ms) ++ "+" ++ String.mk ['0', '0', '0', '0']
        ++ ")/" := by
    rw [String.ext_iff]
    simp only [String.data_append, List.append_assoc]
    rfl
  rw [hstr, h]
  rfl

/-- Witness of C16: the first millisecond of the year 2000. -/
theorem decode_zero_offset_witness :
    (946684800000 : Nat) < 253402300800000 ∧
    DotNetJSONTimeToRFC3339 "now" ("/Date(" ++ toString (946684800000 : Nat) ++ "+0000)/") true
      = some (String.mk (formatRFC3339UTC ((946684800000 / 1000 : Nat) : Int)), none) :=
  ⟨by decide, ((decode_zero_offset "now").1 946684800000 (by decide)).1⟩

/-- C17: for digit strings `ms` and `o` with values within int64,
`/Date(<ms>+<o>)/` decodes to the text of the instant `ms / 1000 + o` seconds
and `/Date(<ms>-<o>)/` to that of `ms / 1000 - o` seconds, `o` being read as a
plain count of seconds, whenever the instant lies in the years 0 to 9999; and
`/Date(1494201600000+0100)/` decodes to `2017-05-08T00:01:40Z`. -/
theorem decode_signed_offset (nowText : String) (ms o : List Char)
    (hms : ms ≠ []) (ho : o ≠ [])
    (hdm : ∀ c ∈ ms, c.isDigit = true) (hdo : ∀ c ∈ o, c.isDigit = true)
    (hvm : decimalValue 0 ms < 9223372036854775808)
    (hvo : decimalValue 0 o < 9223372036854775808) :
    (((decimalValue 0 ms / 1000 : Nat) : Int) + (decimalValue 0 o : Int) ≤ 253402300799 →
      DotNetJSONTimeToRFC3339 nowText
          ("/Date(" ++ String.mk ms ++ "+" ++ String.mk o ++ ")/") true
        = some (String.mk (formatRFC3339UTC
            (((decimalValue 0 ms / 1000 : Nat) : Int) + (decimalValue 0 o : Int))), none)) ∧
    (-62167219200 ≤ ((decimalValue 0 ms / 1000 : Nat) : Int) - (decimalValue 0 o : Int) →
      ((decimalValue 0 ms / 1000 : Nat) : Int) - (decimalValue 0 o : Int) ≤ 253402300799 →
      DotNetJSONTimeToRFC3339 nowText
          ("/Date(" ++ String.mk ms ++ "-" ++ String.mk o ++ ")/") true
        = some (String.mk (formatRFC3339UTC
            (((decimalValue 0 ms / 1000 : Nat) : Int) - (decimalValue 0 o : Int))), none)) ∧
    DotNetJSONTimeToRFC3339 nowText "/Date(1494201600000+0100)/" true
      = some ("2017-05-08T00:01:40Z", none) := by
  refine ⟨?_, ?_, rfl⟩
  · intro hle
    rw [decode_plus nowText ms o true hms ho hdm hdo hvm hvo,
      wrap64_of_small (by omega) (by omega)]
    rfl
  · intro hlo hhi
    rw [decode_minus nowText ms o true hms ho hdm hdo hvm hvo,
      wrap64_of_small (by omega) (by omega)]
    rfl

/-- Witness of C17: one second of offset added to the epoch. -/
theorem decode_signed_offset_witness :
    DotNetJSONTimeToRFC3339 "now"
        ("/Date(" ++ String.mk ['0'] ++ "+" ++ String.mk ['1'] ++ ")/") true
      = some (String.mk (formatRFC3339UTC
          (((decimalValue 0 ['0'] / 1000 : Nat) : Int) + (decimalValue 0 ['1'] : Int))), none) :=
  (decode_signed_offset "now" ['0'] ['1'] (by simp) (by simp) (by decide) (by decide)
    (by decide) (by decide)).1 (by decide)

/-- C18: for every millisecond count `ms` with `0 ≤ ms < 253402300800000`,
`/Date(<ms>)/` decodes to the text of the instant `ms / 1000` seconds; so two
counts with the same quotient by 1000 decode to the same result. -/
theorem decode_truncates_to_seconds (nowText : String) :
    (∀ ms : Nat, ms < 253402300800000 →
      DotNetJSONTimeToRFC3339 nowText ("/Date(" ++ toString ms ++ ")/") true
        = some (String.mk (formatRFC3339UTC ((ms / 1000 : Nat) : Int)), none)) ∧
    (∀ (ms1 ms2 : Nat) (isUTC : Bool), ms1 < 253402300800000 → ms2 < 253402300800000 →
      ms1 / 1000 = ms2 / 1000 →
      DotNetJSONTimeToRFC3339 nowText ("/Date(" ++ toString ms1 ++ ")/") isUTC
        = DotNetJSONTimeToRFC3339 nowText ("/Date(" ++ toString ms2 ++ ")/") isUTC) := by
  constructor
  · intro ms hms
    rw [decode_plain nowText ms true (by omega)]
    rfl
  · intro ms1 ms2 isUTC h1 h2 heq
    rw [decode_plain nowText ms1 isUTC (by omega), decode_plain nowText ms2 isUTC (by omega),
      heq]

/-- Witness of C18: `1494201600999` and `1494201600000` milliseconds. -/
theorem decode_truncates_to_seconds_witness :
    (1494201600999 : Nat) / 1000 = 1494201600000 / 1000 ∧
    DotNetJSONTimeToRFC3339 "now" ("/Date(" ++ toString (1494201600999 : Nat) ++ ")/") true
      = DotNetJSONTimeToRFC3339 "now" ("/Date(" ++ toString (1494201600000 : Nat) ++ ")/") true :=
  ⟨by decide,
    (decode_truncates_to_seconds "now").2 1494201600999 1494201600000 true (by decide)
      (by decide) (by decide)⟩

/-- C19: the empty input decodes to the empty string with no error, for both
values of `isUTC`. -/
theorem decode_empty (nowText : String) (isUTC : Bool) :
    DotNetJSONTimeToRFC3339 nowText "" isUTC = some ("", none) := by
  simp [DotNetJSONTimeToRFC3339]

/-- C20: on a non-empty input the two variants return (neither panics) and
succeed or fail together; when decoding succeeds, the UTC result is the
zone-less result followed by `Z`, and the zone-less result does not end in
`Z`. -/
theorem utc_variant_appends_Z (nowText jsonTime : String) (hne : jsonTime ≠ "") :
    DotNetJSONTimeToRFC3339 nowText jsonTime true ≠ none ∧
    (DotNetJSONTimeToRFC3339 nowText jsonTime true).map Prod.snd
      = (DotNetJSONTimeToRFC3339 nowText jsonTime false).map Prod.snd ∧
    (∀ t, DotNetJSONTimeToRFC3339 nowText jsonTime true = some (t, none) →
      ∃ u, DotNetJSONTimeToRFC3339 nowText jsonTime false = some (u, none) ∧
        t = u ++ "Z" ∧ u.toList.getLast? ≠ some 'Z') := by
  have hnn := legacySeconds_ne_none (digitsAndSigns jsonTime.toList)
  unfold DotNetJSONTimeToRFC3339
  simp only [if_neg hne]
  cases hsec : legacySeconds (digitsAndSigns jsonTime.toList) with
  | none => exact absurd hsec hnn
  | some r =>
    cases r with
    | error e =>
      refine ⟨by simp, by simp, ?_⟩
      intro t ht
      simp at ht
    | ok sec =>
      obtain ⟨body, d, hfmt, _, hdZ⟩ := formatRFC3339UTC_shape sec
      refine ⟨by simp, by simp, ?_⟩
      intro t ht
      simp only [if_true, Option.some.injEq, Prod.mk.injEq, and_true] at ht
      refine ⟨String.mk (body ++ [d]), ?_, ?_, ?_⟩
      · have e : TrimSuffix (formatRFC3339UTC sec) ['Z'] = body ++ [d] := by
          rw [hfmt]
          exact TrimSuffix_Z _
        simp [e]
      · rw [← ht, hfmt]
        rfl
      · simp only [String.toList, List.getLast?_append, List.getLast?_singleton]
        simp only [Option.or_some, ne_eq, Option.some.injEq]
        exact hdZ

/-- Witness of C20: the two variants on `/Date(1494201600000+0000)/`. -/
theorem utc_variant_appends_Z_witness :
    ("/Date(1494201600000+0000)/" : String) ≠ "" ∧
    (DotNetJSONTimeToRFC3339 "now" "/Date(1494201600000+0000)/" true).map Prod.snd
      = (DotNetJSONTimeToRFC3339 "now" "/Date(1494201600000+0000)/" false).map Prod.snd :=
  ⟨by decide, (utc_variant_appends_Z "now" "/Date(1494201600000+0000)/" (by decide)).2.1⟩

/-! ## More claims on the time normalizer -/

theorem isDigit_iff_mem (c : Char) :
    c.isDigit = ['0', '1', '2', '3', '4', '5', '6', '7', '8', '9'].contains c := by
  by_cases h : c.isDigit = true
  · have h1 : 48 ≤ c.toNat ∧ c.toNat ≤ 57 := by
      simp only [Char.isDigit, Bool.and_eq_true, decide_eq_true_eq] at h
      exact ⟨h.1, h.2⟩
    have hc : c = Char.ofNat c.toNat := by simp
    rw [h]
    obtain ⟨h48, h57⟩ := h1
    generalize c.toNat = n at hc h48 h57
    subst hc
    interval_cases n <;> decide
  · rw [Bool.not_eq_true] at h
    rw [h]
    symm
    rw [Bool.eq_false_iff]
    intro hmem
    have : c ∈ ['0', '1', '2', '3', '4', '5', '6', '7', '8', '9'] := by simpa using hmem
    simp only [List.mem_cons, List.mem_singleton, List.not_mem_nil, or_false] at this
    rcases this with rfl | rfl | rfl | rfl | rfl | rfl | rfl | rfl | rfl | rfl <;>
      exact absurd h (by decide)

theorem digitsAndSigns_eq_subsequence (s : List Char) :
    digitsAndSigns s = signedDigitSubsequence s := by
  unfold digitsAndSigns signedDigitSubsequence
  apply List.filter_congr
  intro c _
  rw [isDigit_iff_mem]
  simp only [List.contains_cons, List.contains_nil, Bool.or_false, Bool.or_assoc]

theorem decode_depends_on_digitsAndSigns (nowText s1 s2 : String) (isUTC : Bool)
    (h1 : s1 ≠ "") (h2 : s2 ≠ "")
    (h : digitsAndSigns s1.toList = digitsAndSigns s2.toList) :
    DotNetJSONTimeToRFC3339 nowText s1 isUTC = DotNetJSONTimeToRFC3339 nowText s2 isUTC := by
  unfold DotNetJSONTimeToRFC3339
  rw [if_neg h1, if_neg h2, h]

/-- C21: two non-empty inputs with the same subsequence of digits and signs
decode to the same result, success with the same text or failure alike; so
`/Date(1494201600000+0000)/` and `1494201600000+0000` decode identically. -/
theorem wrapper_characters_ignored (nowText s1 s2 : String) (isUTC : Bool)
    (h1 : s1 ≠ "") (h2 : s2 ≠ "")
    (h : signedDigitSubsequence s1.toList = signedDigitSubsequence s2.toList) :
    DotNetJSONTimeToRFC3339 nowText s1 isUTC = DotNetJSONTimeToRFC3339 nowText s2 isUTC ∧
    DotNetJSONTimeToRFC3339 nowText "/Date(1494201600000+0000)/" isUTC
      = DotNetJSONTimeToRFC3339 nowText "1494201600000+0000" isUTC := by
  constructor
  · apply decode_depends_on_digitsAndSigns nowText s1 s2 isUTC h1 h2
    rw [digitsAndSigns_eq_subsequence, digitsAndSigns_eq_subsequence, h]
  · exact decode_depends_on_digitsAndSigns nowText _ _ isUTC (by decide) (by decide) (by decide)

/-- Witness of C21: the wrapper `/Date(` `)/` against square brackets. -/
theorem wrapper_characters_ignored_witness :
    DotNetJSONTimeToRFC3339 "now" "/Date(12+3)/" true
      = DotNetJSONTimeToRFC3339 "now" "[12+3]" true :=
  (wrapper_characters_ignored "now" "/Date(12+3)/" "[12+3]" true (by decide) (by decide)
    (by decide)).1

theorem getTimestampAndOffset_error_iff (sep : Char) (s : List Char)
    (h : s.contains sep = true) :
    (∃ e, getTimestampAndOffset sep s = some (.error e)) ↔
      ∃ piece ∈ [s.takeWhile (fun c => c != sep), (s.dropWhile (fun c => c != sep)).drop 1],
        ∃ e, ParseInt (String.mk piece) = .error e := by
  have hne : s ≠ [] := by
    rintro rfl
    simp at h
  unfold getTimestampAndOffset regexpSplit2
  rw [if_neg hne, if_pos h]
  simp only [List.getElem?_cons_zero, List.getElem?_cons_succ, List.mem_cons, List.mem_singleton,
    List.not_mem_nil, or_false, exists_eq_or_imp, exists_eq_left]
  cases h0 : ParseInt (String.mk (s.takeWhile (fun c => c != sep))) with
  | error e0 => simp
  | ok t0 =>
    cases h1 : ParseInt (String.mk ((s.dropWhile (fun c => c != sep)).drop 1)) with
    | error e1 => simp
    | ok t1 => simp

theorem legacySeconds_error_iff (s : List Char) :
    (∃ e, legacySeconds s = some (.error e)) ↔
      ∃ piece ∈ legacyPieces s, ∃ e, ParseInt (String.mk piece) = .error e := by
  unfold legacySeconds legacyPieces
  split_ifs with h1 h2
  · rw [← getTimestampAndOffset_error_iff '+' s h1]
    cases getTimestampAndOffset '+' s with
    | none => simp
    | some r => cases r <;> simp
  · rw [← getTimestampAndOffset_error_iff '-' s h2]
    cases getTimestampAndOffset '-' s with
    | none => simp
    | some r => cases r <;> simp
  · simp only [List.mem_singleton, exists_eq_left]
    cases ParseInt (String.mk s) <;> simp

/-- C22: on a non-empty input `DotNetJSONTimeToRFC3339` returns an error exactly
when one of the pieces of the extracted digit and sign string fails to parse as
a base-10 int64; so `abc` fails, and so does `/Date(-1000)/`. -/
theorem malformed_timestamps_fail (nowText jsonTime : String) (isUTC : Bool)
    (hne : jsonTime ≠ "") :
    ((∃ t e, DotNetJSONTimeToRFC3339 nowText jsonTime isUTC = some (t, some e)) ↔
      ∃ piece ∈ legacyPieces (digitsAndSigns jsonTime.toList),
        ∃ e, ParseInt (String.mk piece) = .error e) ∧
    (∃ e, DotNetJSONTimeToRFC3339 nowText "abc" isUTC = some (nowText, some e)) ∧
    (∃ e, DotNetJSONTimeToRFC3339 nowText "/Date(-1000)/" isUTC = some (nowText, some e)) := by
  refine ⟨?_, ⟨_, rfl⟩, ⟨_, rfl⟩⟩
  rw [← legacySeconds_error_iff]
  unfold DotNetJSONTimeToRFC3339
  rw [if_neg hne]
  cases legacySeconds (digitsAndSigns jsonTime.toList) with
  | none => simp
  | some r =>
    cases r with
    | error e => simp
    | ok sec => cases isUTC <;> simp

/-- Witness of C22: an input with two `+` signs. -/
theorem malformed_timestamps_fail_witness :
    (∃ t e, DotNetJSONTimeToRFC3339 "now" "/Date(1+2+3)/" true = some (t, some e)) ↔
      ∃ piece ∈ legacyPieces (digitsAndSigns "/Date(1+2+3)/".toList),
        ∃ e, ParseInt (String.mk piece) = .error e :=
  (malformed_timestamps_fail "now" "/Date(1+2+3)/" true (by decide)).1

/-! ## Bursts of calls and retries -/

theorem World.gate_slept (p : Oauth2Provider) (idle : Nat) (w : World) :
    (w.gate p idle).slept
      = w.slept ++ (requestLimitSleep (w.clock + idle)
          ((w.requestTimestamps p.TenantID).getD [])).toList := by
  have h := gate_request p (w.clock + idle) w.requestTimestamps
  unfold World.gate
  simp only []
  split <;> rename_i hs <;> rw [hs] at h <;> rw [← h] <;> simp

theorem requestLimitSleep_old (now t0 : Int) (rest : List Int) (hlen : rest.length = 59)
    (hge : 60 * Second ≤ now - t0) : requestLimitSleep now (t0 :: rest) = none := by
  have h1 : Since now t0 ≥ 60 * Second :=
    saturate_ge (by unfold Second maxDuration; omega) hge
  rw [requestLimitSleep_full now t0 rest hlen, if_pos h1]

theorem requestLimitSleep_recent (now t0 : Int) (rest : List Int) (hlen : rest.length = 59)
    (hlt : now - t0 < 60 * Second) (hlo : 60 * Second + Millisecond - maxDuration ≤ now - t0) :
    requestLimitSleep now (t0 :: rest) = some (60 * Second - (now - t0) + Millisecond) := by
  unfold Second Millisecond maxDuration at hlo
  unfold Second at hlt
  have h1 : Since now t0 = now - t0 :=
    saturate_of_mem (by unfold minDuration; omega) (by unfold maxDuration; omega)
  have h2 : ¬ (Since now t0 ≥ 60 * Second) := by
    rw [h1]
    unfold Second
    omega
  rw [requestLimitSleep_full now t0 rest hlen, if_neg h2, h1,
    wrap64_of_mem (by unfold minDuration Second Millisecond; omega)
      (by unfold maxDuration Second Millisecond; omega)]
  simp

theorem processRequest_ok_world (p : Oauth2Provider)
    (additionalHeaders : List (String × String)) (idle latency : Nat) (header : Header)
    (b : String) (stdoutFails : Bool) (xs : List Exchange) (request : Request) (w w1 : World)
    (h : w.afterSend p ⟨idle, latency, some ⟨200, header, ⟨b, none⟩⟩, none, stdoutFails⟩
      (addRequestHeaders p additionalHeaders request) = some w1) :
    processRequest p additionalHeaders
        (⟨idle, latency, some ⟨200, header, ⟨b, none⟩⟩, none, stdoutFails⟩ :: xs) request w
      = (Outcome.returned (some b) none, w1) := by
  rw [processRequest_cons p additionalHeaders _ xs request w w1 h]
  simp [ioReadAll]

theorem burstHistory_length (c0 : Int) (d k : Nat) : (burstHistory c0 d k).length = k := by
  simp [burstHistory]

theorem burstHistory_succ (c0 : Int) (d k : Nat) :
    burstHistory c0 d (k + 1) = burstHistory c0 d k ++ [burstInstant c0 d (k + 1)] := by
  simp [burstHistory, List.range_succ]

theorem burstHistory_get (c0 : Int) (d k i : Nat) (h : i < k) :
    (burstHistory c0 d k)[i]? = some (burstInstant c0 d (i + 1)) := by
  simp [burstHistory, List.getElem?_range h]

theorem burstInstant_le (c0 : Int) (d k : Nat) (h : k ≤ 60) :
    burstInstant c0 d k = c0 + (k : Int) * d := by
  unfold burstInstant
  rw [if_pos h]

theorem burstInstant_gt (c0 : Int) (d k : Nat) (h : 60 < k) :
    burstInstant c0 d k = c0 + ((k - 59 : Nat) : Int) * d + 60 * Second + Millisecond := by
  unfold burstInstant
  rw [if_neg (by omega)]

theorem BurstState.gate (p : Oauth2Provider) (w0 w : World) (d k : Nat)
    (hd : 59 * (d : Int) < 60 * Second) (hk : k < 65) (hs : BurstState p w0 d k w) :
    (w.gate p 0).clock + (d : Int) = burstInstant w0.clock d (k + 1) ∧
    (w.gate p 0).slept = if k + 1 ≤ 60 then w0.slept
      else w0.slept ++ [60 * Second - 59 * (d : Int) + Millisecond] := by
  have hgc := World.gate_clock p 0 w
  have hgs := World.gate_slept p 0 w
  simp only [Nat.cast_zero, add_zero] at hgc hgs
  have hlen : ((w.requestTimestamps p.TenantID).getD []).length = min k 60 := by
    rw [hs.window, lastSixty_length, burstHistory_length]
  have hw := hs.clock
  have hsl := hs.slept
  by_cases hA : k < 60
  · have hshort : ((w.requestTimestamps p.TenantID).getD []).length < 60 := by
      rw [hlen]
      omega
    rw [(gate_skips_of_short p w.clock w.requestTimestamps hshort).2] at hgc
    rw [requestLimitSleep_short _ _ hshort] at hgs
    rw [burstInstant_le _ _ _ (by omega)] at hw
    rw [if_pos (by omega)] at hsl
    rw [burstInstant_le _ _ _ (by omega), if_pos (by omega), hgc, hgs, hw, hsl]
    refine ⟨?_, by simp⟩
    push_cast
    ring
  · obtain ⟨t0, rest, hfull, hrest, ht0⟩ := lastSixty_full (burstHistory w0.clock d k)
      (by rw [burstHistory_length]; omega)
    rw [burstHistory_length, burstHistory_get _ _ _ _ (by omega)] at ht0
    have ht0v : t0 = burstInstant w0.clock d (k - 60 + 1) := by
      cases ht0
      rfl
    rw [burstInstant_le _ _ _ (by omega)] at ht0v
    have hgetD : (w.requestTimestamps p.TenantID).getD [] = t0 :: rest := by
      rw [hs.window, hfull]
    rw [hgetD] at hgs
    by_cases hB : k = 60
    · subst hB
      rw [burstInstant_le _ _ _ (by omega)] at hw
      rw [if_pos (by omega)] at hsl
      have hdiff : w.clock - t0 = 59 * (d : Int) := by
        rw [hw, ht0v]
        push_cast
        ring
      have hlt : w.clock - t0 < 60 * Second := by rw [hdiff]; exact hd
      have hlo : 60 * Second + Millisecond - maxDuration ≤ w.clock - t0 := by
        rw [hdiff]
        unfold Second Millisecond maxDuration
        omega
      rw [gateWait_full_recent p w.clock t0 rest w.requestTimestamps hgetD hrest hlt hlo,
        hdiff] at hgc
      rw [requestLimitSleep_recent w.clock t0 rest hrest hlt hlo, hdiff] at hgs
      rw [burstInstant_gt _ _ _ (by omega), if_neg (by omega), hgc, hgs, hw, hsl]
      refine ⟨?_, by simp⟩
      push_cast
      ring
    · rw [burstInstant_gt _ _ _ (by omega)] at hw
      rw [if_neg (by omega)] at hsl
      have hcast : ((k - 59 : Nat) : Int) = ((k - 60 + 1 : Nat) : Int) := by
        congr 1
        omega
      have hdiff : w.clock - t0 = 60 * Second + Millisecond := by
        rw [hw, ht0v, hcast]
        ring
      have hge : 60 * Second ≤ w.clock - t0 := by
        rw [hdiff]
        unfold Millisecond
        omega
      rw [gateWait_full_old p w.clock t0 rest w.requestTimestamps hgetD hrest hge] at hgc
      rw [requestLimitSleep_old w.clock t0 rest hrest hge] at hgs
      rw [burstInstant_gt _ _ _ (by omega), if_neg (by omega), hgc, hgs, hw, hsl]
      refine ⟨?_, by simp⟩
      have hcast2 : ((k + 1 - 59 : Nat) : Int) = ((k - 59 : Nat) : Int) + 1 := by
        have : k + 1 - 59 = (k - 59) + 1 := by omega
        rw [this]
        push_cast
        ring
      rw [hcast2]
      ring

theorem BurstState.next_call (p : Oauth2Provider) (additionalHeaders : List (String × String))
    (header : Header) (b : String) (stdoutFails : Bool) (request : Request) (w0 w : World)
    (d k : Nat) (hd : 59 * (d : Int) < 60 * Second) (hk : k < 65)
    (hs : BurstState p w0 d k w) :
    ∃ w1, processRequest p additionalHeaders
        [⟨0, d, some ⟨200, header, ⟨b, none⟩⟩, none, stdoutFails⟩] request w
        = (Outcome.returned (some b) none, w1) ∧ BurstState p w0 d (k + 1) w1 := by
  obtain ⟨w1, hw1, hclock, _, _, hslept, _, hseq⟩ := World.afterSend_spec p
    ⟨0, d, some ⟨200, header, ⟨b, none⟩⟩, none, stdoutFails⟩
    (addRequestHeaders p additionalHeaders request) w
  refine ⟨w1, processRequest_ok_world p additionalHeaders 0 d header b stdoutFails [] request
    w w1 hw1, ?_⟩
  simp only [] at hclock hslept hseq
  obtain ⟨hg1, hg2⟩ := BurstState.gate p w0 w d k hd hk hs
  rw [hg1] at hclock hseq
  rw [hs.window, lastSixty_snoc, ← burstHistory_succ] at hseq
  exact ⟨hclock, by rw [hseq, Option.getD_some], by rw [hslept, hg2]⟩

theorem BurstState.at_start (p : Oauth2Provider) (w0 : World) (d : Nat)
    (h0 : (w0.requestTimestamps p.TenantID).getD [] = []) : BurstState p w0 d 0 w0 := by
  refine ⟨?_, ?_, ?_⟩
  · simp [burstInstant]
  · rw [h0]
    rfl
  · simp

theorem BurstState.run (p : Oauth2Provider) (additionalHeaders : List (String × String))
    (header : Header) (b : String) (stdoutFails : Bool) (request : Request) (w0 : World)
    (d : Nat) (hd : 59 * (d : Int) < 60 * Second) (m : Nat) :
    ∀ (k : Nat) (w : World), k + m ≤ 65 → BurstState p w0 d k w →
      (runCalls p additionalHeaders
          (List.replicate m
            ([⟨0, d, some ⟨200, header, ⟨b, none⟩⟩, none, stdoutFails⟩], request)) w).1
        = List.replicate m (Outcome.returned (some b) none) ∧
      BurstState p w0 d (k + m)
        (runCalls p additionalHeaders
          (List.replicate m
            ([⟨0, d, some ⟨200, header, ⟨b, none⟩⟩, none, stdoutFails⟩], request)) w).2 := by
  induction m with
  | zero =>
    intro k w _ hs
    exact ⟨rfl, hs⟩
  | succ m ih =>
    intro k w hk hs
    obtain ⟨w1, hrun, hs1⟩ := BurstState.next_call p additionalHeaders header b stdoutFails request
      w0 w d k hd (by omega) hs
    obtain ⟨h1, h2⟩ := ih (k + 1) w1 (by omega) hs1
    rw [List.replicate_succ, runCalls]
    simp only [hrun]
    rw [h1]
    exact ⟨rfl, by rw [show k + (m + 1) = k + 1 + m by omega]; exact h2⟩

/-- C29: 65 back-to-back calls for one tenant, from an empty sequence, every send
taking `d` nanoseconds with `59 * d < 60s` and answered by a 200 with body `b`:
all 65 calls return `b`, no call of the first 60 sleeps, and the only sleep of
the run is made by the gate of the 61st call, for `60s - 59 * d + 1ms`, which is
positive. -/
theorem burst_of_65_calls (p : Oauth2Provider) (additionalHeaders : List (String × String))
    (header : Header) (b : String) (stdoutFails : Bool) (request : Request) (w0 : World)
    (d : Nat) (hd : 59 * (d : Int) < 60 * Second)
    (h0 : (w0.requestTimestamps p.TenantID).getD [] = []) :
    (runCalls p additionalHeaders
        (List.replicate 65
          ([⟨0, d, some ⟨200, header, ⟨b, none⟩⟩, none, stdoutFails⟩], request)) w0).1
      = List.replicate 65 (Outcome.returned (some b) none) ∧
    (runCalls p additionalHeaders
        (List.replicate 60
          ([⟨0, d, some ⟨200, header, ⟨b, none⟩⟩, none, stdoutFails⟩], request)) w0).2.slept
      = w0.slept ∧
    (runCalls p additionalHeaders
        (List.replicate 61
          ([⟨0, d, some ⟨200, header, ⟨b, none⟩⟩, none, stdoutFails⟩], request)) w0).2.slept
      = w0.slept ++ [60 * Second - 59 * (d : Int) + Millisecond] ∧
    (runCalls p additionalHeaders
        (List.replicate 65
          ([⟨0, d, some ⟨200, header, ⟨b, none⟩⟩, none, stdoutFails⟩], request)) w0).2.slept
      = w0.slept ++ [60 * Second - 59 * (d : Int) + Millisecond] ∧
    0 < sleepLength (60 * Second - 59 * (d : Int) + Millisecond) := by
  have hstart := BurstState.at_start p w0 d h0
  have h65 := BurstState.run p additionalHeaders header b stdoutFails request w0 d hd 65 0 w0
    (by omega) hstart
  have h60 := BurstState.run p additionalHeaders header b stdoutFails request w0 d hd 60 0 w0
    (by omega) hstart
  have h61 := BurstState.run p additionalHeaders header b stdoutFails request w0 d hd 61 0 w0
    (by omega) hstart
  refine ⟨h65.1, ?_, ?_, ?_, ?_⟩
  · rw [h60.2.slept, if_pos (by omega)]
  · rw [h61.2.slept, if_neg (by omega)]
  · rw [h65.2.slept, if_neg (by omega)]
  · unfold sleepLength
    unfold Second at hd
    unfold Second Millisecond
    split_ifs <;> omega

/-- Witness of C29: a burst with sends of 10 ms on a fresh world. -/
theorem burst_of_65_calls_witness :
    59 * ((10000000 : Nat) : Int) < 60 * Second ∧
    (runCalls ⟨"xerogolang", "T", false⟩ []
        (List.replicate 65
          ([⟨0, 10000000, some ⟨200, [], ⟨"ok", none⟩⟩, none, false⟩],
            ⟨"GET", "https://api.xero.com/api.xro/2.0/Invoices", [], none⟩))
        (World.fresh 0)).1
      = List.replicate 65 (Outcome.returned (some "ok") none) :=
  ⟨by decide,
    (burst_of_65_calls ⟨"xerogolang", "T", false⟩ [] [] "ok" false
      ⟨"GET", "https://api.xero.com/api.xro/2.0/Invoices", [], none⟩ (World.fresh 0) 10000000
      (by decide) rfl).1⟩

/-- C28: a retry does not send the same header set again: after one 429 answer
the request sent on the second attempt carries every header value twice, two
`User-Agent` values, two `Xero-tenant-id` values and two `Accept` values, since
the recursive call adds the headers again to the same request. -/
theorem retry_duplicates_headers :
    ((processRequest ⟨"xerogolang", "T", false⟩ [("Accept", "application/json")]
        [⟨0, 1, some ⟨429, [], ⟨"", none⟩⟩, none, false⟩,
          ⟨0, 1, some ⟨200, [], ⟨"ok", none⟩⟩, none, false⟩]
        ⟨"GET", "https://api.xero.com/api.xro/2.0/Invoices", [], none⟩
        (World.fresh 0)).2.sent.map
      (fun r => (r.Header.Values "User-Agent", r.Header.Values "Xero-tenant-id",
        r.Header.Values "Accept")))
      = [(["xerogolang"], ["T"], ["application/json"]),
         (["xerogolang", "xerogolang"], ["T", "T"], ["application/json", "application/json"])] := by
  rfl

theorem processRequest_single_sent (p : Oauth2Provider)
    (additionalHeaders : List (String × String)) (x : Exchange) (request : Request) (w : World) :
    (processRequest p additionalHeaders [x] request w).2.sent
      = w.sent ++ [addRequestHeaders p additionalHeaders request] := by
  obtain ⟨w1, hw1, _, hsent, _⟩ :=
    World.afterSend_spec p x (addRequestHeaders p additionalHeaders request) w
  rcases processRequest_cons_cases p additionalHeaders x [] request w w1 hw1 with
    ⟨r, _, _, hrun⟩ | ⟨_, hs, _⟩
  · rw [hrun, processRequest, World.backoff_sent, hsent]
  · rw [hs, hsent]

theorem retry_sends_headers_twice (p : Oauth2Provider)
    (additionalHeaders : List (String × String)) (x1 x2 : Exchange) (request : Request)
    (w : World) (h : x1.throttled p.debug = true) :
    (processRequest p additionalHeaders [x1, x2] request w).2.sent
      = w.sent ++ [addRequestHeaders p additionalHeaders request,
          addRequestHeaders p additionalHeaders
            (addRequestHeaders p additionalHeaders request)] := by
  obtain ⟨r, hr, h429, hdump⟩ := Exchange.throttled_spec p.debug x1 h
  obtain ⟨w1, hw1, _, hsent, _⟩ :=
    World.afterSend_spec p x1 (addRequestHeaders p additionalHeaders request) w
  rw [processRequest_throttled p additionalHeaders x1 [x2] request w w1 hw1 r hr h429 hdump,
    processRequest_single_sent, World.backoff_sent, hsent]
  simp

theorem processRequest_sent_grows (p : Oauth2Provider)
    (additionalHeaders : List (String × String)) (script : List Exchange) :
    ∀ (request : Request) (w : World), ∃ more,
      (processRequest p additionalHeaders script request w).2.sent = w.sent ++ more := by
  induction script with
  | nil => intro request w; exact ⟨[], by simp [processRequest]⟩
  | cons x xs ih =>
    intro request w
    obtain ⟨w1, hw1, _, hsent, _⟩ :=
      World.afterSend_spec p x (addRequestHeaders p additionalHeaders request) w
    rcases processRequest_cons_cases p additionalHeaders x xs request w w1 hw1 with
      ⟨r, _, _, hrun⟩ | ⟨_, hs, _⟩
    · obtain ⟨more, hmore⟩ :=
        ih (addRequestHeaders p additionalHeaders request) (w1.backoff r)
      refine ⟨addRequestHeaders p additionalHeaders request :: more, ?_⟩
      rw [hrun, hmore, World.backoff_sent, hsent]
      simp
    · exact ⟨[addRequestHeaders p additionalHeaders request], by rw [hs, hsent]⟩

theorem processRequest_sent_head (p : Oauth2Provider)
    (additionalHeaders : List (String × String)) (x : Exchange) (xs : List Exchange)
    (request : Request) (w : World) :
    ∃ more, (processRequest p additionalHeaders (x :: xs) request w).2.sent
      = w.sent ++ addRequestHeaders p additionalHeaders request :: more := by
  obtain ⟨w1, hw1, _, hsent, _⟩ :=
    World.afterSend_spec p x (addRequestHeaders p additionalHeaders request) w
  rcases processRequest_cons_cases p additionalHeaders x xs request w w1 hw1 with
    ⟨r, _, _, hrun⟩ | ⟨_, hs, _⟩
  · obtain ⟨more, hmore⟩ := processRequest_sent_grows p additionalHeaders xs
      (addRequestHeaders p additionalHeaders request) (w1.backoff r)
    refine ⟨more, ?_⟩
    rw [hrun, hmore, World.backoff_sent, hsent]
    simp
  · exact ⟨[], by rw [hs, hsent]⟩

theorem addRequestHeaders_frame (p : Oauth2Provider)
    (additionalHeaders : List (String × String)) (request : Request) :
    (addRequestHeaders p additionalHeaders request).Method = request.Method ∧
    (addRequestHeaders p additionalHeaders request).URL = request.URL ∧
    (addRequestHeaders p additionalHeaders request).Body = request.Body := by
  unfold addRequestHeaders
  exact ⟨rfl, rfl, rfl⟩

theorem TrimPrefix_cons (c : Char) (s : List Char) : TrimPrefix (c :: s) [c] = s := by
  simp [TrimPrefix, List.isPrefixOf]

theorem TrimPrefix_amp (x : String) :
    String.mk (TrimPrefix ("&" ++ x).toList "&".toList) = x := by
  show String.mk (TrimPrefix ('&' :: x.data) ['&']) = x
  rw [TrimPrefix_cons]

theorem findQuerystring_fold (entries : List (String × String)) :
    ∀ acc : String,
      entries.foldl (fun querystring kv => querystring ++ "&" ++ kv.1 ++ "=" ++ QueryEscape kv.2)
          ("&" ++ acc)
        = "&" ++ String.intercalate.go acc "&"
            (entries.map (fun kv => kv.1 ++ "=" ++ QueryEscape kv.2)) := by
  induction entries with
  | nil => intro acc; simp [String.intercalate.go]
  | cons e es ih =>
    intro acc
    simp only [List.foldl_cons, List.map_cons, String.intercalate.go]
    rw [← ih]
    simp only [String.append_assoc]

theorem findQuerystring_some (entries : List (String × String)) :
    findQuerystring (some entries)
      = "?" ++ "&".intercalate (entries.map (fun kv => kv.1 ++ "=" ++ QueryEscape kv.2)) := by
  cases entries with
  | nil => rfl
  | cons e es =>
    simp only [findQuerystring, List.foldl_cons, List.map_cons, String.intercalate]
    have h : "" ++ "&" ++ e.1 ++ "=" ++ QueryEscape e.2
        = "&" ++ (e.1 ++ "=" ++ QueryEscape e.2) := by
      simp only [String.append_assoc, String.empty_append]
    rw [h, findQuerystring_fold]
    congr 1
    exact TrimPrefix_amp _

/-- C25: the query string of `Find`. With nil parameters the URL of the request
is base and endpoint with nothing appended. With a non-nil map it is base,
endpoint, `?` and the entries of the map, each once and in the order in which
the map is ranged over, written `key=QueryEscape(value)` and joined by `&`; an
empty map appends just `?`. Keys are written as they are, values are escaped
(a space as `+`, `&` as `%26`). The request built is the one handed to
`processRequest`, with method GET and no body. -/
theorem find_query_string (p : Oauth2Provider) (endpointProfile endpoint : String)
    (urlError : String → Option String) (script : List Exchange) (w : World)
    (additionalHeaders : List (String × String))
    (querystringParameters : Option (List (String × String)))
    (hurl : urlError (endpointProfile ++ endpoint ++ findQuerystring querystringParameters)
      = none) :
    p.Find endpointProfile urlError script w endpoint additionalHeaders querystringParameters
      = processRequest p additionalHeaders script
          ⟨"GET", endpointProfile ++ endpoint ++ findQuerystring querystringParameters, [], none⟩
          w ∧
    findQuerystring none = "" ∧
    findQuerystring (some []) = "?" ∧
    (∀ entries : List (String × String), findQuerystring (some entries)
      = "?" ++ "&".intercalate (entries.map (fun kv => kv.1 ++ "=" ++ QueryEscape kv.2))) ∧
    findQuerystring (some [("a&b", "x y"), ("page", "1&2")]) = "?a&b=x+y&page=1%262" := by
  refine ⟨?_, rfl, rfl, findQuerystring_some, by rfl⟩
  simp [Oauth2Provider.Find, NewRequestWithContext, hurl]

theorem find_query_string_witness :
    (Oauth2Provider.mk "agent" "tenant" false).Find "https://api.xero.com/api.xro/2.0/"
        (fun _ => none) [] (World.fresh 0) "Invoices" [] (some [("page", "1")])
      = processRequest (Oauth2Provider.mk "agent" "tenant" false) [] []
          ⟨"GET", "https://api.xero.com/api.xro/2.0/" ++ "Invoices"
            ++ findQuerystring (some [("page", "1")]), [], none⟩ (World.fresh 0) ∧
    findQuerystring none = "" ∧
    findQuerystring (some []) = "?" ∧
    (∀ entries : List (String × String), findQuerystring (some entries)
      = "?" ++ "&".intercalate (entries.map (fun kv => kv.1 ++ "=" ++ QueryEscape kv.2))) ∧
    findQuerystring (some [("a&b", "x y"), ("page", "1&2")]) = "?a&b=x+y&page=1%262" :=
  find_query_string (Oauth2Provider.mk "agent" "tenant" false)
    "https://api.xero.com/api.xro/2.0/" "Invoices" (fun _ => none) [] (World.fresh 0) []
    (some [("page", "1")]) rfl

theorem bankTransactionsUpdate_world {α : Type} (first : BankTransaction α)
    (rest : List (BankTransaction α)) (p : Oauth2Provider) (endpointProfile : String)
    (urlError : String → Option String) (nowText : String)
    (marshal : BankTransactions α → Except String String)
    (unmarshal : String → Except String (Option (BankTransactions α)))
    (script : List Exchange) (w : World) (body : String)
    (hm : marshal ⟨first :: rest⟩ = .ok body) :
    ((⟨first :: rest⟩ : BankTransactions α).Update p endpointProfile urlError nowText marshal
        unmarshal script w).2
      = (p.Update endpointProfile urlError script w
          ("BankTransactions/" ++ first.BankTransactionID)
          [("Accept", "application/json"), ("Content-Type", "application/xml")] body).2 := by
  unfold BankTransactions.Update
  simp only [hm]
  split <;> simp_all

/-- C26: `Update` addresses the first element only. For a collection
`first :: rest` that the XML encoder accepts, the first request that `Update`
hands to the transport is a POST to base and `BankTransactions/` followed by
the `BankTransactionID` of `first`, whatever `rest` holds, with the encoded
collection as body. For the empty collection (accepted by the encoder) the
index access panics: nothing is sent and no error is returned. -/
theorem update_addresses_first_element {α : Type} (first : BankTransaction α)
    (rest : List (BankTransaction α)) (p : Oauth2Provider) (endpointProfile : String)
    (urlError : String → Option String) (nowText : String)
    (marshal : BankTransactions α → Except String String)
    (unmarshal : String → Except String (Option (BankTransactions α)))
    (x : Exchange) (xs : List Exchange) (w : World) (body body0 : String)
    (hm : marshal ⟨first :: rest⟩ = .ok body) (hm0 : marshal ⟨[]⟩ = .ok body0)
    (hurl : urlError (endpointProfile ++ ("BankTransactions/" ++ first.BankTransactionID))
      = none) :
    (∃ r more,
      ((⟨first :: rest⟩ : BankTransactions α).Update p endpointProfile urlError nowText marshal
          unmarshal (x :: xs) w).2.sent = w.sent ++ r :: more ∧
      r.Method = "POST" ∧
      r.URL = endpointProfile ++ ("BankTransactions/" ++ first.BankTransactionID) ∧
      r.Body = some body) ∧
    (⟨[]⟩ : BankTransactions α).Update p endpointProfile urlError nowText marshal unmarshal
      (x :: xs) w = (.panic, w) := by
  constructor
  · rw [bankTransactionsUpdate_world first rest p endpointProfile urlError nowText marshal
      unmarshal (x :: xs) w body hm]
    simp only [Oauth2Provider.Update, NewRequestWithContext, hurl]
    obtain ⟨more, hmore⟩ := processRequest_sent_head p
      [("Accept", "application/json"), ("Content-Type", "application/xml")] x xs
      ⟨"POST", endpointProfile ++ ("BankTransactions/" ++ first.BankTransactionID), [],
        some body⟩ w
    obtain ⟨h1, h2, h3⟩ := addRequestHeaders_frame p
      [("Accept", "application/json"), ("Content-Type", "application/xml")]
      ⟨"POST", endpointProfile ++ ("BankTransactions/" ++ first.BankTransactionID), [],
        some body⟩
    exact ⟨_, more, hmore, h1, h2, h3⟩
  · unfold BankTransactions.Update
    simp only [hm0]

theorem update_addresses_first_element_witness :
    (∃ r more,
      ((⟨[⟨"SPEND", false, "", "", "", "", "", "", "id-1", "", "", "", false, ()⟩,
            ⟨"SPEND", false, "", "", "", "", "", "", "id-2", "", "", "", false, ()⟩]⟩ :
          BankTransactions Unit).Update (Oauth2Provider.mk "agent" "tenant" false)
          "https://api.xero.com/api.xro/2.0/" (fun _ => none) "" (fun _ => .ok "<x/>")
          (fun _ => .ok none)
          ([⟨0, 0, some ⟨200, [], ⟨"null", none⟩⟩, none, false⟩]) (World.fresh 0)).2.sent
        = (World.fresh 0).sent ++ r :: more ∧
      r.Method = "POST" ∧
      r.URL = "https://api.xero.com/api.xro/2.0/" ++ ("BankTransactions/" ++ "id-1") ∧
      r.Body = some "<x/>") ∧
    (⟨[]⟩ : BankTransactions Unit).Update (Oauth2Provider.mk "agent" "tenant" false)
      "https://api.xero.com/api.xro/2.0/" (fun _ => none) "" (fun _ => .ok "<x/>")
      (fun _ => .ok none)
      ([⟨0, 0, some ⟨200, [], ⟨"null", none⟩⟩, none, false⟩]) (World.fresh 0)
      = (.panic, World.fresh 0) :=
  update_addresses_first_element
    ⟨"SPEND", false, "", "", "", "", "", "", "id-1", "", "", "", false, ()⟩
    [⟨"SPEND", false, "", "", "", "", "", "", "id-2", "", "", "", false, ()⟩]
    (Oauth2Provider.mk "agent" "tenant" false) "https://api.xero.com/api.xro/2.0/"
    (fun _ => none) "" (fun _ => .ok "<x/>") (fun _ => .ok none)
    ⟨0, 0, some ⟨200, [], ⟨"null", none⟩⟩, none, false⟩ [] (World.fresh 0) "<x/>" "<x/>"
    rfl rfl rfl

theorem decode_ne_none (nowText jsonTime : String) (isUTC : Bool) :
    DotNetJSONTimeToRFC3339 nowText jsonTime isUTC ≠ none := by
  unfold DotNetJSONTimeToRFC3339
  have h := legacySeconds_ne_none (digitsAndSigns jsonTime.toList)
  by_cases he : jsonTime = ""
  · simp [he]
  · simp only [if_neg he]
    split
    · contradiction
    · simp
    · cases isUTC <;> simp

theorem decodedText_of_some (nowText s text : String) (e : Option NumError)
    (h : DotNetJSONTimeToRFC3339 nowText s true = some (text, e)) :
    decodedText nowText s = text := by
  simp [decodedText, h]

theorem bankTransactionsLoop_ok {α : Type} (nowText : String)
    (todo : List (BankTransaction α)) :
    ∀ done : List (BankTransaction α),
      (∀ x ∈ todo, ∀ text e,
        DotNetJSONTimeToRFC3339 nowText x.UpdatedDateUTC true ≠ some (text, some e)) →
      bankTransactionsLoop nowText todo done
        = some ((todo.reverse.map
            (fun x => { x with UpdatedDateUTC := decodedText nowText x.UpdatedDateUTC }))
              ++ done, none) := by
  induction todo with
  | nil => intro done _; simp [bankTransactionsLoop]
  | cons x todo ih =>
    intro done h
    have hx := h x (List.mem_cons_self _ _)
    have hn := decode_ne_none nowText x.UpdatedDateUTC true
    unfold bankTransactionsLoop
    split
    · contradiction
    · rename_i text err heq
      exact absurd heq (hx text err)
    · rename_i text heq
      rw [ih _ (fun y hy => h y (List.mem_cons_of_mem _ hy))]
      simp [decodedText_of_some nowText _ text none heq]

theorem bankTransactionsLoop_err {α : Type} (nowText : String)
    (todo : List (BankTransaction α)) :
    ∀ done : List (BankTransaction α),
      (∃ x ∈ todo, ∃ text e,
        DotNetJSONTimeToRFC3339 nowText x.UpdatedDateUTC true = some (text, some e)) →
      ∃ l e, bankTransactionsLoop nowText todo done = some (l, some e) := by
  induction todo with
  | nil => intro done h; simp at h
  | cons x todo ih =>
    intro done h
    have hn := decode_ne_none nowText x.UpdatedDateUTC true
    unfold bankTransactionsLoop
    split
    · contradiction
    · exact ⟨_, _, rfl⟩
    · rename_i text heq
      obtain ⟨y, hy, t, e, hye⟩ := h
      rcases List.mem_cons.mp hy with rfl | hy
      · rw [heq] at hye; simp at hye
      · exact ih _ ⟨y, hy, t, e, hye⟩

theorem reportsLoop_ok {α : Type} (nowText : String) (todo : List (Report α)) :
    ∀ done : List (Report α),
      (∀ x ∈ todo, ∀ text e,
        DotNetJSONTimeToRFC3339 nowText x.UpdatedDateUTC true ≠ some (text, some e)) →
      reportsLoop nowText todo done
        = some ((todo.reverse.map
            (fun x => { x with UpdatedDateUTC := decodedText nowText x.UpdatedDateUTC }))
              ++ done, none) := by
  induction todo with
  | nil => intro done _; simp [reportsLoop]
  | cons x todo ih =>
    intro done h
    have hx := h x (List.mem_cons_self _ _)
    have hn := decode_ne_none nowText x.UpdatedDateUTC true
    unfold reportsLoop
    split_ifs with hempty
    · split
      · contradiction
      · rename_i text err heq
        exact absurd heq (hx text err)
      · rename_i text heq
        rw [ih _ (fun y hy => h y (List.mem_cons_of_mem _ hy))]
        simp [decodedText_of_some nowText _ text none heq]
    · rw [ih _ (fun y hy => h y (List.mem_cons_of_mem _ hy))]
      have hx0 : x.UpdatedDateUTC = "" := by simpa using hempty
      have hd : decodedText nowText x.UpdatedDateUTC = x.UpdatedDateUTC := by
        rw [hx0]; simp [decodedText, DotNetJSONTimeToRFC3339]
      simp [hd]

theorem reportsLoop_err {α : Type} (nowText : String) (todo : List (Report α)) :
    ∀ done : List (Report α),
      (∃ x ∈ todo, ∃ text e,
        DotNetJSONTimeToRFC3339 nowText x.UpdatedDateUTC true = some (text, some e)) →
      ∃ l e, reportsLoop nowText todo done = some (l, some e) := by
  induction todo with
  | nil => intro done h; simp at h
  | cons x todo ih =>
    intro done h
    have hn := decode_ne_none nowText x.UpdatedDateUTC true
    obtain ⟨y, hy, t, e, hye⟩ := h
    unfold reportsLoop
    split_ifs with hempty
    · split
      · contradiction
      · exact ⟨_, _, rfl⟩
      · rename_i text heq
        rcases List.mem_cons.mp hy with rfl | hy
        · rw [heq] at hye; simp at hye
        · exact ih _ ⟨y, hy, t, e, hye⟩
    · rcases List.mem_cons.mp hy with rfl | hy
      · have hx0 : y.UpdatedDateUTC = "" := by simpa using hempty
        rw [hx0] at hye
        simp [DotNetJSONTimeToRFC3339] at hye
      · exact ih _ ⟨y, hy, t, e, hye⟩

/-- C30: date conversion of decoded collections. For a `BankTransactions` and
for a `Reports` collection, `convertDates` does not panic; it returns an error
exactly when decoding the `UpdatedDateUTC` of some element fails; otherwise the
collection afterwards is the original one with the `UpdatedDateUTC` of every
element replaced by the text that `DotNetJSONTimeToRFC3339(original, true)`
returns (the empty text for an empty value): the number and the order of the
elements and every other field, the `Date` of a transaction among them, are as
before. -/
theorem convertDates_spec {α β : Type} (nowText : String) (b : BankTransactions α)
    (r : Reports β) :
    ((∃ b' e, b.convertDates nowText = some (b', some e)) ↔
      ∃ x ∈ b.BankTransactions, ∃ text e,
        DotNetJSONTimeToRFC3339 nowText x.UpdatedDateUTC true = some (text, some e)) ∧
    (b.convertDates nowText
        = some (⟨b.BankTransactions.map
            (fun x => { x with UpdatedDateUTC := decodedText nowText x.UpdatedDateUTC })⟩, none) ∨
      ∃ b' e, b.convertDates nowText = some (b', some e)) ∧
    ((∃ r' e, r.convertDates nowText = some (r', some e)) ↔
      ∃ x ∈ r.Reports, ∃ text e,
        DotNetJSONTimeToRFC3339 nowText x.UpdatedDateUTC true = some (text, some e)) ∧
    (r.convertDates nowText
        = some (⟨r.Reports.map
            (fun x => { x with UpdatedDateUTC := decodedText nowText x.UpdatedDateUTC })⟩, none) ∨
      ∃ r' e, r.convertDates nowText = some (r', some e)) ∧
    (∀ s, (DotNetJSONTimeToRFC3339 nowText s true).map Prod.fst = some (decodedText nowText s)) ∧
    decodedText nowText "" = "" ∧
    (b.BankTransactions.map
      (fun x => { x with UpdatedDateUTC := decodedText nowText x.UpdatedDateUTC })).map
        (fun x => x.Date) = b.BankTransactions.map (fun x => x.Date) := by
  have hb : (∃ x ∈ b.BankTransactions, ∃ text e,
        DotNetJSONTimeToRFC3339 nowText x.UpdatedDateUTC true = some (text, some e)) ∨
      b.convertDates nowText = some (⟨b.BankTransactions.map
        (fun x => { x with UpdatedDateUTC := decodedText nowText x.UpdatedDateUTC })⟩, none) := by
    by_cases h : ∃ x ∈ b.BankTransactions, ∃ text e,
        DotNetJSONTimeToRFC3339 nowText x.UpdatedDateUTC true = some (text, some e)
    · exact Or.inl h
    · right
      have h2 : ∀ x ∈ b.BankTransactions.reverse, ∀ text e,
          DotNetJSONTimeToRFC3339 nowText x.UpdatedDateUTC true ≠ some (text, some e) := by
        intro x hx text e he
        exact h ⟨x, List.mem_reverse.mp hx, text, e, he⟩
      simp [BankTransactions.convertDates, bankTransactionsLoop_ok nowText _ [] h2]
  have hb2 : (∃ x ∈ b.BankTransactions, ∃ text e,
        DotNetJSONTimeToRFC3339 nowText x.UpdatedDateUTC true = some (text, some e)) →
      ∃ b' e, b.convertDates nowText = some (b', some e) := by
    rintro ⟨x, hx, text, e, he⟩
    obtain ⟨l, e', hl⟩ := bankTransactionsLoop_err nowText b.BankTransactions.reverse []
      ⟨x, List.mem_reverse.mpr hx, text, e, he⟩
    exact ⟨⟨l⟩, e', by simp [BankTransactions.convertDates, hl]⟩
  have hr : (∃ x ∈ r.Reports, ∃ text e,
        DotNetJSONTimeToRFC3339 nowText x.UpdatedDateUTC true = some (text, some e)) ∨
      r.convertDates nowText = some (⟨r.Reports.map
        (fun x => { x with UpdatedDateUTC := decodedText nowText x.UpdatedDateUTC })⟩, none) := by
    by_cases h : ∃ x ∈ r.Reports, ∃ text e,
        DotNetJSONTimeToRFC3339 nowText x.UpdatedDateUTC true = some (text, some e)
    · exact Or.inl h
    · right
      have h2 : ∀ x ∈ r.Reports.reverse, ∀ text e,
          DotNetJSONTimeToRFC3339 nowText x.UpdatedDateUTC true ≠ some (text, some e) := by
        intro x hx text e he
        exact h ⟨x, List.mem_reverse.mp hx, text, e, he⟩
      simp [Reports.convertDates, reportsLoop_ok nowText _ [] h2]
  have hr2 : (∃ x ∈ r.Reports, ∃ text e,
        DotNetJSONTimeToRFC3339 nowText x.UpdatedDateUTC true = some (text, some e)) →
      ∃ r' e, r.convertDates nowText = some (r', some e) := by
    rintro ⟨x, hx, text, e, he⟩
    obtain ⟨l, e', hl⟩ := reportsLoop_err nowText r.Reports.reverse []
      ⟨x, List.mem_reverse.mpr hx, text, e, he⟩
    exact ⟨⟨l⟩, e', by simp [Reports.convertDates, hl]⟩
  refine ⟨⟨?_, hb2⟩, ?_, ⟨?_, hr2⟩, ?_, ?_, ?_, ?_⟩
  · rintro ⟨b', e, he⟩
    rcases hb with h | h
    · exact h
    · rw [h] at he; simp at he
  · rcases hb with h | h
    · exact Or.inr (hb2 h)
    · exact Or.inl h
  · rintro ⟨r', e, he⟩
    rcases hr with h | h
    · exact h
    · rw [h] at he; simp at he
  · rcases hr with h | h
    · exact Or.inr (hr2 h)
    · exact Or.inl h
  · intro s
    have hn := decode_ne_none nowText s true
    unfold decodedText
    cases hd : DotNetJSONTimeToRFC3339 nowText s true with
    | none => exact absurd hd hn
    | some v => simp
  · simp [decodedText, DotNetJSONTimeToRFC3339]
  · simp [List.map_map, Function.comp_def]

theorem absYearDay_decomp (abs : Nat) :
    ∃ n400 n100 n4 n1 yday : Nat,
      absYearDay abs
        = (((400 * n400 + 100 * n100 + 4 * n4 + n1 : Nat) : Int) + (-292277022399), yday) ∧
      abs / 86400 = 146097 * n400 + 36524 * n100 + 1461 * n4 + 365 * n1 + yday ∧
      n100 ≤ 3 ∧ n4 ≤ 24 ∧ n1 ≤ 3 ∧
      (yday ≤ 364 ∨ (yday = 365 ∧ n1 = 3 ∧ (n4 < 24 ∨ n100 = 3))) := by
  unfold absYearDay
  simp only []
  generalize abs / 86400 = q
  have hq := Nat.div_add_mod q 146097
  have hi : q % 146097 < 146097 := Nat.mod_lt _ (by omega)
  have hsub : q - 146097 * (q / 146097) = q % 146097 := by omega
  rw [hsub]
  generalize q % 146097 = i at hq hi ⊢
  generalize q / 146097 = n400 at hq ⊢
  have hj : i / 36524 ≤ 4 := by omega
  have hjb : 36524 * (i / 36524) ≤ i ∧ i < 36524 * (i / 36524) + 36524 := by omega
  generalize i / 36524 = j at hj hjb ⊢
  have hn100 : j - j / 4 ≤ 3 := by omega
  have hd2 : i - 36524 * (j - j / 4) ≤ 36524 ∧ (j - j / 4 < 3 → i - 36524 * (j - j / 4) < 36524)
      ∧ i = 36524 * (j - j / 4) + (i - 36524 * (j - j / 4)) := by omega
  generalize j - j / 4 = n100 at hn100 hd2 ⊢
  generalize i - 36524 * n100 = d2 at hd2 ⊢
  have hn4 : d2 / 1461 ≤ 24 := by omega
  have hkb : 1461 * (d2 / 1461) ≤ d2 ∧ d2 < 1461 * (d2 / 1461) + 1461 := by omega
  generalize d2 / 1461 = n4 at hn4 hkb ⊢
  have hd3 : d2 = 1461 * n4 + (d2 - 1461 * n4) ∧ d2 - 1461 * n4 < 1461 := by omega
  generalize d2 - 1461 * n4 = d3 at hd3 ⊢
  have hl : d3 / 365 ≤ 4 := by omega
  have hlb : 365 * (d3 / 365) ≤ d3 ∧ d3 < 365 * (d3 / 365) + 365 := by omega
  generalize d3 / 365 = l at hl hlb ⊢
  refine ⟨n400, n100, n4, l - l / 4, d3 - 365 * (l - l / 4), ?_, ?_, hn100, hn4, by omega, ?_⟩
  · congr 1
  · omega
  · omega

theorem daysSinceEpoch_cycles (n400 n100 n4 n1 : Nat) (h100 : n100 ≤ 3) (h4 : n4 ≤ 24)
    (h1 : n1 ≤ 3) (hy : 400 * n400 + 100 * n100 + 4 * n4 + n1 < 18446744073709551616) :
    daysSinceEpoch (((400 * n400 + 100 * n100 + 4 * n4 + n1 : Nat) : Int) + (-292277022399))
      = 146097 * n400 + 36524 * n100 + 1461 * n4 + 365 * n1 := by
  unfold daysSinceEpoch
  simp only []
  have e : ((((400 * n400 + 100 * n100 + 4 * n4 + n1 : Nat) : Int) + (-292277022399)
      - (-292277022399)) % 18446744073709551616).toNat
        = 400 * n400 + 100 * n100 + 4 * n4 + n1 := by omega
  rw [e]
  have a1 : (400 * n400 + 100 * n100 + 4 * n4 + n1) / 400 = n400 := by omega
  rw [a1]
  have a2 : 400 * n400 + 100 * n100 + 4 * n4 + n1 - 400 * n400 = 100 * n100 + 4 * n4 + n1 := by
    omega
  rw [a2]
  have a3 : (100 * n100 + 4 * n4 + n1) / 100 = n100 := by omega
  rw [a3]
  have a4 : 100 * n100 + 4 * n4 + n1 - 100 * n100 = 4 * n4 + n1 := by omega
  rw [a4]
  have a5 : (4 * n4 + n1) / 4 = n4 := by omega
  rw [a5]
  have a6 : 4 * n4 + n1 - 4 * n4 = n1 := by omega
  rw [a6]

theorem isLeap_cycles (n400 n100 n4 n1 : Nat) (h100 : n100 ≤ 3) (h4 : n4 ≤ 24) (h1 : n1 ≤ 3) :
    isLeap (((400 * n400 + 100 * n100 + 4 * n4 + n1 : Nat) : Int) + (-292277022399))
      = decide (n1 = 3 ∧ (n4 < 24 ∨ n100 = 3)) := by
  unfold isLeap
  generalize hY : ((400 * n400 + 100 * n100 + 4 * n4 + n1 : Nat) : Int) + (-292277022399) = Y
  have m4 : Y % 4 = ((n1 : Int) + 1) % 4 := by omega
  have m100 : Y % 100 = (4 * (n4 : Int) + n1 + 1) % 100 := by omega
  have m400 : Y % 400 = (100 * (n100 : Int) + 4 * n4 + n1 + 1) % 400 := by omega
  by_cases c : n1 = 3 ∧ (n4 < 24 ∨ n100 = 3)
  · rw [decide_eq_true c]
    simp only [Bool.and_eq_true, Bool.or_eq_true, beq_iff_eq, bne_iff_ne, ne_eq]
    omega
  · rw [decide_eq_false c]
    simp only [Bool.and_eq_false_iff, Bool.or_eq_false_iff, beq_eq_false_iff_ne, ne_eq,
      bne_eq_false_iff_eq]
    omega

set_option maxRecDepth 100000 in
theorem monthDayOfInverts_false : ∀ yday, yday < 365 → monthDayOfInverts false yday = true := by
  decide

set_option maxRecDepth 100000 in
theorem monthDayOfInverts_true : ∀ yday, yday < 366 → monthDayOfInverts true yday = true := by
  decide

theorem monthDay_eq_monthDayOf (year : Int) (yday : Nat) :
    monthDay year yday = monthDayOf (isLeap year) yday := rfl

theorem monthDay_inverse (year : Int) (yday : Nat)
    (h : yday ≤ 364 ∨ (yday = 365 ∧ isLeap year = true)) :
    1 ≤ (monthDay year yday).1 ∧ (monthDay year yday).1 ≤ 12 ∧
    1 ≤ (monthDay year yday).2 ∧ (monthDay year yday).2 ≤ daysIn (monthDay year yday).1 year ∧
    daysBefore.getD ((monthDay year yday).1 - 1) 0
      + (if isLeap year && decide ((monthDay year yday).1 ≥ 3) then 1 else 0)
      + ((monthDay year yday).2 - 1) = yday := by
  have key : monthDayOfInverts (isLeap year) yday = true := by
    cases hL : isLeap year
    · refine monthDayOfInverts_false yday ?_
      rcases h with h | ⟨_, h⟩
      · omega
      · rw [hL] at h; exact absurd h (by decide)
    · exact monthDayOfInverts_true yday (by omega)
  rw [monthDay_eq_monthDayOf]
  unfold daysIn
  simp only [monthDayOfInverts, Bool.and_eq_true, decide_eq_true_eq] at key
  obtain ⟨⟨⟨⟨k1, k2⟩, k3⟩, k4⟩, k5⟩ := key
  refine ⟨k1, k2, k3, k4, ?_⟩
  simpa only [Bool.and_eq_true, decide_eq_true_eq] using k5

theorem norm_id (hi lo base : Int) (h1 : 0 ≤ lo) (h2 : lo < base) : norm hi lo base = (hi, lo) := by
  unfold norm
  have a : ¬ lo < 0 := by omega
  have b : ¬ lo ≥ base := by omega
  simp [a, b]

theorem Date_absDate (abs : Nat) (habs : abs < 18446744073709551616) (hour min sec : Int)
    (hh : 0 ≤ hour ∧ hour < 24) (hm : 0 ≤ min ∧ min < 60) (hs : 0 ≤ sec ∧ sec < 60) :
    Date (absYearDay abs).1 (monthDay (absYearDay abs).1 (absYearDay abs).2).1
        (monthDay (absYearDay abs).1 (absYearDay abs).2).2 hour min sec
      = wrap64 (wrap64 ((((abs / 86400 : Nat) : Int) * 86400 + (hour * 3600 + min * 60 + sec))
          % 18446744073709551616) + (-9223372028715321600)) ∧
    1 ≤ (monthDay (absYearDay abs).1 (absYearDay abs).2).1 ∧
    (monthDay (absYearDay abs).1 (absYearDay abs).2).1 ≤ 12 ∧
    1 ≤ (monthDay (absYearDay abs).1 (absYearDay abs).2).2 ∧
    (monthDay (absYearDay abs).1 (absYearDay abs).2).2
      ≤ daysIn (monthDay (absYearDay abs).1 (absYearDay abs).2).1 (absYearDay abs).1 := by
  obtain ⟨n400, n100, n4, n1, yday, hyd, hq, h100, h4, h1, hlast⟩ := absYearDay_decomp abs
  rw [hyd]
  simp only []
  have hleap := isLeap_cycles n400 n100 n4 n1 h100 h4 h1
  have hdse := daysSinceEpoch_cycles n400 n100 n4 n1 h100 h4 h1 (by omega)
  generalize ((400 * n400 + 100 * n100 + 4 * n4 + n1 : Nat) : Int) + (-292277022399) = year
    at hleap hdse ⊢
  have hmd := monthDay_inverse year yday (by
    rcases hlast with h | ⟨a, b, c⟩
    · exact Or.inl h
    · exact Or.inr ⟨a, by rw [hleap]; exact decide_eq_true ⟨b, c⟩⟩)
  obtain ⟨m1, m12, d1, dIn, hsum⟩ := hmd
  generalize monthDay year yday = md at m1 m12 d1 dIn hsum ⊢
  refine ⟨?_, m1, m12, d1, dIn⟩
  unfold Date
  rw [norm_id year ((md.1 : Int) - 1) 12 (by omega) (by omega), norm_id min sec 60 hs.1 hs.2]
  simp only []
  rw [norm_id hour min 60 hm.1 hm.2]
  simp only []
  rw [norm_id (md.2 : Int) hour 24 hh.1 hh.2]
  simp only []
  have e1 : ((md.1 : Int) - 1 + 1 - 1).toNat = md.1 - 1 := by omega
  have e2 : decide ((md.1 : Int) - 1 + 1 ≥ 3) = decide (md.1 ≥ 3) := by
    apply decide_eq_decide.mpr
    omega
  rw [e1, e2]
  have e3 : (if (isLeap year && decide (md.1 ≥ 3)) = true then
        ((daysSinceEpoch year : Nat) : Int) + ((daysBefore.getD (md.1 - 1) 0 : Nat) : Int) + 1
      else ((daysSinceEpoch year : Nat) : Int) + ((daysBefore.getD (md.1 - 1) 0 : Nat) : Int))
        + ((md.2 : Int) - 1) = ((abs / 86400 : Nat) : Int) := by
    rw [hq, hdse]
    split_ifs with hc
    · rw [if_pos hc] at hsum; omega
    · rw [if_neg hc] at hsum; omega
  rw [e3]

theorem readDigits_twoDigits (u : Nat) (h : u < 100) : readDigits (twoDigits u) = some u := by
  obtain ⟨a1, a2, _⟩ := digitChar_spec (u / 10) (by omega)
  obtain ⟨b1, b2, _⟩ := digitChar_spec (u % 10) (by omega)
  unfold readDigits twoDigits
  simp only [List.all_cons, List.all_nil, a1, b1, Bool.and_self, if_true, decimalValue,
    List.foldl_cons, List.foldl_nil, a2, b2]
  congr 1
  omega

theorem readDigits_fourDigits (u : Nat) (h : u < 10000) :
    readDigits (fourDigits u) = some u := by
  obtain ⟨a1, a2, _⟩ := digitChar_spec (u / 1000) (by omega)
  obtain ⟨b1, b2, _⟩ := digitChar_spec (u / 100 % 10) (by omega)
  obtain ⟨c1, c2, _⟩ := digitChar_spec (u / 10 % 10) (by omega)
  obtain ⟨d1, d2, _⟩ := digitChar_spec (u % 10) (by omega)
  unfold readDigits fourDigits
  simp only [List.all_cons, List.all_nil, a1, b1, c1, d1, Bool.and_self, if_true, decimalValue,
    List.foldl_cons, List.foldl_nil, a2, b2, c2, d2]
  congr 1
  omega

theorem appendInt_twoDigits (u : Nat) (h : u < 100) : appendInt (u : Int) 2 = twoDigits u :=
  appendInt_two u h

theorem appendInt_fourDigits (x : Int) (h1 : 0 ≤ x) (h2 : x ≤ 9999) :
    appendInt x 4 = fourDigits x.toNat := by
  rw [appendInt_four x h1 (by omega)]
  unfold fourDigits
  have e : x.natAbs = x.toNat := by omega
  rw [e]
  generalize x.toNat = u
  have e1 : u / 100 / 10 = u / 1000 := by omega
  have e2 : u % 100 / 10 = u / 10 % 10 := by omega
  have e3 : u % 100 % 10 = u % 10 := by omega
  rw [e1, e2, e3]

theorem absYearDay_congr (a b : Nat) (h : a / 86400 = b / 86400) :
    absYearDay a = absYearDay b := by
  unfold absYearDay
  rw [h]

theorem absClock_bounds (abs : Nat) :
    (absClock abs).1 < 24 ∧ (absClock abs).2.1 < 60 ∧ (absClock abs).2.2 < 60 ∧
    (absClock abs).1 * 3600 + (absClock abs).2.1 * 60 + (absClock abs).2.2 = abs % 86400 := by
  unfold absClock
  simp only []
  omega

theorem formatRFC3339UTC_fields (sec : Int)
    (hy : 0 ≤ (absYearDay (unixToAbs sec)).1 ∧ (absYearDay (unixToAbs sec)).1 ≤ 9999) :
    formatRFC3339UTC sec
      = fourDigits (absYearDay (unixToAbs sec)).1.toNat ++ ['-']
        ++ twoDigits (monthDay (absYearDay (unixToAbs sec)).1 (absYearDay (unixToAbs sec)).2).1
        ++ ['-']
        ++ twoDigits (monthDay (absYearDay (unixToAbs sec)).1 (absYearDay (unixToAbs sec)).2).2
        ++ ['T'] ++ twoDigits (absClock (unixToAbs sec)).1 ++ [':']
        ++ twoDigits (absClock (unixToAbs sec)).2.1 ++ [':']
        ++ twoDigits (absClock (unixToAbs sec)).2.2 ++ ['Z'] := by
  have hmd := monthDay_lt (absYearDay (unixToAbs sec)).1 (absYearDay (unixToAbs sec)).2
    (absYearDay_day_le _)
  obtain ⟨c1, c2, c3, _⟩ := absClock_bounds (unixToAbs sec)
  unfold formatRFC3339UTC
  simp only [appendInt_fourDigits _ hy.1 hy.2, appendInt_twoDigits _ hmd.1,
    appendInt_twoDigits _ hmd.2,
    appendInt_twoDigits _ (show (absClock (unixToAbs sec)).1 < 100 by omega),
    appendInt_twoDigits _ (show (absClock (unixToAbs sec)).2.1 < 100 by omega),
    appendInt_twoDigits _ (show (absClock (unixToAbs sec)).2.2 < 100 by omega)]

theorem unixToAbs_lt (sec : Int) : unixToAbs sec < 18446744073709551616 := by
  unfold unixToAbs
  omega

theorem unixToAbs_Date (abs : Nat) (habs : abs < 18446744073709551616) :
    unixToAbs (wrap64 (wrap64 ((abs : Int) % 18446744073709551616) + (-9223372028715321600)))
      = abs := by
  unfold unixToAbs wrap64
  omega

theorem FormatDate_of_abs (date : Time) :
    FormatDate date
      = TrimSuffix (formatRFC3339UTC (wrap64 (wrap64
          ((((date.abs / 86400 * 86400 : Nat) : Int)) % 18446744073709551616)
            + (-9223372028715321600)))) ['Z'] := by
  have hlt := unixToAbs_lt (date.unix + date.offset)
  have h := (Date_absDate date.abs hlt 0 0 0 (by omega) (by omega) (by omega)).1
  unfold FormatDate Time.Year Time.Month Time.Day
  simp only []
  rw [h]
  simp only [Int.mul_zero, Int.zero_mul, Int.add_zero, Nat.cast_mul, Nat.cast_ofNat]

/-- C24: `FormatDate` emits a date-only, zone-less text. For a time value whose
year is in 0..9999 the result is the 19 characters `YYYY-MM-DDT00:00:00` made of
the four digits of the year, the two digits of the month and the two digits of
the day that the value reports; it does not end in `Z`. A second value that
shows the same day on its wall clock, whatever its hour, minute, second and
nanosecond, gives the same text. -/
theorem format_date_is_date_only (date other : Time)
    (hy : 0 ≤ date.Year ∧ date.Year ≤ 9999)
    (hday : other.abs / 86400 = date.abs / 86400) :
    FormatDate date
      = fourDigits date.Year.toNat ++ ['-'] ++ twoDigits date.Month ++ ['-']
        ++ twoDigits date.Day ++ ['T', '0', '0', ':', '0', '0', ':', '0', '0'] ∧
    (FormatDate date).length = 19 ∧
    (FormatDate date).getLast? = some '0' ∧
    FormatDate other = FormatDate date := by
  have hlt := unixToAbs_lt (date.unix + date.offset)
  have hq : date.abs / 86400 * 86400 < 18446744073709551616 := by
    have := Nat.div_mul_le_self date.abs 86400
    unfold Time.abs at *
    omega
  have hfmt : FormatDate date
      = fourDigits date.Year.toNat ++ ['-'] ++ twoDigits date.Month ++ ['-']
        ++ twoDigits date.Day ++ ['T', '0', '0', ':', '0', '0', ':', '0', '0'] := by
    rw [FormatDate_of_abs]
    have hu := unixToAbs_Date (date.abs / 86400 * 86400) hq
    have hyd : absYearDay (date.abs / 86400 * 86400) = absYearDay date.abs :=
      absYearDay_congr _ _ (by omega)
    have hck : absClock (date.abs / 86400 * 86400) = (0, 0, 0) := by
      unfold absClock
      simp
    rw [formatRFC3339UTC_fields _ (by rw [hu, hyd]; exact hy), hu, hyd, hck, TrimSuffix_Z]
    rfl
  refine ⟨hfmt, ?_, ?_, ?_⟩
  · rw [hfmt]
    simp [fourDigits, twoDigits]
  · rw [hfmt]
    simp [fourDigits, twoDigits]
  · rw [FormatDate_of_abs, FormatDate_of_abs, hday]

theorem format_date_is_date_only_witness :
    (0 ≤ (Time.mk 1494247159 5 7200).Year ∧ (Time.mk 1494247159 5 7200).Year ≤ 9999) ∧
    (Time.mk 1494201600 0 0).abs / 86400 = (Time.mk 1494247159 5 7200).abs / 86400 ∧
    FormatDate (Time.mk 1494247159 5 7200)
      = fourDigits (Time.mk 1494247159 5 7200).Year.toNat ++ ['-']
        ++ twoDigits (Time.mk 1494247159 5 7200).Month ++ ['-']
        ++ twoDigits (Time.mk 1494247159 5 7200).Day
        ++ ['T', '0', '0', ':', '0', '0', ':', '0', '0'] ∧
    FormatDate (Time.mk 1494247159 5 7200) = "2017-05-08T00:00:00".toList ∧
    FormatDate (Time.mk 1494201600 0 0) = FormatDate (Time.mk 1494247159 5 7200) :=
  have h := format_date_is_date_only (Time.mk 1494247159 5 7200) (Time.mk 1494201600 0 0)
    (by decide) (by decide)
  ⟨by decide, by decide, h.1, by rfl, h.2.2.2⟩

theorem decode_whole_seconds (nowText : String) (t : Nat) (ht : t ≤ 253402300799) :
    DotNetJSONTimeToRFC3339 nowText ("/Date(" ++ toString (1000 * t) ++ "+0000)/") true
      = some (String.mk (formatRFC3339UTC (t : Int)), none) := by
  obtain ⟨h1, h2, h3⟩ := toDigits_spec (1000 * t)
  have h := decode_plus nowText (Nat.toDigits 10 (1000 * t)) ['0', '0', '0', '0'] true h1
    (by simp) h2 (by decide) (by rw [h3]; omega) (by decide)
  rw [h3] at h
  have hw : wrap64 (((1000 * t / 1000 : Nat) : Int) + (decimalValue 0 ['0', '0', '0', '0'] : Int))
      = (t : Int) := by
    rw [show (decimalValue 0 ['0', '0', '0', '0'] : Int) = 0 by decide, add_zero,
      Nat.mul_div_cancel_left t (by omega)]
    exact wrap64_of_small (by omega) (by omega)
  rw [hw] at h
  have hstr : "/Date(" ++ toString (1000 * t) ++ "+0000)/"
      = "/Date(" ++ String.mk (Nat.toDigits 10 (1000 * t)) ++ "+"
        ++ String.mk ['0', '0', '0', '0'] ++ ")/" := by
    rw [String.ext_iff]
    simp only [String.data_append, List.append_assoc]
    rfl
  rw [hstr, h]
  rfl

theorem readRFC3339UTC_fields (y m d h n s : Nat) :
    readRFC3339UTC (fourDigits y ++ ['-'] ++ twoDigits m ++ ['-'] ++ twoDigits d ++ ['T']
        ++ twoDigits h ++ [':'] ++ twoDigits n ++ [':'] ++ twoDigits s ++ ['Z'])
      = match readDigits (fourDigits y), readDigits (twoDigits m), readDigits (twoDigits d),
          readDigits (twoDigits h), readDigits (twoDigits n), readDigits (twoDigits s) with
        | some year, some month, some day, some hour, some min, some sec =>
          if 1 ≤ month ∧ month ≤ 12 ∧ 1 ≤ day ∧ day ≤ daysIn month year ∧ hour < 24 ∧ min < 60
              ∧ sec < 60 then
            some (Date year month day hour min sec)
          else none
        | _, _, _, _, _, _ => none := by
  unfold readRFC3339UTC
  simp only [fourDigits, twoDigits, List.cons_append, List.nil_append, List.append_assoc]
  exact if_pos trivial

theorem wrap64_unix_of_abs (t : Int) (h1 : 0 ≤ t) (h2 : t ≤ 253402300799) :
    wrap64 (wrap64 ((t + 9223372028715321600) % 18446744073709551616)
      + (-9223372028715321600)) = t := by
  unfold wrap64
  omega

theorem absClock_sum (a : Nat) :
    ((a / 86400 : Nat) : Int) * 86400
      + (((absClock a).1 : Int) * 3600 + ((absClock a).2.1 : Int) * 60 + ((absClock a).2.2 : Int))
        = (a : Int) := by
  have c4 := (absClock_bounds a).2.2.2
  have hdm := Nat.div_add_mod a 86400
  omega

theorem toNat_lt_of_le (x : Int) (h0 : 0 ≤ x) (h : x ≤ 9999) :
    x.toNat < 10000 ∧ ((x.toNat : Nat) : Int) = x := by
  omega

theorem readRFC3339UTC_format (t : Nat) (ht : t ≤ 253402300799) :
    readRFC3339UTC (formatRFC3339UTC (t : Int)) = some (t : Int) := by
  have habs := unixToAbs_of_small (t : Int) (by omega) (by omega)
  have hyear := absYearDay_year_range (unixToAbs t) (by rw [habs]; omega) (by rw [habs]; omega)
  have hlt := unixToAbs_lt (t : Int)
  have habs2 : (unixToAbs t : Int) = t + 9223372028715321600 := by omega
  obtain ⟨c1, c2, c3, _⟩ := absClock_bounds (unixToAbs t)
  obtain ⟨hD, m1, m12, d1, dIn⟩ := Date_absDate (unixToAbs t) hlt
    ((absClock (unixToAbs t)).1 : Int) ((absClock (unixToAbs t)).2.1 : Int)
    ((absClock (unixToAbs t)).2.2 : Int) (by omega) (by omega) (by omega)
  rw [absClock_sum, habs2, wrap64_unix_of_abs t (by omega) (by omega)] at hD
  have hy0 : 0 ≤ (absYearDay (unixToAbs t)).1 := le_trans (by decide) hyear.1
  obtain ⟨hy4, hcast⟩ := toNat_lt_of_le _ hy0 hyear.2
  have hmd := monthDay_lt (absYearDay (unixToAbs t)).1 (absYearDay (unixToAbs t)).2
    (absYearDay_day_le _)
  rw [formatRFC3339UTC_fields _ ⟨hy0, hyear.2⟩, readRFC3339UTC_fields,
    readDigits_fourDigits _ hy4, readDigits_twoDigits _ hmd.1,
    readDigits_twoDigits _ hmd.2, readDigits_twoDigits _ (lt_trans c1 (by decide)),
    readDigits_twoDigits _ (lt_trans c2 (by decide)),
    readDigits_twoDigits _ (lt_trans c3 (by decide))]
  simp only []
  rw [hcast, if_pos ⟨m1, m12, d1, dIn, c1, c2, c3⟩, hD]

theorem bind_read (l : List Char) (e : Option NumError) (f : List Char → Option Int) :
    (some (String.mk l, e)).bind (fun r => f r.1.toList) = f l := rfl

/-- C23: round trip. For an instant `t` at whole seconds with
`0 ≤ t ≤ 253402300799`, the legacy text `/Date(<1000*t>+0000)/` decodes with
`isUTC = true`, with no error, to the RFC 3339 text of `t`, and reading that
text back as an RFC 3339 date-time gives `t` again; so two such instants whose
legacy texts decode to the same result are equal. -/
theorem decode_round_trip (nowText : String) (t u : Nat) (ht : t ≤ 253402300799)
    (hu : u ≤ 253402300799) :
    DotNetJSONTimeToRFC3339 nowText ("/Date(" ++ toString (1000 * t) ++ "+0000)/") true
      = some (String.mk (formatRFC3339UTC (t : Int)), none) ∧
    ((DotNetJSONTimeToRFC3339 nowText ("/Date(" ++ toString (1000 * t) ++ "+0000)/") true).bind
      (fun r => readRFC3339UTC r.1.toList)) = some (t : Int) ∧
    (DotNetJSONTimeToRFC3339 nowText ("/Date(" ++ toString (1000 * u) ++ "+0000)/") true
      = DotNetJSONTimeToRFC3339 nowText ("/Date(" ++ toString (1000 * t) ++ "+0000)/") true →
      u = t) := by
  have h1 := decode_whole_seconds nowText t ht
  have h2 := decode_whole_seconds nowText u hu
  have r1 := readRFC3339UTC_format t ht
  have r2 := readRFC3339UTC_format u hu
  refine ⟨h1, ?_, ?_⟩
  · rewrite [h1]
    generalize formatRFC3339UTC (t : Int) = l at r1 ⊢
    rw [bind_read l none readRFC3339UTC]
    exact r1
  · intro h
    rw [h1, h2] at h
    generalize formatRFC3339UTC (u : Int) = lu at h r2
    generalize formatRFC3339UTC (t : Int) = lt at h r1
    have e : lu = lt := congrArg String.data (Prod.mk.inj (Option.some.inj h)).1
    rw [e, r1] at r2
    have e2 : (t : Int) = (u : Int) := Option.some.inj r2
    omega

theorem decode_round_trip_witness :
    (1494201600 : Nat) ≤ 253402300799 ∧
    ((DotNetJSONTimeToRFC3339 "now" ("/Date(" ++ toString (1000 * 1494201600) ++ "+0000)/")
      true).bind (fun r => readRFC3339UTC r.1.toList)) = some ((1494201600 : Nat) : Int) :=
  ⟨by decide, (decode_round_trip "now" 1494201600 0 (by decide) (by decide)).2.1⟩

theorem RegisterState.run_alone (p : Oauth2Provider) (t : Int) (rt : Tracker) :
    (((RegisterState.start t).step p rt).bind (fun r => (r.1.step p r.2).bind
      (fun r => r.1.step p r.2))) = (RegisterRequestTimestamp p t rt).map (fun rt1 => (.done, rt1)) := by
  unfold RegisterRequestTimestamp
  cases h : rt p.TenantID with
  | none => simp [RegisterState.step, h]
  | some ts =>
    by_cases hl : ts.length ≥ 60
    · simp [RegisterState.step, h, hl]
    · simp [RegisterState.step, h, hl]

/-- C27: the tracker is not safe for parallel callers. The statements of
`RegisterRequestTimestamp`, run by one caller alone, are the method; nothing
serializes two callers, and their statements can interleave. Two callers that
register the instants 1 and 2 for tenant `T`, one after the other, leave both
instants; in the interleaving in which both read the sequence before either
writes it, the instant 1 is lost. From a sequence of 59 instants, the
interleaving in which both pass the length check before either appends leaves
61 instants. -/
theorem parallel_registers_lose_instant :
    (∀ (p : Oauth2Provider) (t : Int) (rt : Tracker),
      (((RegisterState.start t).step p rt).bind (fun r => (r.1.step p r.2).bind
        (fun r => r.1.step p r.2)))
        = (RegisterRequestTimestamp p t rt).map (fun rt1 => (.done, rt1))) ∧
    (runParallel ⟨"xerogolang", "T", false⟩ [false, false, false, true, true, true]
        (.start 1, .start 2) (singleTracker "T" [])).map (fun r => (r.1, r.2 "T"))
      = some ((.done, .done), some [1, 2]) ∧
    (runParallel ⟨"xerogolang", "T", false⟩ [false, false, true, true, false, true]
        (.start 1, .start 2) (singleTracker "T" [])).map (fun r => (r.1, r.2 "T"))
      = some ((.done, .done), some [2]) ∧
    (runParallel ⟨"xerogolang", "T", false⟩ [false, true, false, false, true, true]
        (.start 1, .start 2) (singleTracker "T" (List.replicate 59 0))).map
          (fun r => (r.1, (r.2 "T").map List.length))
      = some ((.done, .done), some 61) := by
  refine ⟨RegisterState.run_alone, ?_, ?_, ?_⟩ <;> rfl

end Xero
